import Mathlib

/-!
Verification of the rnix expression parser (src/parser/mod.rs).

The development shallowly embeds the parser in Lean:
tokenizer-side data (Span, Meta, Token, Value) and the arena are modelled
from the specification because they live outside the parser source file;
every parser function is translated from src/parser/mod.rs, with the
Rust iterator plus two-slot pushback buffer represented as a token list
(peek = head, next = uncons, push = cons), mutable arena inserts as
explicit state passing, and recursion made total with a fuel parameter
(exhausted fuel is reported by a distinguished outcome that is neither
success nor a parse error).
-/

set_option maxHeartbeats 1000000

namespace Rnix

/-- Modelled from the spec: tokenizer Span, not under src/.
Byte offsets with optional end, field stop is named end in the source.
Supports an until operation from self.start to other.end. -/
structure Span where
  start : Nat
  stop : Option Nat
deriving DecidableEq, Repr

/-- Modelled from the spec: Span.until returns a span from self.start to other.end. -/
def Span.until (s o : Span) : Span := ⟨s.start, o.stop⟩

/-- Span coverage used to state the span-containment property: the outer span
starts no later than the inner one and ends no earlier (a missing outer end is
unbounded, a missing inner end below a bounded outer end is not covered). -/
def Span.covers (outer inner : Span) : Bool :=
  decide (outer.start ≤ inner.start) &&
    match inner.stop, outer.stop with
    | _, none => true
    | none, some _ => false
    | some i, some o => decide (i ≤ o)

/-- Modelled from the spec: trivia (whitespace, comments) attached to tokens,
never inspected by the parser, preserved verbatim. Constructors follow the
uses of tokenizer Trivia visible in the parser tests. -/
inductive Trivia where
  | comment (span : Span) (multiline : Bool) (content : String)
  | spaces (n : Nat)
deriving DecidableEq, Repr

/-- Modelled from the spec: Meta carries the token span plus leading and
trailing trivia. -/
structure Meta where
  span : Span
  leading : List Trivia
  trailing : List Trivia
deriving DecidableEq, Repr

/-- Modelled from the spec: values (integer, float, boolean, string, path,
null) already materialised by the tokenizer and opaque to the parser.
Floats are carried as their source text so equality stays decidable. -/
inductive Value where
  | int (i : Int)
  | float (text : String)
  | bool (b : Bool)
  | str (s : String)
  | path (anchor : String) (p : String)
  | null
deriving DecidableEq, Repr

mutual
/-- Modelled from the spec: the token alphabet consumed by the parser
(identifiers, values, interpolated strings, dynamic attribute token slices,
punctuation, operators and keywords). Keyword constructors carry a Kw
suffix and the at sign is named atTk where Lean reserves the plain name. -/
inductive Token where
  | ident (s : String)
  | value (v : Value)
  | interpol (multiline : Bool) (parts : List TokenInterpol)
  | dynamic (tokens : List (Meta × Token)) (close : Meta)
  | parenOpen
  | parenClose
  | squareBOpen
  | squareBClose
  | curlyBOpen
  | curlyBClose
  | dot
  | comma
  | semicolon
  | colon
  | atTk
  | question
  | ellipsis
  | assign
  | add
  | sub
  | mul
  | div
  | concat
  | merge
  | equal
  | notEqual
  | less
  | lessOrEq
  | more
  | moreOrEq
  | and
  | or
  | implication
  | invert
  | letKw
  | inKw
  | recKw
  | withKw
  | ifKw
  | thenKw
  | elseKw
  | assertKw
  | importKw
  | inheritKw
/-- Modelled from the spec: one part of an interpolated string token, either
literal text or an owned token slice with the closing brace meta. -/
inductive TokenInterpol where
  | literal (s : String)
  | tokens (toks : List (Meta × Token)) (close : Meta)
end

mutual
/-- Structural equality on tokens, mirroring the derived PartialEq used by
expect and the peek comparisons in the parser (one outer match arm per
constructor so that the equations stay small). -/
def Token.beq : Token → Token → Bool
  | .ident x => fun b =>
      match b with
      | .ident y => x == y
      | _ => false
  | .value x => fun b =>
      match b with
      | .value y => x == y
      | _ => false
  | .interpol am ap => fun b =>
      match b with
      | .interpol bm bp => am == bm && TokenInterpol.beqList ap bp
      | _ => false
  | .dynamic ta ca => fun b =>
      match b with
      | .dynamic tb cb => beqStream ta tb && ca == cb
      | _ => false
  | .parenOpen => fun b =>
      match b with
      | .parenOpen => true
      | _ => false
  | .parenClose => fun b =>
      match b with
      | .parenClose => true
      | _ => false
  | .squareBOpen => fun b =>
      match b with
      | .squareBOpen => true
      | _ => false
  | .squareBClose => fun b =>
      match b with
      | .squareBClose => true
      | _ => false
  | .curlyBOpen => fun b =>
      match b with
      | .curlyBOpen => true
      | _ => false
  | .curlyBClose => fun b =>
      match b with
      | .curlyBClose => true
      | _ => false
  | .dot => fun b =>
      match b with
      | .dot => true
      | _ => false
  | .comma => fun b =>
      match b with
      | .comma => true
      | _ => false
  | .semicolon => fun b =>
      match b with
      | .semicolon => true
      | _ => false
  | .colon => fun b =>
      match b with
      | .colon => true
      | _ => false
  | .atTk => fun b =>
      match b with
      | .atTk => true
      | _ => false
  | .question => fun b =>
      match b with
      | .question => true
      | _ => false
  | .ellipsis => fun b =>
      match b with
      | .ellipsis => true
      | _ => false
  | .assign => fun b =>
      match b with
      | .assign => true
      | _ => false
  | .add => fun b =>
      match b with
      | .add => true
      | _ => false
  | .sub => fun b =>
      match b with
      | .sub => true
      | _ => false
  | .mul => fun b =>
      match b with
      | .mul => true
      | _ => false
  | .div => fun b =>
      match b with
      | .div => true
      | _ => false
  | .concat => fun b =>
      match b with
      | .concat => true
      | _ => false
  | .merge => fun b =>
      match b with
      | .merge => true
      | _ => false
  | .equal => fun b =>
      match b with
      | .equal => true
      | _ => false
  | .notEqual => fun b =>
      match b with
      | .notEqual => true
      | _ => false
  | .less => fun b =>
      match b with
      | .less => true
      | _ => false
  | .lessOrEq => fun b =>
      match b with
      | .lessOrEq => true
      | _ => false
  | .more => fun b =>
      match b with
      | .more => true
      | _ => false
  | .moreOrEq => fun b =>
      match b with
      | .moreOrEq => true
      | _ => false
  | .and => fun b =>
      match b with
      | .and => true
      | _ => false
  | .or => fun b =>
      match b with
      | .or => true
      | _ => false
  | .implication => fun b =>
      match b with
      | .implication => true
      | _ => false
  | .invert => fun b =>
      match b with
      | .invert => true
      | _ => false
  | .letKw => fun b =>
      match b with
      | .letKw => true
      | _ => false
  | .inKw => fun b =>
      match b with
      | .inKw => true
      | _ => false
  | .recKw => fun b =>
      match b with
      | .recKw => true
      | _ => false
  | .withKw => fun b =>
      match b with
      | .withKw => true
      | _ => false
  | .ifKw => fun b =>
      match b with
      | .ifKw => true
      | _ => false
  | .thenKw => fun b =>
      match b with
      | .thenKw => true
      | _ => false
  | .elseKw => fun b =>
      match b with
      | .elseKw => true
      | _ => false
  | .assertKw => fun b =>
      match b with
      | .assertKw => true
      | _ => false
  | .importKw => fun b =>
      match b with
      | .importKw => true
      | _ => false
  | .inheritKw => fun b =>
      match b with
      | .inheritKw => true
      | _ => false
termination_by structural t => t
/-- Structural equality on interpolation parts. -/
def TokenInterpol.beq : TokenInterpol → TokenInterpol → Bool
  | .literal a, .literal b => a == b
  | .tokens ta ca, .tokens tb cb => beqStream ta tb && ca == cb
  | _, _ => false
termination_by structural t _ => t
/-- Structural equality on lists of interpolation parts. -/
def TokenInterpol.beqList : List TokenInterpol → List TokenInterpol → Bool
  | [], [] => true
  | x :: xs, y :: ys => TokenInterpol.beq x y && TokenInterpol.beqList xs ys
  | _, _ => false
termination_by structural l _ => l
/-- Structural equality on token streams. -/
def beqStream : List (Meta × Token) → List (Meta × Token) → Bool
  | [], [] => true
  | (m, x) :: xs, (n, y) :: ys => m == n && Token.beq x y && beqStream xs ys
  | _, _ => false
termination_by structural l _ => l
end

instance : BEq Token := ⟨Token.beq⟩

/-- Modelled from the spec: the token-view classification helper, is this
token a valid function argument start, used by parse_fn; it accepts exactly
the atom starters of the value parser that can follow an application head. -/
def Token.is_fn_arg : Token → Bool
  | .recKw | .curlyBOpen | .squareBOpen | .parenOpen => true
  | .ident _ | .value _ | .interpol _ _ | .dynamic _ _ => true
  | _ => false

/-- Modelled from the spec: arena node identifiers are slot indices. -/
abbrev NodeId := Nat

/-- The context-sensitive identifier or, const OR in the source. -/
def OR : String := "or"

/-- Parenthesis around an AST node, struct Parens(Meta, NodeId, Meta). -/
structure Parens where
  openM : Meta
  inner : NodeId
  closeM : Meta
deriving DecidableEq, Repr

/-- Brackets around something, struct Brackets(Meta, T, Meta). -/
structure Brackets (α : Type) where
  openM : Meta
  val : α
  closeM : Meta
deriving DecidableEq, Repr

/-- An attribute path: node ids for the segments (dynamic attributes are
possible) with the metadata of the separating dots. -/
structure Attribute where
  path : List (NodeId × Option Meta)
deriving DecidableEq, Repr

/-- An interpolation part of an AST interpolated string. -/
inductive Interpol where
  | literal (s : String)
  | ast (id : NodeId) (close : Meta)
deriving DecidableEq, Repr

/-- Binary operators. -/
inductive Operator where
  | concat
  | merge
  | add
  | sub
  | mul
  | div
  | and
  | equal
  | implication
  | isSet
  | less
  | lessOrEq
  | more
  | moreOrEq
  | notEqual
  | or
deriving DecidableEq, Repr

/-- Unary operators. -/
inductive Unary where
  | invert
  | negate
deriving DecidableEq, Repr

/-- An entry in a lambda pattern. -/
structure PatEntry where
  ident : Meta
  name : String
  default : Option (Meta × NodeId)
  comma : Option Meta
deriving DecidableEq, Repr

/-- A name at binding for a lambda pattern; atM is the at-sign meta, named
at in the source. -/
structure PatternBind where
  before : Bool
  span : Span
  atM : Meta
  ident : Meta
  name : String
deriving DecidableEq, Repr

/-- A lambda argument: a bare identifier or a destructuring pattern. -/
inductive LambdaArg where
  | ident (m : Meta) (name : String)
  | pattern (args : Brackets (List PatEntry)) (bind : Option PatternBind)
      (ellipsis : Option Meta)
deriving DecidableEq, Repr

/-- An entry in a set; fromExpr is the optional parenthesised source of an
inherit, named from in the source. -/
inductive SetEntry where
  | assign (key : Attribute) (assignM : Meta) (value : NodeId) (semi : Meta)
  | inheritE (m : Meta) (fromExpr : Option Parens) (vars : List (Meta × String))
      (semi : Meta)
deriving DecidableEq, Repr

/-- AST node types; Let, With and Import carry an E suffix where Lean
reserves the plain name. -/
inductive ASTType where
  | interpol (meta : Meta) (multiline : Bool) (parts : List Interpol)
  | lambda (arg : LambdaArg) (colon : Meta) (body : NodeId)
  | list (openM : Meta) (items : List NodeId) (closeM : Meta)
  | parens (p : Parens)
  | set (recursive : Option Meta) (values : Brackets (List SetEntry))
  | value (m : Meta) (v : Value)
  | var (m : Meta) (name : String)
  | assert (m : Meta) (cond : NodeId) (semi : Meta) (body : NodeId)
  | ifElse (ifMeta : Meta) (condition : NodeId) (thenMeta : Meta)
      (thenBody : NodeId) (elseMeta : Meta) (elseBody : NodeId)
  | importE (m : Meta) (v : NodeId)
  | letE (m : Meta) (vals : Brackets (List SetEntry))
  | letIn (letM : Meta) (vals : List SetEntry) (inM : Meta) (body : NodeId)
  | withE (m : Meta) (env : NodeId) (semi : Meta) (body : NodeId)
  | apply (fn : NodeId) (arg : NodeId)
  | dynamic (meta : Meta) (ast : NodeId) (close : Meta)
  | indexSet (setId : NodeId) (dot : Meta) (attr : NodeId)
  | unary (m : Meta) (op : Unary) (operand : NodeId)
  | orDefault (setId : NodeId) (dot : Meta) (attr : NodeId) (orM : Meta)
      (default : NodeId)
  | operation (lhs : NodeId) (op : Meta × Operator) (rhs : NodeId)
deriving DecidableEq, Repr

/-- An AST node with metadata, struct ASTNode(Span, ASTType). -/
structure ASTNode where
  span : Span
  typ : ASTType
deriving DecidableEq, Repr

/-- Parse errors, the closed error set of the parser. -/
inductive ParseError where
  | alreadyBound
  | expected (t : Token) (found : Option Token)
  | expectedType (kind : String) (found : Token)
  | invalidType (kind : String)
  | unexpectedEOF
  | unexpected (t : Token)

/-- Parser state: the remaining token stream (iterator plus two-slot
pushback buffer collapse to a list) and the arena of Option slots. -/
structure PState where
  tokens : List (Meta × Token)
  arena : List (Option ASTNode)

/-- Outcome of running one parser computation: success with the updated
state, a parse error as in the source, or fuel exhaustion (an artifact of
the embedding, distinct from every source outcome). -/
inductive PResult (α : Type) where
  | ok (val : α) (s : PState)
  | err (sp : Option Span) (e : ParseError)
  | fuelOut

/-- The parser computation monad: state passing over PResult. -/
def M (α : Type) : Type := PState → PResult α

instance : Monad M where
  pure a := fun s => .ok a s
  bind x f := fun s =>
    match x s with
    | .ok a s' => f a s'
    | .err sp e => .err sp e
    | .fuelOut => .fuelOut

@[simp] theorem run_bind {α β : Type} (x : M α) (f : α → M β) (s : PState) :
    (x >>= f) s =
      match x s with
      | .ok a s' => f a s'
      | .err sp e => .err sp e
      | .fuelOut => .fuelOut := rfl

@[simp] theorem run_pure {α : Type} (a : α) (s : PState) :
    (pure a : M α) s = .ok a s := rfl

/-- Abort with a parse error. -/
def throwE {α : Type} (sp : Option Span) (e : ParseError) : M α :=
  fun _ => .err sp e

/-- Fuel exhaustion. -/
def outOfFuel {α : Type} : M α := fun _ => .fuelOut

@[simp] theorem run_throwE {α : Type} (sp : Option Span) (e : ParseError)
    (s : PState) : (throwE sp e : M α) s = .err sp e := rfl

@[simp] theorem run_outOfFuel {α : Type} (s : PState) :
    (outOfFuel : M α) s = .fuelOut := rfl

/-- peek_meta: look at the next token with its metadata without consuming. -/
def peek_meta : M (Option (Meta × Token)) := fun s => .ok s.tokens.head? s

/-- peek: look at the next token without consuming. -/
def peek : M (Option Token) := fun s => .ok (s.tokens.head?.map Prod.snd) s

/-- next: consume one token, error UnexpectedEOF if the stream is exhausted. -/
def next : M (Meta × Token) := fun s =>
  match s.tokens with
  | [] => .err none .unexpectedEOF
  | t :: rest => .ok t ⟨rest, s.arena⟩

/-- push: return a previously consumed item to the head of the stream. -/
def pushBack (item : Meta × Token) : M Unit :=
  fun s => .ok () ⟨item :: s.tokens, s.arena⟩

/-- expect: consume one token and require it to equal the expected one. -/
def expect (expected : Token) : M Meta := fun s =>
  match next s with
  | .ok (meta, actual) s' =>
      if actual == expected then .ok meta s'
      else .err (some meta.span) (.expected expected (some actual))
  | _ => .err none (.expected expected none)

/-- insert: append a node to the arena and return its fresh NodeId. -/
def insert (node : ASTNode) : M NodeId :=
  fun s => .ok s.arena.length ⟨s.tokens, s.arena ++ [some node]⟩

@[simp] theorem run_peek_meta (s : PState) :
    peek_meta s = .ok s.tokens.head? s := rfl

@[simp] theorem run_peek (s : PState) :
    peek s = .ok (s.tokens.head?.map Prod.snd) s := rfl

@[simp] theorem run_pushBack (item : Meta × Token) (s : PState) :
    pushBack item s = .ok () ⟨item :: s.tokens, s.arena⟩ := rfl

@[simp] theorem run_insert (node : ASTNode) (s : PState) :
    insert node s = .ok s.arena.length ⟨s.tokens, s.arena ++ [some node]⟩ := rfl

@[simp] theorem beq_token_def (a b : Token) : (a == b) = Token.beq a b := rfl

@[simp] theorem run_next_nil (a : List (Option ASTNode)) :
    next ⟨[], a⟩ = .err none .unexpectedEOF := rfl

@[simp] theorem run_next_cons (t : Meta × Token) (ts : List (Meta × Token))
    (a : List (Option ASTNode)) : next ⟨t :: ts, a⟩ = .ok t ⟨ts, a⟩ := rfl

@[simp] theorem run_expect_nil (e : Token) (a : List (Option ASTNode)) :
    expect e ⟨[], a⟩ = .err none (.expected e none) := rfl

@[simp] theorem run_expect_cons (e : Token) (m : Meta) (t : Token)
    (ts : List (Meta × Token)) (a : List (Option ASTNode)) :
    expect e ⟨(m, t) :: ts, a⟩ =
      if t == e then .ok m ⟨ts, a⟩
      else .err (some m.span) (.expected e (some t)) := rfl

/-- next_ident: consume a token and require an identifier. -/
def next_ident : M (Meta × String) := do
  match ← next with
  | (meta, .ident name) => pure (meta, name)
  | (meta, token) => throwE (some meta.span) (.expectedType "ident" token)

/-- The operation-folding step shared by every math level: insert the
left-hand side, insert the right-hand side, and build the Operation node
spanning from the left start to the right end. -/
def mk_operation (val expr : ASTNode) (meta : Meta) (op : Operator) :
    M ASTNode := do
  let l ← insert val
  let r ← insert expr
  pure ⟨val.span.until expr.span, .operation l (meta, op) r⟩

/-- The set-versus-pattern lookahead of parse_val at an open brace: the match
over the consumed temporary token and the peeked following token. -/
def isPatternStart (t : Token) (pk : Option Token) : Bool :=
  match t, pk with
  | .ident _, some .comma => true
  | .ident _, some .question => true
  | .ellipsis, some .curlyBClose => true
  | .ident _, some .curlyBClose => true
  | .curlyBClose, some .colon => true
  | .curlyBClose, some .atTk => true
  | _, _ => false

/-- The or-default lookahead used by the dot loop of parse_val: whether the
peeked token is the context-sensitive identifier or. -/
def isOrIdent : Option Token → Bool
  | some (.ident s) => s == OR
  | _ => false

/-- All parser methods at one fuel level. The source methods are mutually
recursive; the embedding ties the recursive knot through one structural
recursion on fuel, each level calling the previous one, so every method
body below is the direct translation of the corresponding source method. -/
structure Core where
  branch : List (Meta × Token) → M ASTNode
  interpol_parts : List TokenInterpol → M (List Interpol)
  interpol : Meta → Bool → List TokenInterpol → M ASTType
  attr_next : M ASTNode
  attr_loop : List (NodeId × Option Meta) → M Attribute
  attr : M Attribute
  pattern_entries : List PatEntry → M (List PatEntry × Option Meta)
  pattern : Meta → Option PatternBind → M ASTNode
  inherit_vars : List (Meta × String) → M (List (Meta × String))
  set_entries : Token → List SetEntry → M (Meta × List SetEntry)
  set : Token → M (Meta × List SetEntry)
  list_items : List NodeId → M (List NodeId)
  val : M ASTNode
  val_dots : ASTNode → M ASTNode
  fn : M ASTNode
  fn_loop : ASTNode → M ASTNode
  negate : M ASTNode
  isset : M ASTNode
  isset_loop : ASTNode → M ASTNode
  concat : M ASTNode
  concat_loop : ASTNode → M ASTNode
  mul : M ASTNode
  mul_loop : ASTNode → M ASTNode
  add : M ASTNode
  add_loop : ASTNode → M ASTNode
  invert : M ASTNode
  merge : M ASTNode
  merge_loop : ASTNode → M ASTNode
  compare : M ASTNode
  equal : M ASTNode
  and : M ASTNode
  and_loop : ASTNode → M ASTNode
  or : M ASTNode
  or_loop : ASTNode → M ASTNode
  implication : M ASTNode
  implication_loop : ASTNode → M ASTNode
  math : M ASTNode
  expr : M ASTNode

/-- The fuel-exhausted level. -/
def coreZero : Core where
  branch := fun _ => outOfFuel
  interpol_parts := fun _ => outOfFuel
  interpol := fun _ _ _ => outOfFuel
  attr_next := outOfFuel
  attr_loop := fun _ => outOfFuel
  attr := outOfFuel
  pattern_entries := fun _ => outOfFuel
  pattern := fun _ _ => outOfFuel
  inherit_vars := fun _ => outOfFuel
  set_entries := fun _ _ => outOfFuel
  set := fun _ => outOfFuel
  list_items := fun _ => outOfFuel
  val := outOfFuel
  val_dots := fun _ => outOfFuel
  fn := outOfFuel
  fn_loop := fun _ => outOfFuel
  negate := outOfFuel
  isset := outOfFuel
  isset_loop := fun _ => outOfFuel
  concat := outOfFuel
  concat_loop := fun _ => outOfFuel
  mul := outOfFuel
  mul_loop := fun _ => outOfFuel
  add := outOfFuel
  add_loop := fun _ => outOfFuel
  invert := outOfFuel
  merge := outOfFuel
  merge_loop := fun _ => outOfFuel
  compare := outOfFuel
  equal := outOfFuel
  and := outOfFuel
  and_loop := fun _ => outOfFuel
  or := outOfFuel
  or_loop := fun _ => outOfFuel
  implication := outOfFuel
  implication_loop := fun _ => outOfFuel
  math := outOfFuel
  expr := outOfFuel

/-- The parser at a given fuel level; every method of level f + 1 reaches
the other methods through level f. -/
def core : Nat → Core
  | 0 => coreZero
  | f + 1 =>
    let p := core f
    { branch := fun toks => fun s =>
        match p.expr ⟨toks, s.arena⟩ with
        | .ok node s' => .ok node ⟨s.tokens, s'.arena⟩
        | .err sp e => .err sp e
        | .fuelOut => .fuelOut
      interpol_parts := fun values =>
        match values with
        | [] => pure []
        | .literal text :: rest => do
            let tail ← p.interpol_parts rest
            pure (Interpol.literal text :: tail)
        | .tokens tokens close :: rest => do
            let parsed ← p.branch tokens
            let id ← insert parsed
            let tail ← p.interpol_parts rest
            pure (Interpol.ast id close :: tail)
      interpol := fun meta multiline values => do
        let parts ← p.interpol_parts values
        pure (ASTType.interpol meta multiline parts)
      attr_next := do
        match ← next with
        | (meta, .ident ident) => pure (⟨meta.span, .var meta ident⟩ : ASTNode)
        | (meta, .value value) => pure (⟨meta.span, .value meta value⟩ : ASTNode)
        | (meta, .dynamic values close) => do
            let parsed ← p.branch values
            let id ← insert parsed
            pure (⟨meta.span, .dynamic meta id close⟩ : ASTNode)
        | (meta, .interpol multiline parts) => do
            let t ← p.interpol meta multiline parts
            pure (⟨meta.span, t⟩ : ASTNode)
        | (meta, token) => throwE (some meta.span) (.expectedType "attribute" token)
      attr_loop := fun path => do
        let attr ← p.attr_next
        let attrId ← insert attr
        let pk ← peek
        if pk == some .dot then do
          let d ← next
          p.attr_loop (path ++ [(attrId, some d.1)])
        else
          pure (Attribute.mk (path ++ [(attrId, none)]))
      attr := p.attr_loop []
      pattern_entries := fun args => do
        match ← peek_meta with
        | some (_, .ellipsis) => do
            let new ← next
            pure (args, some new.1)
        | some (_, .curlyBClose) => pure (args, none)
        | _ => do
            let (ident, name) ← next_ident
            let default ← (do
              let pk ← peek
              if pk == some .question then do
                let q ← next
                let expr ← p.expr
                let id ← insert expr
                pure (some (q.1, id))
              else pure none)
            let comma ← (do
              match ← peek with
              | some .comma => do
                  let c ← next
                  pure (some c.1)
              | _ => pure none)
            if comma.isNone then
              pure (args ++ [⟨ident, name, default, comma⟩], none)
            else
              p.pattern_entries (args ++ [⟨ident, name, default, comma⟩])
      pattern := fun openM bind => do
        let start := (bind.map PatternBind.span).getD openM.span
        let entries ← p.pattern_entries []
        let close ← expect .curlyBClose
        let bind2 ← (do
          match ← peek with
          | some .atTk => do
              let at2 ← next
              if bind.isSome then
                throwE (some at2.1.span) ParseError.alreadyBound
              else do
                let (ident, name) ← next_ident
                pure (some (⟨false, at2.1.span.until ident.span, at2.1, ident,
                  name⟩ : PatternBind))
          | _ => pure bind)
        let colon ← expect .colon
        let expr ← p.expr
        let id ← insert expr
        pure (⟨start.until expr.span,
          .lambda (.pattern ⟨openM, entries.1, close⟩ bind2 entries.2) colon id⟩ :
          ASTNode)
      inherit_vars := fun vars => do
        match ← peek with
        | some (.ident _) => do
            let v ← next_ident
            p.inherit_vars (vars ++ [v])
        | _ => pure vars
      set_entries := fun untilTok values => do
        let pk ← peek
        if pk == some untilTok then do
          let e ← next
          pure (e.1, values)
        else
          match pk with
          | some .inheritKw => do
              let (meta, _) ← next
              let fromExpr ← (do
                let pk2 ← peek
                if pk2 == some .parenOpen then do
                  let openM ← next
                  let fromE ← p.expr
                  let close ← expect .parenClose
                  let id ← insert fromE
                  pure (some (⟨openM.1, id, close⟩ : Parens))
                else pure none)
              let vars ← p.inherit_vars []
              let semi ← expect .semicolon
              p.set_entries untilTok
                (values ++ [.inheritE meta fromExpr vars semi])
          | _ => do
              let key ← p.attr
              let assignM ← expect .assign
              let value ← p.expr
              let semi ← expect .semicolon
              let id ← insert value
              p.set_entries untilTok (values ++ [.assign key assignM id semi])
      set := fun untilTok => p.set_entries untilTok []
      list_items := fun values => do
        match ← peek with
        | none => pure values
        | some .squareBClose => pure values
        | _ => do
            let val ← p.val
            let id ← insert val
            p.list_items (values ++ [id])
      val := do
        let (meta, tok) ← next
        let val ← (match meta, tok with
          | openM, .parenOpen => do
              let expr ← p.expr
              let close ← expect .parenClose
              let id ← insert expr
              pure (⟨openM.span.until close.span, .parens ⟨openM, id, close⟩⟩ :
                ASTNode)
          | importM, .importKw => do
              let value ← p.val
              let id ← insert value
              pure (⟨importM.span.until value.span, .importE importM id⟩ :
                ASTNode)
          | recM, .recKw => do
              let openM ← expect .curlyBOpen
              let res ← p.set .curlyBClose
              pure (⟨recM.span.until res.1.span,
                .set (some recM) ⟨openM, res.2, res.1⟩⟩ : ASTNode)
          | openM, .curlyBOpen => do
              let temporary ← next
              let pk ← peek
              if isPatternStart temporary.2 pk then do
                pushBack temporary
                p.pattern openM none
              else do
                pushBack temporary
                let res ← p.set .curlyBClose
                pure (⟨openM.span.until res.1.span,
                  .set none ⟨openM, res.2, res.1⟩⟩ : ASTNode)
          | openM, .squareBOpen => do
              let values ← p.list_items []
              let close ← expect .squareBClose
              pure (⟨openM.span.until close.span, .list openM values close⟩ :
                ASTNode)
          | meta2, .dynamic values close => do
              let parsed ← p.branch values
              let id ← insert parsed
              pure (⟨meta2.span, .dynamic meta2 id close⟩ : ASTNode)
          | meta2, .value v => pure (⟨meta2.span, .value meta2 v⟩ : ASTNode)
          | meta2, .ident name => do
              let pk ← peek
              if pk == some .atTk then do
                let at2 ← next
                let openM ← expect .curlyBOpen
                p.pattern openM
                  (some ⟨true, meta2.span.until at2.1.span, at2.1, meta2, name⟩)
              else pure (⟨meta2.span, .var meta2 name⟩ : ASTNode)
          | meta2, .interpol multiline parts => do
              let t ← p.interpol meta2 multiline parts
              pure (⟨meta2.span, t⟩ : ASTNode)
          | meta2, token => throwE (some meta2.span) (.unexpected token))
        p.val_dots val
      val_dots := fun val => do
        let pk ← peek
        if pk == some .dot then do
          let d ← next
          let attr ← p.attr_next
          let pk2 ← peek
          if isOrIdent pk2 then do
            let orTok ← next
            let default ← p.val
            let setId ← insert val
            let attrId ← insert attr
            let defaultId ← insert default
            p.val_dots ⟨val.span.until attr.span,
              .orDefault setId d.1 attrId orTok.1 defaultId⟩
          else do
            let setId ← insert val
            let attrId ← insert attr
            p.val_dots ⟨val.span.until attr.span, .indexSet setId d.1 attrId⟩
        else pure val
      fn := do
        let val ← p.val
        p.fn_loop val
      fn_loop := fun val => do
        let pk ← peek
        if (pk.map Token.is_fn_arg).getD false then do
          let arg ← p.val
          let l ← insert val
          let r ← insert arg
          p.fn_loop ⟨val.span.until arg.span, .apply l r⟩
        else pure val
      negate := do
        let pk ← peek
        if pk == some .sub then do
          let subTok ← next
          let expr ← p.negate
          let id ← insert expr
          pure (⟨subTok.1.span.until expr.span, .unary subTok.1 .negate id⟩ :
            ASTNode)
        else p.fn
      isset := do
        let val ← p.negate
        p.isset_loop val
      isset_loop := fun val => do
        match ← peek with
        | some .question => do
            let (meta, _) ← next
            let expr ← p.negate
            let val2 ← mk_operation val expr meta .isSet
            p.isset_loop val2
        | _ => pure val
      concat := do
        let val ← p.isset
        p.concat_loop val
      concat_loop := fun val => do
        match ← peek with
        | some .concat => do
            let (meta, _) ← next
            let expr ← p.isset
            let val2 ← mk_operation val expr meta .concat
            p.concat_loop val2
        | _ => pure val
      mul := do
        let val ← p.concat
        p.mul_loop val
      mul_loop := fun val => do
        match ← peek with
        | some .mul => do
            let (meta, _) ← next
            let expr ← p.concat
            let val2 ← mk_operation val expr meta .mul
            p.mul_loop val2
        | some .div => do
            let (meta, _) ← next
            let expr ← p.concat
            let val2 ← mk_operation val expr meta .div
            p.mul_loop val2
        | _ => pure val
      add := do
        let val ← p.mul
        p.add_loop val
      add_loop := fun val => do
        match ← peek with
        | some .add => do
            let (meta, _) ← next
            let expr ← p.mul
            let val2 ← mk_operation val expr meta .add
            p.add_loop val2
        | some .sub => do
            let (meta, _) ← next
            let expr ← p.mul
            let val2 ← mk_operation val expr meta .sub
            p.add_loop val2
        | _ => pure val
      invert := do
        let pk ← peek
        if pk == some .invert then do
          let excl ← next
          let expr ← p.invert
          let id ← insert expr
          pure (⟨excl.1.span.until expr.span, .unary excl.1 .invert id⟩ :
            ASTNode)
        else p.add
      merge := do
        let val ← p.invert
        p.merge_loop val
      merge_loop := fun val => do
        match ← peek with
        | some .merge => do
            let (meta, _) ← next
            let expr ← p.invert
            let val2 ← mk_operation val expr meta .merge
            p.merge_loop val2
        | _ => pure val
      compare := do
        let val ← p.merge
        match ← peek with
        | some .less => do
            let (meta, _) ← next
            let expr ← p.merge
            mk_operation val expr meta .less
        | some .lessOrEq => do
            let (meta, _) ← next
            let expr ← p.merge
            mk_operation val expr meta .lessOrEq
        | some .more => do
            let (meta, _) ← next
            let expr ← p.merge
            mk_operation val expr meta .more
        | some .moreOrEq => do
            let (meta, _) ← next
            let expr ← p.merge
            mk_operation val expr meta .moreOrEq
        | _ => pure val
      equal := do
        let val ← p.compare
        match ← peek with
        | some .equal => do
            let (meta, _) ← next
            let expr ← p.compare
            mk_operation val expr meta .equal
        | some .notEqual => do
            let (meta, _) ← next
            let expr ← p.compare
            mk_operation val expr meta .notEqual
        | _ => pure val
      and := do
        let val ← p.equal
        p.and_loop val
      and_loop := fun val => do
        match ← peek with
        | some .and => do
            let (meta, _) ← next
            let expr ← p.equal
            let val2 ← mk_operation val expr meta .and
            p.and_loop val2
        | _ => pure val
      or := do
        let val ← p.and
        p.or_loop val
      or_loop := fun val => do
        match ← peek with
        | some .or => do
            let (meta, _) ← next
            let expr ← p.and
            let val2 ← mk_operation val expr meta .or
            p.or_loop val2
        | _ => pure val
      implication := do
        let val ← p.or
        p.implication_loop val
      implication_loop := fun val => do
        match ← peek with
        | some .implication => do
            let (meta, _) ← next
            let expr ← p.or
            let val2 ← mk_operation val expr meta .implication
            p.implication_loop val2
        | _ => pure val
      math := p.implication
      expr := do
        match ← peek with
        | some .letKw => do
            let letTok ← next
            let pk ← peek
            if pk == some .curlyBOpen then do
              let openM ← next
              let res ← p.set .curlyBClose
              pure (⟨letTok.1.span.until res.1.span,
                .letE letTok.1 ⟨openM.1, res.2, res.1⟩⟩ : ASTNode)
            else do
              let res ← p.set .inKw
              let expr ← p.expr
              let id ← insert expr
              pure (⟨letTok.1.span.until expr.span,
                .letIn letTok.1 res.2 res.1 id⟩ : ASTNode)
        | some .withKw => do
            let withTok ← next
            let vars ← p.expr
            let semi ← expect .semicolon
            let rest ← p.expr
            let varsId ← insert vars
            let restId ← insert rest
            pure (⟨withTok.1.span.until rest.span,
              .withE withTok.1 varsId semi restId⟩ : ASTNode)
        | some .ifKw => do
            let ifTok ← next
            let condition ← p.expr
            let thenMeta ← expect .thenKw
            let body ← p.expr
            let elseMeta ← expect .elseKw
            let otherwise ← p.expr
            let conditionId ← insert condition
            let thenId ← insert body
            let elseId ← insert otherwise
            pure (⟨ifTok.1.span.until otherwise.span,
              .ifElse ifTok.1 conditionId thenMeta thenId elseMeta elseId⟩ :
              ASTNode)
        | some .assertKw => do
            let assertTok ← next
            let condition ← p.expr
            let semi ← expect .semicolon
            let rest ← p.expr
            let condId ← insert condition
            let restId ← insert rest
            pure (⟨assertTok.1.span.until rest.span,
              .assert assertTok.1 condId semi restId⟩ : ASTNode)
        | _ => do
            let ast ← p.math
            match ast with
            | ⟨start, .var m name⟩ => do
                let pk ← peek
                if pk == some .colon then do
                  let colon ← next
                  let expr ← p.expr
                  let id ← insert expr
                  pure (⟨start.until expr.span,
                    .lambda (.ident m name) colon.1 id⟩ : ASTNode)
                else pure (⟨start, .var m name⟩ : ASTNode)
            | ast2 => pure ast2 }

/-- parse_branch: run parse_expr over an owned token slice through a
sub-parser whose arena shares the storage of the parent; leftover tokens of
the slice are discarded, the parent stream is untouched. -/
def parse_branch (f : Nat) (toks : List (Meta × Token)) : M ASTNode :=
  (core f).branch toks

/-- The for loop of parse_interpol over the token interpolation parts. -/
def parse_interpol_parts (f : Nat) (values : List TokenInterpol) :
    M (List Interpol) :=
  (core f).interpol_parts values

/-- parse_interpol: parse every Tokens part of an interpolated string as a
nested expression, keeping literal parts. -/
def parse_interpol (f : Nat) (meta : Meta) (multiline : Bool)
    (values : List TokenInterpol) : M ASTType :=
  (core f).interpol meta multiline values

/-- next_attr: one attribute segment (identifier, literal value, dynamic,
or interpolation), not yet inserted into the arena. -/
def next_attr (f : Nat) : M ASTNode := (core f).attr_next

/-- The loop of parse_attr: collect dot-separated attribute segments, each
inserted into the arena as it is parsed. -/
def parse_attr_loop (f : Nat) (path : List (NodeId × Option Meta)) :
    M Attribute :=
  (core f).attr_loop path

/-- parse_attr: an attribute path of one or more segments. -/
def parse_attr (f : Nat) : M Attribute := (core f).attr

/-- The entry loop of parse_pattern: pattern entries until ellipsis or the
closing brace, each entry optionally with a default and a comma; a missing
comma ends the loop after its entry. -/
def parse_pattern_entries (f : Nat) (args : List PatEntry) :
    M (List PatEntry × Option Meta) :=
  (core f).pattern_entries args

/-- parse_pattern: a lambda destructuring pattern after its opening brace,
with an optional already-seen leading bind; a second bind after the closing
brace is AlreadyBound at the at-sign span. -/
def parse_pattern (f : Nat) (openM : Meta) (bind : Option PatternBind) :
    M ASTNode :=
  (core f).pattern openM bind

/-- The while-let loop collecting the identifiers of an inherit entry. -/
def collect_inherit_vars (f : Nat) (vars : List (Meta × String)) :
    M (List (Meta × String)) :=
  (core f).inherit_vars vars

/-- The loop of parse_set: entries (inherit or attribute assignment) until
the terminator token, which is consumed and returned with the entries. -/
def parse_set_entries (f : Nat) (untilTok : Token) (values : List SetEntry) :
    M (Meta × List SetEntry) :=
  (core f).set_entries untilTok values

/-- parse_set: a set body terminated by the given token. -/
def parse_set (f : Nat) (untilTok : Token) : M (Meta × List SetEntry) :=
  (core f).set untilTok

/-- The loop of the list atom: elements via parse_val until the closing
square bracket or end of stream, each inserted into the arena. -/
def parse_list_items (f : Nat) (values : List NodeId) : M (List NodeId) :=
  (core f).list_items values

/-- parse_val: one atom, then the postfix attribute-access loop. -/
def parse_val (f : Nat) : M ASTNode := (core f).val

/-- The postfix while loop of parse_val: attribute access via dot, with the
or-default form when the context-sensitive identifier or follows the
attribute; the OrDefault span runs only from the value start to the
attribute end. -/
def parse_val_dots (f : Nat) (val : ASTNode) : M ASTNode :=
  (core f).val_dots val

/-- parse_fn: an atom followed by left-folded application over every token
that can start a function argument. -/
def parse_fn (f : Nat) : M ASTNode := (core f).fn

/-- The application loop of parse_fn. -/
def parse_fn_loop (f : Nat) (val : ASTNode) : M ASTNode :=
  (core f).fn_loop val

/-- parse_negate: prefix minus, recursing into itself. -/
def parse_negate (f : Nat) : M ASTNode := (core f).negate

/-- parse_isset: the question-mark level, left-folding loop. -/
def parse_isset (f : Nat) : M ASTNode := (core f).isset

/-- The folding loop of parse_isset. -/
def parse_isset_loop (f : Nat) (val : ASTNode) : M ASTNode :=
  (core f).isset_loop val

/-- parse_concat: the list-concatenation level, left-folding loop. -/
def parse_concat (f : Nat) : M ASTNode := (core f).concat

/-- The folding loop of parse_concat. -/
def parse_concat_loop (f : Nat) (val : ASTNode) : M ASTNode :=
  (core f).concat_loop val

/-- parse_mul: multiplication and division, left-folding loop. -/
def parse_mul (f : Nat) : M ASTNode := (core f).mul

/-- The folding loop of parse_mul. -/
def parse_mul_loop (f : Nat) (val : ASTNode) : M ASTNode :=
  (core f).mul_loop val

/-- parse_add: addition and subtraction, left-folding loop. -/
def parse_add (f : Nat) : M ASTNode := (core f).add

/-- The folding loop of parse_add. -/
def parse_add_loop (f : Nat) (val : ASTNode) : M ASTNode :=
  (core f).add_loop val

/-- parse_invert: prefix exclamation mark, recursing into itself. -/
def parse_invert (f : Nat) : M ASTNode := (core f).invert

/-- parse_merge: the double-slash level, left-folding loop. -/
def parse_merge (f : Nat) : M ASTNode := (core f).merge

/-- The folding loop of parse_merge. -/
def parse_merge_loop (f : Nat) (val : ASTNode) : M ASTNode :=
  (core f).merge_loop val

/-- parse_compare: the comparison level, non-associative, parsing at most
one operator (the only_once form of the math macro). -/
def parse_compare (f : Nat) : M ASTNode := (core f).compare

/-- parse_equal: the equality level, non-associative, parsing at most one
operator (the only_once form of the math macro). -/
def parse_equal (f : Nat) : M ASTNode := (core f).equal

/-- parse_and: the conjunction level, left-folding loop. -/
def parse_and (f : Nat) : M ASTNode := (core f).and

/-- The folding loop of parse_and. -/
def parse_and_loop (f : Nat) (val : ASTNode) : M ASTNode :=
  (core f).and_loop val

/-- parse_or: the disjunction level, left-folding loop. -/
def parse_or (f : Nat) : M ASTNode := (core f).or

/-- The folding loop of parse_or. -/
def parse_or_loop (f : Nat) (val : ASTNode) : M ASTNode :=
  (core f).or_loop val

/-- parse_implication: the arrow level; in the source this instantiates the
looping (left-folding) form of the math macro, exactly like parse_or. -/
def parse_implication (f : Nat) : M ASTNode := (core f).implication

/-- The folding loop of parse_implication. -/
def parse_implication_loop (f : Nat) (val : ASTNode) : M ASTNode :=
  (core f).implication_loop val

/-- parse_math: alias always pointing to the lowest-level math function. -/
def parse_math (f : Nat) : M ASTNode := (core f).math

/-- parse_expr: the top entry, dispatching on let, with, if, assert, and
otherwise running the math ladder with the bare-lambda rewrite of a Var
followed by a colon. -/
def parse_expr (f : Nat) : M ASTNode := (core f).expr

/-- Unfolding of parse_branch at successor fuel. -/
theorem parse_branch_succ (f : Nat) (toks : List (Meta × Token)) :
    parse_branch (f + 1) toks = (fun s =>
        match parse_expr f ⟨toks, s.arena⟩ with
        | .ok node s' => .ok node ⟨s.tokens, s'.arena⟩
        | .err sp e => .err sp e
        | .fuelOut => .fuelOut) := rfl

/-- parse_branch at zero fuel. -/
theorem parse_branch_zero (toks : List (Meta × Token)) :
    parse_branch 0 toks = outOfFuel := rfl

/-- Unfolding of parse_interpol_parts at successor fuel. -/
theorem parse_interpol_parts_succ (f : Nat) (values : List TokenInterpol) :
    parse_interpol_parts (f + 1) values = (match values with
        | [] => pure []
        | .literal text :: rest => do
            let tail ← parse_interpol_parts f rest
            pure (Interpol.literal text :: tail)
        | .tokens tokens close :: rest => do
            let parsed ← parse_branch f tokens
            let id ← insert parsed
            let tail ← parse_interpol_parts f rest
            pure (Interpol.ast id close :: tail)) := rfl

/-- parse_interpol_parts at zero fuel. -/
theorem parse_interpol_parts_zero (values : List TokenInterpol) :
    parse_interpol_parts 0 values = outOfFuel := rfl

/-- Unfolding of parse_interpol at successor fuel. -/
theorem parse_interpol_succ (f : Nat) (meta : Meta) (multiline : Bool) (values : List TokenInterpol) :
    parse_interpol (f + 1) meta multiline values = (do
        let parts ← parse_interpol_parts f values
        pure (ASTType.interpol meta multiline parts)) := rfl

/-- parse_interpol at zero fuel. -/
theorem parse_interpol_zero (meta : Meta) (multiline : Bool) (values : List TokenInterpol) :
    parse_interpol 0 meta multiline values = outOfFuel := rfl

/-- Unfolding of next_attr at successor fuel. -/
theorem next_attr_succ (f : Nat) :
    next_attr (f + 1) = (do
        match ← next with
        | (meta, .ident ident) => pure (⟨meta.span, .var meta ident⟩ : ASTNode)
        | (meta, .value value) => pure (⟨meta.span, .value meta value⟩ : ASTNode)
        | (meta, .dynamic values close) => do
            let parsed ← parse_branch f values
            let id ← insert parsed
            pure (⟨meta.span, .dynamic meta id close⟩ : ASTNode)
        | (meta, .interpol multiline parts) => do
            let t ← parse_interpol f meta multiline parts
            pure (⟨meta.span, t⟩ : ASTNode)
        | (meta, token) => throwE (some meta.span) (.expectedType "attribute" token)) := rfl

/-- next_attr at zero fuel. -/
theorem next_attr_zero :
    next_attr 0 = outOfFuel := rfl

/-- Unfolding of parse_attr_loop at successor fuel. -/
theorem parse_attr_loop_succ (f : Nat) (path : List (NodeId × Option Meta)) :
    parse_attr_loop (f + 1) path = (do
        let attr ← next_attr f
        let attrId ← insert attr
        let pk ← peek
        if pk == some .dot then do
          let d ← next
          parse_attr_loop f (path ++ [(attrId, some d.1)])
        else
          pure (Attribute.mk (path ++ [(attrId, none)]))) := rfl

/-- parse_attr_loop at zero fuel. -/
theorem parse_attr_loop_zero (path : List (NodeId × Option Meta)) :
    parse_attr_loop 0 path = outOfFuel := rfl

/-- Unfolding of parse_attr at successor fuel. -/
theorem parse_attr_succ (f : Nat) :
    parse_attr (f + 1) = (parse_attr_loop f []) := rfl

/-- parse_attr at zero fuel. -/
theorem parse_attr_zero :
    parse_attr 0 = outOfFuel := rfl

/-- Unfolding of parse_pattern_entries at successor fuel. -/
theorem parse_pattern_entries_succ (f : Nat) (args : List PatEntry) :
    parse_pattern_entries (f + 1) args = (do
        match ← peek_meta with
        | some (_, .ellipsis) => do
            let new ← next
            pure (args, some new.1)
        | some (_, .curlyBClose) => pure (args, none)
        | _ => do
            let (ident, name) ← next_ident
            let default ← (do
              let pk ← peek
              if pk == some .question then do
                let q ← next
                let expr ← parse_expr f
                let id ← insert expr
                pure (some (q.1, id))
              else pure none)
            let comma ← (do
              match ← peek with
              | some .comma => do
                  let c ← next
                  pure (some c.1)
              | _ => pure none)
            if comma.isNone then
              pure (args ++ [⟨ident, name, default, comma⟩], none)
            else
              parse_pattern_entries f (args ++ [⟨ident, name, default, comma⟩])) := rfl

/-- parse_pattern_entries at zero fuel. -/
theorem parse_pattern_entries_zero (args : List PatEntry) :
    parse_pattern_entries 0 args = outOfFuel := rfl

/-- Unfolding of parse_pattern at successor fuel. -/
theorem parse_pattern_succ (f : Nat) (openM : Meta) (bind : Option PatternBind) :
    parse_pattern (f + 1) openM bind = (do
        let start := (bind.map PatternBind.span).getD openM.span
        let entries ← parse_pattern_entries f []
        let close ← expect .curlyBClose
        let bind2 ← (do
          match ← peek with
          | some .atTk => do
              let at2 ← next
              if bind.isSome then
                throwE (some at2.1.span) ParseError.alreadyBound
              else do
                let (ident, name) ← next_ident
                pure (some (⟨false, at2.1.span.until ident.span, at2.1, ident,
                  name⟩ : PatternBind))
          | _ => pure bind)
        let colon ← expect .colon
        let expr ← parse_expr f
        let id ← insert expr
        pure (⟨start.until expr.span,
          .lambda (.pattern ⟨openM, entries.1, close⟩ bind2 entries.2) colon id⟩ :
          ASTNode)) := rfl

/-- parse_pattern at zero fuel. -/
theorem parse_pattern_zero (openM : Meta) (bind : Option PatternBind) :
    parse_pattern 0 openM bind = outOfFuel := rfl

/-- Unfolding of collect_inherit_vars at successor fuel. -/
theorem collect_inherit_vars_succ (f : Nat) (vars : List (Meta × String)) :
    collect_inherit_vars (f + 1) vars = (do
        match ← peek with
        | some (.ident _) => do
            let v ← next_ident
            collect_inherit_vars f (vars ++ [v])
        | _ => pure vars) := rfl

/-- collect_inherit_vars at zero fuel. -/
theorem collect_inherit_vars_zero (vars : List (Meta × String)) :
    collect_inherit_vars 0 vars = outOfFuel := rfl

/-- Unfolding of parse_set_entries at successor fuel. -/
theorem parse_set_entries_succ (f : Nat) (untilTok : Token) (values : List SetEntry) :
    parse_set_entries (f + 1) untilTok values = (do
        let pk ← peek
        if pk == some untilTok then do
          let e ← next
          pure (e.1, values)
        else
          match pk with
          | some .inheritKw => do
              let (meta, _) ← next
              let fromExpr ← (do
                let pk2 ← peek
                if pk2 == some .parenOpen then do
                  let openM ← next
                  let fromE ← parse_expr f
                  let close ← expect .parenClose
                  let id ← insert fromE
                  pure (some (⟨openM.1, id, close⟩ : Parens))
                else pure none)
              let vars ← collect_inherit_vars f []
              let semi ← expect .semicolon
              parse_set_entries f untilTok
                (values ++ [.inheritE meta fromExpr vars semi])
          | _ => do
              let key ← parse_attr f
              let assignM ← expect .assign
              let value ← parse_expr f
              let semi ← expect .semicolon
              let id ← insert value
              parse_set_entries f untilTok (values ++ [.assign key assignM id semi])) := rfl

/-- parse_set_entries at zero fuel. -/
theorem parse_set_entries_zero (untilTok : Token) (values : List SetEntry) :
    parse_set_entries 0 untilTok values = outOfFuel := rfl

/-- Unfolding of parse_set at successor fuel. -/
theorem parse_set_succ (f : Nat) (untilTok : Token) :
    parse_set (f + 1) untilTok = (parse_set_entries f untilTok []) := rfl

/-- parse_set at zero fuel. -/
theorem parse_set_zero (untilTok : Token) :
    parse_set 0 untilTok = outOfFuel := rfl

/-- Unfolding of parse_list_items at successor fuel. -/
theorem parse_list_items_succ (f : Nat) (values : List NodeId) :
    parse_list_items (f + 1) values = (do
        match ← peek with
        | none => pure values
        | some .squareBClose => pure values
        | _ => do
            let val ← parse_val f
            let id ← insert val
            parse_list_items f (values ++ [id])) := rfl

/-- parse_list_items at zero fuel. -/
theorem parse_list_items_zero (values : List NodeId) :
    parse_list_items 0 values = outOfFuel := rfl

/-- Unfolding of parse_val at successor fuel. -/
theorem parse_val_succ (f : Nat) :
    parse_val (f + 1) = (do
        let (meta, tok) ← next
        let val ← (match meta, tok with
          | openM, .parenOpen => do
              let expr ← parse_expr f
              let close ← expect .parenClose
              let id ← insert expr
              pure (⟨openM.span.until close.span, .parens ⟨openM, id, close⟩⟩ :
                ASTNode)
          | importM, .importKw => do
              let value ← parse_val f
              let id ← insert value
              pure (⟨importM.span.until value.span, .importE importM id⟩ :
                ASTNode)
          | recM, .recKw => do
              let openM ← expect .curlyBOpen
              let res ← parse_set f .curlyBClose
              pure (⟨recM.span.until res.1.span,
                .set (some recM) ⟨openM, res.2, res.1⟩⟩ : ASTNode)
          | openM, .curlyBOpen => do
              let temporary ← next
              let pk ← peek
              if isPatternStart temporary.2 pk then do
                pushBack temporary
                parse_pattern f openM none
              else do
                pushBack temporary
                let res ← parse_set f .curlyBClose
                pure (⟨openM.span.until res.1.span,
                  .set none ⟨openM, res.2, res.1⟩⟩ : ASTNode)
          | openM, .squareBOpen => do
              let values ← parse_list_items f []
              let close ← expect .squareBClose
              pure (⟨openM.span.until close.span, .list openM values close⟩ :
                ASTNode)
          | meta2, .dynamic values close => do
              let parsed ← parse_branch f values
              let id ← insert parsed
              pure (⟨meta2.span, .dynamic meta2 id close⟩ : ASTNode)
          | meta2, .value v => pure (⟨meta2.span, .value meta2 v⟩ : ASTNode)
          | meta2, .ident name => do
              let pk ← peek
              if pk == some .atTk then do
                let at2 ← next
                let openM ← expect .curlyBOpen
                parse_pattern f openM
                  (some ⟨true, meta2.span.until at2.1.span, at2.1, meta2, name⟩)
              else pure (⟨meta2.span, .var meta2 name⟩ : ASTNode)
          | meta2, .interpol multiline parts => do
              let t ← parse_interpol f meta2 multiline parts
              pure (⟨meta2.span, t⟩ : ASTNode)
          | meta2, token => throwE (some meta2.span) (.unexpected token))
        parse_val_dots f val) := rfl

/-- parse_val at zero fuel. -/
theorem parse_val_zero :
    parse_val 0 = outOfFuel := rfl

/-- Unfolding of parse_val_dots at successor fuel. -/
theorem parse_val_dots_succ (f : Nat) (val : ASTNode) :
    parse_val_dots (f + 1) val = (do
        let pk ← peek
        if pk == some .dot then do
          let d ← next
          let attr ← next_attr f
          let pk2 ← peek
          if isOrIdent pk2 then do
            let orTok ← next
            let default ← parse_val f
            let setId ← insert val
            let attrId ← insert attr
            let defaultId ← insert default
            parse_val_dots f ⟨val.span.until attr.span,
              .orDefault setId d.1 attrId orTok.1 defaultId⟩
          else do
            let setId ← insert val
            let attrId ← insert attr
            parse_val_dots f ⟨val.span.until attr.span, .indexSet setId d.1 attrId⟩
        else pure val) := rfl

/-- parse_val_dots at zero fuel. -/
theorem parse_val_dots_zero (val : ASTNode) :
    parse_val_dots 0 val = outOfFuel := rfl

/-- Unfolding of parse_fn at successor fuel. -/
theorem parse_fn_succ (f : Nat) :
    parse_fn (f + 1) = (do
        let val ← parse_val f
        parse_fn_loop f val) := rfl

/-- parse_fn at zero fuel. -/
theorem parse_fn_zero :
    parse_fn 0 = outOfFuel := rfl

/-- Unfolding of parse_fn_loop at successor fuel. -/
theorem parse_fn_loop_succ (f : Nat) (val : ASTNode) :
    parse_fn_loop (f + 1) val = (do
        let pk ← peek
        if (pk.map Token.is_fn_arg).getD false then do
          let arg ← parse_val f
          let l ← insert val
          let r ← insert arg
          parse_fn_loop f ⟨val.span.until arg.span, .apply l r⟩
        else pure val) := rfl

/-- parse_fn_loop at zero fuel. -/
theorem parse_fn_loop_zero (val : ASTNode) :
    parse_fn_loop 0 val = outOfFuel := rfl

/-- Unfolding of parse_negate at successor fuel. -/
theorem parse_negate_succ (f : Nat) :
    parse_negate (f + 1) = (do
        let pk ← peek
        if pk == some .sub then do
          let subTok ← next
          let expr ← parse_negate f
          let id ← insert expr
          pure (⟨subTok.1.span.until expr.span, .unary subTok.1 .negate id⟩ :
            ASTNode)
        else parse_fn f) := rfl

/-- parse_negate at zero fuel. -/
theorem parse_negate_zero :
    parse_negate 0 = outOfFuel := rfl

/-- Unfolding of parse_isset at successor fuel. -/
theorem parse_isset_succ (f : Nat) :
    parse_isset (f + 1) = (do
        let val ← parse_negate f
        parse_isset_loop f val) := rfl

/-- parse_isset at zero fuel. -/
theorem parse_isset_zero :
    parse_isset 0 = outOfFuel := rfl

/-- Unfolding of parse_isset_loop at successor fuel. -/
theorem parse_isset_loop_succ (f : Nat) (val : ASTNode) :
    parse_isset_loop (f + 1) val = (do
        match ← peek with
        | some .question => do
            let (meta, _) ← next
            let expr ← parse_negate f
            let val2 ← mk_operation val expr meta .isSet
            parse_isset_loop f val2
        | _ => pure val) := rfl

/-- parse_isset_loop at zero fuel. -/
theorem parse_isset_loop_zero (val : ASTNode) :
    parse_isset_loop 0 val = outOfFuel := rfl

/-- Unfolding of parse_concat at successor fuel. -/
theorem parse_concat_succ (f : Nat) :
    parse_concat (f + 1) = (do
        let val ← parse_isset f
        parse_concat_loop f val) := rfl

/-- parse_concat at zero fuel. -/
theorem parse_concat_zero :
    parse_concat 0 = outOfFuel := rfl

/-- Unfolding of parse_concat_loop at successor fuel. -/
theorem parse_concat_loop_succ (f : Nat) (val : ASTNode) :
    parse_concat_loop (f + 1) val = (do
        match ← peek with
        | some .concat => do
            let (meta, _) ← next
            let expr ← parse_isset f
            let val2 ← mk_operation val expr meta .concat
            parse_concat_loop f val2
        | _ => pure val) := rfl

/-- parse_concat_loop at zero fuel. -/
theorem parse_concat_loop_zero (val : ASTNode) :
    parse_concat_loop 0 val = outOfFuel := rfl

/-- Unfolding of parse_mul at successor fuel. -/
theorem parse_mul_succ (f : Nat) :
    parse_mul (f + 1) = (do
        let val ← parse_concat f
        parse_mul_loop f val) := rfl

/-- parse_mul at zero fuel. -/
theorem parse_mul_zero :
    parse_mul 0 = outOfFuel := rfl

/-- Unfolding of parse_mul_loop at successor fuel. -/
theorem parse_mul_loop_succ (f : Nat) (val : ASTNode) :
    parse_mul_loop (f + 1) val = (do
        match ← peek with
        | some .mul => do
            let (meta, _) ← next
            let expr ← parse_concat f
            let val2 ← mk_operation val expr meta .mul
            parse_mul_loop f val2
        | some .div => do
            let (meta, _) ← next
            let expr ← parse_concat f
            let val2 ← mk_operation val expr meta .div
            parse_mul_loop f val2
        | _ => pure val) := rfl

/-- parse_mul_loop at zero fuel. -/
theorem parse_mul_loop_zero (val : ASTNode) :
    parse_mul_loop 0 val = outOfFuel := rfl

/-- Unfolding of parse_add at successor fuel. -/
theorem parse_add_succ (f : Nat) :
    parse_add (f + 1) = (do
        let val ← parse_mul f
        parse_add_loop f val) := rfl

/-- parse_add at zero fuel. -/
theorem parse_add_zero :
    parse_add 0 = outOfFuel := rfl

/-- Unfolding of parse_add_loop at successor fuel. -/
theorem parse_add_loop_succ (f : Nat) (val : ASTNode) :
    parse_add_loop (f + 1) val = (do
        match ← peek with
        | some .add => do
            let (meta, _) ← next
            let expr ← parse_mul f
            let val2 ← mk_operation val expr meta .add
            parse_add_loop f val2
        | some .sub => do
            let (meta, _) ← next
            let expr ← parse_mul f
            let val2 ← mk_operation val expr meta .sub
            parse_add_loop f val2
        | _ => pure val) := rfl

/-- parse_add_loop at zero fuel. -/
theorem parse_add_loop_zero (val : ASTNode) :
    parse_add_loop 0 val = outOfFuel := rfl

/-- Unfolding of parse_invert at successor fuel. -/
theorem parse_invert_succ (f : Nat) :
    parse_invert (f + 1) = (do
        let pk ← peek
        if pk == some .invert then do
          let excl ← next
          let expr ← parse_invert f
          let id ← insert expr
          pure (⟨excl.1.span.until expr.span, .unary excl.1 .invert id⟩ :
            ASTNode)
        else parse_add f) := rfl

/-- parse_invert at zero fuel. -/
theorem parse_invert_zero :
    parse_invert 0 = outOfFuel := rfl

/-- Unfolding of parse_merge at successor fuel. -/
theorem parse_merge_succ (f : Nat) :
    parse_merge (f + 1) = (do
        let val ← parse_invert f
        parse_merge_loop f val) := rfl

/-- parse_merge at zero fuel. -/
theorem parse_merge_zero :
    parse_merge 0 = outOfFuel := rfl

/-- Unfolding of parse_merge_loop at successor fuel. -/
theorem parse_merge_loop_succ (f : Nat) (val : ASTNode) :
    parse_merge_loop (f + 1) val = (do
        match ← peek with
        | some .merge => do
            let (meta, _) ← next
            let expr ← parse_invert f
            let val2 ← mk_operation val expr meta .merge
            parse_merge_loop f val2
        | _ => pure val) := rfl

/-- parse_merge_loop at zero fuel. -/
theorem parse_merge_loop_zero (val : ASTNode) :
    parse_merge_loop 0 val = outOfFuel := rfl

/-- Unfolding of parse_compare at successor fuel. -/
theorem parse_compare_succ (f : Nat) :
    parse_compare (f + 1) = (do
        let val ← parse_merge f
        match ← peek with
        | some .less => do
            let (meta, _) ← next
            let expr ← parse_merge f
            mk_operation val expr meta .less
        | some .lessOrEq => do
            let (meta, _) ← next
            let expr ← parse_merge f
            mk_operation val expr meta .lessOrEq
        | some .more => do
            let (meta, _) ← next
            let expr ← parse_merge f
            mk_operation val expr meta .more
        | some .moreOrEq => do
            let (meta, _) ← next
            let expr ← parse_merge f
            mk_operation val expr meta .moreOrEq
        | _ => pure val) := rfl

/-- parse_compare at zero fuel. -/
theorem parse_compare_zero :
    parse_compare 0 = outOfFuel := rfl

/-- Unfolding of parse_equal at successor fuel. -/
theorem parse_equal_succ (f : Nat) :
    parse_equal (f + 1) = (do
        let val ← parse_compare f
        match ← peek with
        | some .equal => do
            let (meta, _) ← next
            let expr ← parse_compare f
            mk_operation val expr meta .equal
        | some .notEqual => do
            let (meta, _) ← next
            let expr ← parse_compare f
            mk_operation val expr meta .notEqual
        | _ => pure val) := rfl

/-- parse_equal at zero fuel. -/
theorem parse_equal_zero :
    parse_equal 0 = outOfFuel := rfl

/-- Unfolding of parse_and at successor fuel. -/
theorem parse_and_succ (f : Nat) :
    parse_and (f + 1) = (do
        let val ← parse_equal f
        parse_and_loop f val) := rfl

/-- parse_and at zero fuel. -/
theorem parse_and_zero :
    parse_and 0 = outOfFuel := rfl

/-- Unfolding of parse_and_loop at successor fuel. -/
theorem parse_and_loop_succ (f : Nat) (val : ASTNode) :
    parse_and_loop (f + 1) val = (do
        match ← peek with
        | some .and => do
            let (meta, _) ← next
            let expr ← parse_equal f
            let val2 ← mk_operation val expr meta .and
            parse_and_loop f val2
        | _ => pure val) := rfl

/-- parse_and_loop at zero fuel. -/
theorem parse_and_loop_zero (val : ASTNode) :
    parse_and_loop 0 val = outOfFuel := rfl

/-- Unfolding of parse_or at successor fuel. -/
theorem parse_or_succ (f : Nat) :
    parse_or (f + 1) = (do
        let val ← parse_and f
        parse_or_loop f val) := rfl

/-- parse_or at zero fuel. -/
theorem parse_or_zero :
    parse_or 0 = outOfFuel := rfl

/-- Unfolding of parse_or_loop at successor fuel. -/
theorem parse_or_loop_succ (f : Nat) (val : ASTNode) :
    parse_or_loop (f + 1) val = (do
        match ← peek with
        | some .or => do
            let (meta, _) ← next
            let expr ← parse_and f
            let val2 ← mk_operation val expr meta .or
            parse_or_loop f val2
        | _ => pure val) := rfl

/-- parse_or_loop at zero fuel. -/
theorem parse_or_loop_zero (val : ASTNode) :
    parse_or_loop 0 val = outOfFuel := rfl

/-- Unfolding of parse_implication at successor fuel. -/
theorem parse_implication_succ (f : Nat) :
    parse_implication (f + 1) = (do
        let val ← parse_or f
        parse_implication_loop f val) := rfl

/-- parse_implication at zero fuel. -/
theorem parse_implication_zero :
    parse_implication 0 = outOfFuel := rfl

/-- Unfolding of parse_implication_loop at successor fuel. -/
theorem parse_implication_loop_succ (f : Nat) (val : ASTNode) :
    parse_implication_loop (f + 1) val = (do
        match ← peek with
        | some .implication => do
            let (meta, _) ← next
            let expr ← parse_or f
            let val2 ← mk_operation val expr meta .implication
            parse_implication_loop f val2
        | _ => pure val) := rfl

/-- parse_implication_loop at zero fuel. -/
theorem parse_implication_loop_zero (val : ASTNode) :
    parse_implication_loop 0 val = outOfFuel := rfl

/-- Unfolding of parse_math at successor fuel. -/
theorem parse_math_succ (f : Nat) :
    parse_math (f + 1) = (parse_implication f) := rfl

/-- parse_math at zero fuel. -/
theorem parse_math_zero :
    parse_math 0 = outOfFuel := rfl

/-- Unfolding of parse_expr at successor fuel. -/
theorem parse_expr_succ (f : Nat) :
    parse_expr (f + 1) = (do
        match ← peek with
        | some .letKw => do
            let letTok ← next
            let pk ← peek
            if pk == some .curlyBOpen then do
              let openM ← next
              let res ← parse_set f .curlyBClose
              pure (⟨letTok.1.span.until res.1.span,
                .letE letTok.1 ⟨openM.1, res.2, res.1⟩⟩ : ASTNode)
            else do
              let res ← parse_set f .inKw
              let expr ← parse_expr f
              let id ← insert expr
              pure (⟨letTok.1.span.until expr.span,
                .letIn letTok.1 res.2 res.1 id⟩ : ASTNode)
        | some .withKw => do
            let withTok ← next
            let vars ← parse_expr f
            let semi ← expect .semicolon
            let rest ← parse_expr f
            let varsId ← insert vars
            let restId ← insert rest
            pure (⟨withTok.1.span.until rest.span,
              .withE withTok.1 varsId semi restId⟩ : ASTNode)
        | some .ifKw => do
            let ifTok ← next
            let condition ← parse_expr f
            let thenMeta ← expect .thenKw
            let body ← parse_expr f
            let elseMeta ← expect .elseKw
            let otherwise ← parse_expr f
            let conditionId ← insert condition
            let thenId ← insert body
            let elseId ← insert otherwise
            pure (⟨ifTok.1.span.until otherwise.span,
              .ifElse ifTok.1 conditionId thenMeta thenId elseMeta elseId⟩ :
              ASTNode)
        | some .assertKw => do
            let assertTok ← next
            let condition ← parse_expr f
            let semi ← expect .semicolon
            let rest ← parse_expr f
            let condId ← insert condition
            let restId ← insert rest
            pure (⟨assertTok.1.span.until rest.span,
              .assert assertTok.1 condId semi restId⟩ : ASTNode)
        | _ => do
            let ast ← parse_math f
            match ast with
            | ⟨start, .var m name⟩ => do
                let pk ← peek
                if pk == some .colon then do
                  let colon ← next
                  let expr ← parse_expr f
                  let id ← insert expr
                  pure (⟨start.until expr.span,
                    .lambda (.ident m name) colon.1 id⟩ : ASTNode)
                else pure (⟨start, .var m name⟩ : ASTNode)
            | ast2 => pure ast2) := rfl

/-- parse_expr at zero fuel. -/
theorem parse_expr_zero :
    parse_expr 0 = outOfFuel := rfl

/-- Outcome of the convenience parse entry point: the root node together
with the arena, or a parse error, or fuel exhaustion. -/
inductive ParseOutcome where
  | ok (root : ASTNode) (arena : List (Option ASTNode))
  | err (sp : Option Span) (e : ParseError)
  | fuelOut

/-- parse: the convenience function, running parse_expr on a fresh parser
with an empty arena and returning the root by value together with the
arena; note that it does not require the token stream to be exhausted. -/
def parse (fuel : Nat) (tokens : List (Meta × Token)) : ParseOutcome :=
  match parse_expr fuel ⟨tokens, []⟩ with
  | .ok node s => .ok node s.arena
  | .err sp e => .err sp e
  | .fuelOut => .fuelOut

/-! Observers used to state the claims. -/

/-- Whether a parse error is the InvalidType variant. -/
def ParseError.isInvalidType : ParseError → Bool
  | .invalidType _ => true
  | _ => false

/-- Whether a parse outcome is an InvalidType error. -/
def ParseOutcome.isInvalidTypeErr : ParseOutcome → Bool
  | .err _ e => e.isInvalidType
  | _ => false

/-- Whether a parse outcome is a parse error (fuel exhaustion is not one). -/
def ParseOutcome.isErr : ParseOutcome → Bool
  | .err _ _ => true
  | _ => false

/-- Node ids stored directly in a set entry: the attribute-path segments and
assigned value, or the parenthesised inherit source. -/
def SetEntry.ids : SetEntry → List NodeId
  | .assign key _ value _ => key.path.map Prod.fst ++ [value]
  | .inheritE _ fromExpr _ _ =>
      match fromExpr with
      | some p => [p.inner]
      | none => []

/-- Node ids stored directly in a pattern entry: its default expression. -/
def PatEntry.ids : PatEntry → List NodeId
  | e => match e.default with
         | some (_, id) => [id]
         | none => []

/-- Node ids stored in an optional pattern default. -/
def optIds : Option (Meta × NodeId) → List Nat
  | some (_, nid) => [nid]
  | none => []

/-- Node ids stored in an optional parenthesised inherit source. -/
def parensIds : Option Parens → List Nat
  | some p => [p.inner]
  | none => []

/-- Node ids stored directly in a lambda argument: the pattern defaults. -/
def LambdaArg.ids : LambdaArg → List NodeId
  | .ident _ _ => []
  | .pattern args _ _ => args.val.flatMap PatEntry.ids

/-- Node ids stored directly in an interpolation part. -/
def Interpol.ids : Interpol → List NodeId
  | .literal _ => []
  | .ast id _ => [id]

/-- Node ids stored directly in a node type (one level, no arena chasing). -/
def ASTType.ids : ASTType → List NodeId
  | .interpol _ _ parts => parts.flatMap Interpol.ids
  | .lambda arg _ body => arg.ids ++ [body]
  | .list _ items _ => items
  | .parens p => [p.inner]
  | .set _ values => values.val.flatMap SetEntry.ids
  | .value _ _ => []
  | .var _ _ => []
  | .assert _ cond _ body => [cond, body]
  | .ifElse _ c _ t _ e => [c, t, e]
  | .importE _ v => [v]
  | .letE _ vals => vals.val.flatMap SetEntry.ids
  | .letIn _ vals _ body => vals.flatMap SetEntry.ids ++ [body]
  | .withE _ env _ body => [env, body]
  | .apply fn arg => [fn, arg]
  | .dynamic _ ast _ => [ast]
  | .indexSet s _ a => [s, a]
  | .unary _ _ x => [x]
  | .orDefault s _ a _ d => [s, a, d]
  | .operation l _ r => [l, r]

/-- Metas stored directly in an attribute path (the separating dots). -/
def Attribute.metas (a : Attribute) : List Meta :=
  a.path.flatMap (fun p => match p.2 with | some m => [m] | none => [])

/-- Metas stored directly in a Parens wrapper. -/
def Parens.metas (p : Parens) : List Meta := [p.openM, p.closeM]

/-- Metas stored directly in a set entry. -/
def SetEntry.metas : SetEntry → List Meta
  | .assign key assignM _ semi => key.metas ++ [assignM, semi]
  | .inheritE m fromExpr vars semi =>
      [m] ++ (match fromExpr with | some p => p.metas | none => []) ++
        vars.map Prod.fst ++ [semi]

/-- Metas stored directly in a pattern entry. -/
def PatEntry.metas (e : PatEntry) : List Meta :=
  [e.ident] ++ (match e.default with | some (m, _) => [m] | none => []) ++
    (match e.comma with | some m => [m] | none => [])

/-- Metas stored directly in a lambda argument. -/
def LambdaArg.metas : LambdaArg → List Meta
  | .ident m _ => [m]
  | .pattern args bind ellipsis =>
      [args.openM] ++ args.val.flatMap PatEntry.metas ++ [args.closeM] ++
        (match bind with | some b => [b.atM, b.ident] | none => []) ++
        (match ellipsis with | some m => [m] | none => [])

/-- Metas stored directly in an interpolation part. -/
def Interpol.metas : Interpol → List Meta
  | .literal _ => []
  | .ast _ close => [close]

/-- Metas stored directly in a node type (one level, no arena chasing). -/
def ASTType.metas : ASTType → List Meta
  | .interpol m _ parts => [m] ++ parts.flatMap Interpol.metas
  | .lambda arg colon _ => arg.metas ++ [colon]
  | .list o _ c => [o, c]
  | .parens p => p.metas
  | .set r values =>
      (match r with | some m => [m] | none => []) ++
        [values.openM] ++ values.val.flatMap SetEntry.metas ++ [values.closeM]
  | .value m _ => [m]
  | .var m _ => [m]
  | .assert m _ semi _ => [m, semi]
  | .ifElse im _ tm _ em _ => [im, tm, em]
  | .importE m _ => [m]
  | .letE m vals => [m, vals.openM, vals.closeM] ++ vals.val.flatMap SetEntry.metas
  | .letIn lm vals im _ => [lm, im] ++ vals.flatMap SetEntry.metas
  | .withE m _ semi _ => [m, semi]
  | .apply _ _ => []
  | .dynamic m _ close => [m, close]
  | .indexSet _ d _ => [d]
  | .unary m _ _ => [m]
  | .orDefault _ d _ orM _ => [d, orM]
  | .operation _ op _ => [op.1]

/-- Transitive meta collection over the arena, computed bottom to top: slot p
collects its direct metas plus the collections of the slots it references
(stored nodes only ever reference earlier slots). -/
def arenaMetaTable (arena : List (Option ASTNode)) : List (List Meta) :=
  arena.foldl
    (fun acc slot =>
      acc ++ [match slot with
              | none => []
              | some n =>
                  n.typ.metas ++ n.typ.ids.flatMap (fun q => acc.getD q [])])
    []

/-- All metas transitively inside a node, resolving child ids through the
arena. -/
def nodeAllMetas (arena : List (Option ASTNode)) (n : ASTNode) : List Meta :=
  n.typ.metas ++ n.typ.ids.flatMap (fun q => (arenaMetaTable arena).getD q [])

/-- Post-order id sequences of the arena slots, computed bottom to top:
slot p yields the concatenated post-orders of its children followed by p. -/
def arenaPostTable (arena : List (Option ASTNode)) : List (List Nat) :=
  arena.foldl
    (fun acc slot =>
      acc ++ [match slot with
              | none => [acc.length]
              | some n =>
                  n.typ.ids.flatMap (fun q => acc.getD q []) ++ [acc.length]])
    []

/-- The post-order traversal of the parse result: children of the root in
post-order (the root itself holds no id). Insertion in post-order would
make this sequence exactly the range of arena indices. -/
def rootPostOrder (arena : List (Option ASTNode)) (root : ASTNode) : List Nat :=
  root.typ.ids.flatMap (fun q => (arenaPostTable arena).getD q [])

/-- Does the parse result have an implication at the root whose right
subtree is again an implication, i.e. the right-nested shape the spec
prescribes for a -> b -> c. -/
def ParseOutcome.isImplicationRightNested : ParseOutcome → Bool
  | .ok root arena =>
      match root.typ with
      | .operation _ (_, .implication) r =>
          match arena.get? r with
          | some (some n) =>
              match n.typ with
              | .operation _ (_, .implication) _ => true
              | _ => false
          | _ => false
      | _ => false
  | _ => false

/-- Meta with the given span and no trivia, for concrete token streams. -/
def mkMeta (a b : Nat) : Meta := ⟨⟨a, some b⟩, [], []⟩

/-- The token stream a -> b -> c with atomic value operands. -/
def impTokens (m1 m2 m3 m4 m5 : Meta) (v1 v2 v3 : Value) :
    List (Meta × Token) :=
  [(m1, .value v1), (m2, .implication), (m3, .value v2),
   (m4, .implication), (m5, .value v3)]

/-- The token stream a == b == c with atomic value operands. -/
def eqTokens (m1 m2 m3 m4 m5 : Meta) (v1 v2 v3 : Value) :
    List (Meta × Token) :=
  [(m1, .value v1), (m2, .equal), (m3, .value v2),
   (m4, .equal), (m5, .value v3)]

/-- The token stream a.b or d. -/
def orTokens (m1 m2 m3 m4 m5 : Meta) (a b : String) (d : Value) :
    List (Meta × Token) :=
  [(m1, .ident a), (m2, .dot), (m3, .ident b), (m4, .ident "or"),
   (m5, .value d)]

/-- The token stream import p { }. -/
def importTokens (m1 m2 m3 m4 : Meta) (v : Value) : List (Meta × Token) :=
  [(m1, .importKw), (m2, .value v), (m3, .curlyBOpen), (m4, .curlyBClose)]

/-- C2 (corrected): the implication level folds left like every other
looping binary level: a -> b -> c parses as
Operation(Operation(a, Implication, b), Implication, c), with arena slots
a, b, the inner operation, then c. -/
theorem claim_C2 (m1 m2 m3 m4 m5 : Meta) (v1 v2 v3 : Value) :
    parse 100 (impTokens m1 m2 m3 m4 m5 v1 v2 v3) =
      .ok ⟨(m1.span.until m3.span).until m5.span,
            .operation 2 (m4, .implication) 3⟩
        [some ⟨m1.span, .value m1 v1⟩,
         some ⟨m3.span, .value m3 v2⟩,
         some ⟨m1.span.until m3.span, .operation 0 (m2, .implication) 1⟩,
         some ⟨m5.span, .value m5 v3⟩] := rfl

/-- C2: the claim as stated is false: for the concrete stream
1 -> 2 -> 3 the result is not right-nested (the right subtree of the root
implication is a value, not another implication). -/
theorem claim_C2_counterexample :
    (parse 100 (impTokens (mkMeta 0 1) (mkMeta 2 4) (mkMeta 5 6) (mkMeta 7 9)
        (mkMeta 10 11) (.int 1) (.int 2) (.int 3))).isImplicationRightNested
      = false := rfl

/-- C3 (corrected): a == b == c does not make the parse fail: parse_equal
binds only the first operator, Equal(a, b), and leaves the second == and c
unconsumed, but the top-level parse never requires the stream to be
exhausted, so it returns Ok with the leftover tokens silently ignored. -/
theorem claim_C3 (m1 m2 m3 m4 m5 : Meta) (v1 v2 v3 : Value) :
    parse 100 (eqTokens m1 m2 m3 m4 m5 v1 v2 v3) =
      .ok ⟨m1.span.until m3.span, .operation 0 (m2, .equal) 1⟩
        [some ⟨m1.span, .value m1 v1⟩, some ⟨m3.span, .value m3 v2⟩] ∧
    parse_equal 50 ⟨eqTokens m1 m2 m3 m4 m5 v1 v2 v3, []⟩ =
      .ok ⟨m1.span.until m3.span, .operation 0 (m2, .equal) 1⟩
        ⟨[(m4, .equal), (m5, .value v3)],
         [some ⟨m1.span, .value m1 v1⟩, some ⟨m3.span, .value m3 v2⟩]⟩ :=
  ⟨rfl, rfl⟩

/-- C3: the claim as stated is false: parsing the concrete stream
1 == 2 == 3 returns no error. -/
theorem claim_C3_counterexample :
    (parse 100 (eqTokens (mkMeta 0 1) (mkMeta 2 4) (mkMeta 5 6) (mkMeta 7 9)
        (mkMeta 10 11) (.int 1) (.int 2) (.int 3))).isErr = false := rfl

/-- C5 (confirmed): for a.b or d the OrDefault node spans
val.span.until(attr.span), from the start of the accessed value to the end
of the attribute; whenever the default lies textually after the attribute
the resulting span does not cover the default. -/
theorem claim_C5 (m1 m2 m3 m4 m5 : Meta) (a b : String) (d : Value) :
    parse 100 (orTokens m1 m2 m3 m4 m5 a b d) =
      .ok ⟨m1.span.until m3.span, .orDefault 0 m2 1 m4 2⟩
        [some ⟨m1.span, .var m1 a⟩, some ⟨m3.span, .var m3 b⟩,
         some ⟨m5.span, .value m5 d⟩] ∧
    (∀ e e', m3.span.stop = some e → m5.span.stop = some e' → e < e' →
      Span.covers (m1.span.until m3.span) m5.span = false) := by
  refine ⟨rfl, fun e e' h3 h5 hlt => ?_⟩
  have : ¬ (e' ≤ e) := by omega
  simp [Span.covers, Span.until, h3, h5, this]

/-- C5 witness at a concrete input. -/
theorem claim_C5_witness :
    parse 100 (orTokens (mkMeta 0 1) (mkMeta 1 2) (mkMeta 2 3) (mkMeta 4 6)
        (mkMeta 7 8) "a" "b" (.int 1)) =
      .ok ⟨(mkMeta 0 1).span.until (mkMeta 2 3).span,
            .orDefault 0 (mkMeta 1 2) 1 (mkMeta 4 6) 2⟩
        [some ⟨(mkMeta 0 1).span, .var (mkMeta 0 1) "a"⟩,
         some ⟨(mkMeta 2 3).span, .var (mkMeta 2 3) "b"⟩,
         some ⟨(mkMeta 7 8).span, .value (mkMeta 7 8) (.int 1)⟩] ∧
    Span.covers ((mkMeta 0 1).span.until (mkMeta 2 3).span)
      (mkMeta 7 8).span = false :=
  ⟨(claim_C5 (mkMeta 0 1) (mkMeta 1 2) (mkMeta 2 3) (mkMeta 4 6) (mkMeta 7 8)
      "a" "b" (.int 1)).1,
   (claim_C5 (mkMeta 0 1) (mkMeta 1 2) (mkMeta 2 3) (mkMeta 4 6) (mkMeta 7 8)
      "a" "b" (.int 1)).2 3 8 rfl rfl (by decide)⟩

/-- C1: the claim as stated is false: for a.b or d the meta of the default
expression d appears transitively inside the returned OrDefault root, but
the root span, running only from the value start to the attribute end, does
not cover it. -/
theorem claim_C1_counterexample :
    parse 100 (orTokens (mkMeta 0 1) (mkMeta 1 2) (mkMeta 2 3) (mkMeta 4 6)
        (mkMeta 7 8) "a" "b" (.int 1)) =
      .ok ⟨⟨0, some 3⟩, .orDefault 0 (mkMeta 1 2) 1 (mkMeta 4 6) 2⟩
        [some ⟨⟨0, some 1⟩, .var (mkMeta 0 1) "a"⟩,
         some ⟨⟨2, some 3⟩, .var (mkMeta 2 3) "b"⟩,
         some ⟨⟨7, some 8⟩, .value (mkMeta 7 8) (.int 1)⟩] ∧
    mkMeta 7 8 ∈ nodeAllMetas
        [some ⟨⟨0, some 1⟩, .var (mkMeta 0 1) "a"⟩,
         some ⟨⟨2, some 3⟩, .var (mkMeta 2 3) "b"⟩,
         some ⟨⟨7, some 8⟩, .value (mkMeta 7 8) (.int 1)⟩]
        ⟨⟨0, some 3⟩, .orDefault 0 (mkMeta 1 2) 1 (mkMeta 4 6) 2⟩ ∧
    Span.covers (⟨0, some 3⟩ : Span) (mkMeta 7 8).span = false := by
  refine ⟨rfl, by decide, by decide⟩

/-- C4: the claim as stated is false: for 1 + 2 * 3 the post-order
traversal of the result reads the arena slots in the order 2, 0, 1, 3, so
nodes are not inserted in post-order of the expression tree (post-order
insertion would enumerate the slots in increasing order). -/
theorem claim_C4_counterexample :
    parse 100 [(mkMeta 0 1, .value (.int 1)), (mkMeta 2 3, .add),
        (mkMeta 4 5, .value (.int 2)), (mkMeta 6 7, .mul),
        (mkMeta 8 9, .value (.int 3))] =
      .ok ⟨⟨0, some 9⟩, .operation 2 (mkMeta 2 3, .add) 3⟩
        [some ⟨⟨4, some 5⟩, .value (mkMeta 4 5) (.int 2)⟩,
         some ⟨⟨8, some 9⟩, .value (mkMeta 8 9) (.int 3)⟩,
         some ⟨⟨0, some 1⟩, .value (mkMeta 0 1) (.int 1)⟩,
         some ⟨⟨4, some 9⟩, .operation 0 (mkMeta 6 7, .mul) 1⟩] ∧
    rootPostOrder
        [some ⟨⟨4, some 5⟩, .value (mkMeta 4 5) (.int 2)⟩,
         some ⟨⟨8, some 9⟩, .value (mkMeta 8 9) (.int 3)⟩,
         some ⟨⟨0, some 1⟩, .value (mkMeta 0 1) (.int 1)⟩,
         some ⟨⟨4, some 9⟩, .operation 0 (mkMeta 6 7, .mul) 1⟩]
        ⟨⟨0, some 9⟩, .operation 2 (mkMeta 2 3, .add) 3⟩ = [2, 0, 1, 3] ∧
    [2, 0, 1, 3] ≠ List.range 4 := by
  refine ⟨rfl, by decide, by decide⟩

/-- C7 (confirmed): the import keyword parses exactly one atom via
parse_val, so the stream import p { } is Apply(Import(p), EmptySet): the
empty set becomes a function argument of the import application rather
than part of the imported expression. -/
theorem claim_C7 (m1 m2 m3 m4 : Meta) (v : Value) :
    parse 100 (importTokens m1 m2 m3 m4 v) =
      .ok ⟨m1.span.until m4.span, .apply 1 2⟩
        [some ⟨m2.span, .value m2 v⟩,
         some ⟨m1.span.until m2.span, .importE m1 0⟩,
         some ⟨m3.span.until m4.span, .set none ⟨m3, [], m4⟩⟩] := rfl

/-- C6 (confirmed): after the open brace, the lookahead pair commits to a
lambda pattern exactly for the six listed pairs; hence an empty brace pair
inside a larger expression is an empty set, while an empty brace pair
followed by a colon, or by an at-binding, is a lambda with empty pattern. -/
theorem claim_C6 :
    (∀ t pk, isPatternStart t pk = true ↔
      ((∃ s, t = Token.ident s ∧ pk = some Token.comma) ∨
       (∃ s, t = Token.ident s ∧ pk = some Token.question) ∨
       (t = Token.ellipsis ∧ pk = some Token.curlyBClose) ∨
       (∃ s, t = Token.ident s ∧ pk = some Token.curlyBClose) ∨
       (t = Token.curlyBClose ∧ pk = some Token.colon) ∨
       (t = Token.curlyBClose ∧ pk = some Token.atTk))) ∧
    (∀ m1 m2 m3 m4 : Meta,
      parse 100 [(m1, .parenOpen), (m2, .curlyBOpen), (m3, .curlyBClose),
          (m4, .parenClose)] =
        .ok ⟨m1.span.until m4.span, .parens ⟨m1, 0, m4⟩⟩
          [some ⟨m2.span.until m3.span, .set none ⟨m2, [], m3⟩⟩]) ∧
    (∀ (m1 m2 m3 m4 : Meta) (v : Value),
      parse 100 [(m1, .curlyBOpen), (m2, .curlyBClose), (m3, .colon),
          (m4, .value v)] =
        .ok ⟨m1.span.until m4.span,
              .lambda (.pattern ⟨m1, [], m2⟩ none none) m3 0⟩
          [some ⟨m4.span, .value m4 v⟩]) ∧
    (∀ (m1 m2 m3 m4 m5 m6 : Meta) (x y : String),
      parse 100 [(m1, .curlyBOpen), (m2, .curlyBClose), (m3, .atTk),
          (m4, .ident x), (m5, .colon), (m6, .ident y)] =
        .ok ⟨m1.span.until m6.span,
              .lambda (.pattern ⟨m1, [], m2⟩
                (some ⟨false, m3.span.until m4.span, m3, m4, x⟩) none) m5 0⟩
          [some ⟨m6.span, .var m6 y⟩]) := by
  refine ⟨fun t pk => ?_, fun _ _ _ _ => rfl, fun _ _ _ _ _ => rfl,
    fun _ _ _ _ _ _ _ _ => rfl⟩
  unfold isPatternStart
  split <;> simp_all

/-- C6 witness instantiating the lookahead characterization at the empty
pattern pair and checking one concrete behavior. -/
theorem claim_C6_witness :
    (isPatternStart Token.curlyBClose (some Token.colon) = true ↔
      ((∃ s, Token.curlyBClose = Token.ident s ∧
          (some Token.colon : Option Token) = some Token.comma) ∨
       (∃ s, Token.curlyBClose = Token.ident s ∧
          (some Token.colon : Option Token) = some Token.question) ∨
       (Token.curlyBClose = Token.ellipsis ∧
          (some Token.colon : Option Token) = some Token.curlyBClose) ∨
       (∃ s, Token.curlyBClose = Token.ident s ∧
          (some Token.colon : Option Token) = some Token.curlyBClose) ∨
       (Token.curlyBClose = Token.curlyBClose ∧
          (some Token.colon : Option Token) = some Token.colon) ∨
       (Token.curlyBClose = Token.curlyBClose ∧
          (some Token.colon : Option Token) = some Token.atTk))) :=
  claim_C6.1 Token.curlyBClose (some Token.colon)

/-! Invariant machinery: arena well-formedness, id freshness, operation
shape, and the absence of InvalidType errors, proved for every parser
method by induction on fuel. -/

/-- The operation-shape invariant of one node type: a binary Operation
always stores consecutive ids, left first. -/
def ASTTypeOk (t : ASTType) : Prop :=
  ∀ l mo r, t = ASTType.operation l mo r → r = l + 1

/-- The operation-shape invariant of one node. -/
def NodeOk (n : ASTNode) : Prop := ASTTypeOk n.typ

/-- Every id in the list is below the bound. -/
def IdsLt (ids : List Nat) (k : Nat) : Prop := ∀ i ∈ ids, i < k

/-- Arena well-formedness: every stored node references only strictly
earlier slots and satisfies the operation shape. -/
def ArenaWF (a : List (Option ASTNode)) : Prop :=
  ∀ p n, a[p]? = some (some n) → IdsLt n.typ.ids p ∧ NodeOk n

/-- The invariant of one parser computation outcome, relative to the base
state s0: errors are never InvalidType; on success the arena only grew,
the returned value references only live slots, a grown arena has its last
slot referenced by the returned value, well-formedness is preserved, and
the value satisfies its own shape predicate. -/
def ResOk {α : Type} (v : α → List Nat) (o : α → Prop) (s0 : PState) :
    PResult α → Prop
  | .ok a s' =>
      (∃ t, s'.arena = s0.arena ++ t) ∧
      IdsLt (v a) s'.arena.length ∧
      (s0.arena.length < s'.arena.length → s'.arena.length - 1 ∈ v a) ∧
      (ArenaWF s0.arena → ArenaWF s'.arena) ∧ o a
  | .err _ e => e.isInvalidType = false
  | .fuelOut => True

theorem IdsLt.mono {ids : List Nat} {k k' : Nat} (h : IdsLt ids k)
    (hk : k ≤ k') : IdsLt ids k' :=
  fun i hi => lt_of_lt_of_le (h i hi) hk

theorem ArenaWF.append {a : List (Option ASTNode)} {n : ASTNode}
    (h : ArenaWF a) (hn : IdsLt n.typ.ids a.length) (ho : NodeOk n) :
    ArenaWF (a ++ [some n]) := by
  intro p m hp
  rcases lt_trichotomy p a.length with hlt | heq | hgt
  · rw [List.getElem?_append_left hlt] at hp
    exact h p m hp
  · subst heq
    rw [List.getElem?_append_right (le_refl _)] at hp
    simp at hp
    subst hp
    exact ⟨hn, ho⟩
  · rw [List.getElem?_append_right (le_of_lt hgt)] at hp
    have : p - a.length ≥ 1 := by omega
    rcases k : p - a.length with _ | q
    · omega
    · rw [k] at hp
      simp at hp

/-- Sequencing preserves the invariant: the continuation gets every fact
the first computation established. -/
theorem ResOk.step {α β : Type} {vA : α → List Nat} {oA : α → Prop}
    {vB : β → List Nat} {oB : β → Prop} {x : M α} {g : α → M β}
    {s0 s : PState}
    (hx : ResOk vA oA s (x s))
    (hg : ∀ a s1, x s = .ok a s1 →
      (∃ t, s1.arena = s.arena ++ t) →
      IdsLt (vA a) s1.arena.length →
      (s.arena.length < s1.arena.length → s1.arena.length - 1 ∈ vA a) →
      (ArenaWF s.arena → ArenaWF s1.arena) → oA a →
      ResOk vB oB s0 (g a s1)) :
    ResOk vB oB s0 ((x >>= g) s) := by
  rw [run_bind]
  cases hxs : x s with
  | ok a s1 =>
      rw [hxs] at hx
      obtain ⟨h1, h2, h3, h4, h5⟩ := hx
      exact hg a s1 hxs h1 h2 h3 h4 h5
  | err sp e => rw [hxs] at hx; exact hx
  | fuelOut => trivial

theorem ResOk.pure {α : Type} {v : α → List Nat} {o : α → Prop} {a : α}
    {s0 s : PState}
    (h1 : ∃ t, s.arena = s0.arena ++ t)
    (h2 : IdsLt (v a) s.arena.length)
    (h3 : s0.arena.length < s.arena.length → s.arena.length - 1 ∈ v a)
    (h4 : ArenaWF s0.arena → ArenaWF s.arena)
    (h5 : o a) : ResOk v o s0 ((pure a : M α) s) :=
  ⟨h1, h2, h3, h4, h5⟩

theorem ResOk.throw {α : Type} {v : α → List Nat} {o : α → Prop}
    {sp : Option Span} {e : ParseError} {s0 s : PState}
    (he : e.isInvalidType = false) : ResOk v o s0 ((throwE sp e : M α) s) := he

theorem ResOk.fuel {α : Type} {v : α → List Nat} {o : α → Prop}
    {s0 s : PState} : ResOk v o s0 ((outOfFuel : M α) s) := trivial

theorem ResOk.ok_eqArena {α : Type} {v : α → List Nat} {o : α → Prop}
    {a : α} {s0 s' : PState} (harena : s'.arena = s0.arena)
    (hv : IdsLt (v a) s'.arena.length) (h5 : o a) :
    ResOk v o s0 (PResult.ok a s') := by
  refine ⟨⟨[], ?_⟩, hv, ?_, ?_, h5⟩
  · rw [harena]; simp
  · intro h; rw [harena] at h; exact absurd h (lt_irrefl _)
  · intro hwf; rw [harena]; exact hwf

theorem idsLt_nil {k : Nat} : IdsLt [] k := by intro i hi; cases hi

theorem next_ok (s : PState) :
    ResOk (fun _ => []) (fun _ => True) s (next s) := by
  cases s with
  | mk toks arena =>
      cases toks with
      | nil => exact rfl
      | cons t rest => exact ResOk.ok_eqArena rfl idsLt_nil trivial

theorem peek_ok (s : PState) :
    ResOk (fun _ => []) (fun _ => True) s (peek s) :=
  ResOk.ok_eqArena rfl idsLt_nil trivial

theorem peek_meta_ok (s : PState) :
    ResOk (fun _ => []) (fun _ => True) s (peek_meta s) :=
  ResOk.ok_eqArena rfl idsLt_nil trivial

theorem pushBack_ok (item : Meta × Token) (s : PState) :
    ResOk (fun _ => []) (fun _ => True) s (pushBack item s) :=
  ResOk.ok_eqArena rfl idsLt_nil trivial

theorem expect_ok (e : Token) (s : PState) :
    ResOk (fun _ => []) (fun _ => True) s (expect e s) := by
  cases s with
  | mk toks arena =>
      cases toks with
      | nil => exact rfl
      | cons t rest =>
          obtain ⟨m, tok⟩ := t
          rw [run_expect_cons]
          by_cases hc : (tok == e) = true
          · rw [if_pos hc]
            exact ResOk.ok_eqArena rfl idsLt_nil trivial
          · rw [if_neg hc]
            exact rfl

theorem next_ident_ok (s : PState) :
    ResOk (fun _ => []) (fun _ => True) s (next_ident s) := by
  cases s with
  | mk toks arena =>
      cases toks with
      | nil => exact rfl
      | cons t rest =>
          obtain ⟨m, tok⟩ := t
          cases tok <;>
            first
            | exact rfl
            | exact ResOk.ok_eqArena rfl idsLt_nil trivial

theorem insert_ok {node : ASTNode} {s : PState}
    (hids : IdsLt node.typ.ids s.arena.length) (hok : NodeOk node) :
    ResOk (fun id => [id]) (fun id => id = s.arena.length) s
      (insert node s) := by
  rw [run_insert]
  refine ⟨⟨[some node], rfl⟩, ?_, ?_, ?_, rfl⟩
  · intro i hi
    simp at hi
    subst hi
    simp
  · intro _
    simp
  · intro hwf
    exact hwf.append hids hok

theorem mk_operation_ok {val expr : ASTNode} {meta : Meta} {op : Operator}
    {s : PState}
    (hv : IdsLt val.typ.ids s.arena.length)
    (he : IdsLt expr.typ.ids s.arena.length)
    (hov : NodeOk val) (hoe : NodeOk expr) :
    ResOk (fun n : ASTNode => n.typ.ids) NodeOk s
      (mk_operation val expr meta op s) := by
  unfold mk_operation
  refine ResOk.step (insert_ok hv hov) ?_
  intro l s1 hxs h1 h2 h3 h4 h5
  rw [run_insert] at hxs
  injection hxs with hl hs1
  subst hl
  subst hs1
  refine ResOk.step (insert_ok (he.mono (by simp)) hoe) ?_
  intro r s2 hxs2 k1 k2 k3 k4 k5
  rw [run_insert] at hxs2
  injection hxs2 with hr hs2
  subst hr
  subst hs2
  refine ResOk.pure ?_ ?_ ?_ ?_ ?_
  · exact ⟨[some val, some expr], by simp⟩
  · intro i hi
    simp [ASTType.ids] at hi
    rcases hi with hi | hi <;> subst hi <;> simp
  · intro _
    simp [ASTType.ids]
  · intro hwf
    have w1 := hwf.append hv hov
    have w2 := w1.append (by simpa using he.mono (by simp)) hoe
    simpa using w2
  · intro l2 mo r2 hop
    simp [ASTType.operation.injEq] at hop
    obtain ⟨hl2, _, hr2⟩ := hop
    subst hl2
    subst hr2
    simp

/-- Deterministic unfolding of the operation-folding step. -/
theorem mk_operation_spec (val expr : ASTNode) (meta : Meta) (op : Operator)
    (s : PState) :
    mk_operation val expr meta op s =
      .ok ⟨val.span.until expr.span,
            .operation s.arena.length (meta, op) (s.arena.length + 1)⟩
        ⟨s.tokens, s.arena ++ [some val, some expr]⟩ := by
  simp [mk_operation, run_bind, run_insert]

theorem ext_trans {a b c : List (Option ASTNode)}
    (h1 : ∃ t, b = a ++ t) (h2 : ∃ t, c = b ++ t) : ∃ t, c = a ++ t := by
  obtain ⟨t1, rfl⟩ := h1
  obtain ⟨t2, rfl⟩ := h2
  exact ⟨t1 ++ t2, by simp⟩

theorem ext_len {a b : List (Option ASTNode)} (h : ∃ t, b = a ++ t) :
    a.length ≤ b.length := by
  obtain ⟨t, rfl⟩ := h
  simp

theorem no_growth {s s1 : PState}
    (h1 : ∃ t, s1.arena = s.arena ++ t)
    (h3 : s.arena.length < s1.arena.length →
      s1.arena.length - 1 ∈ ([] : List Nat)) : s1.arena = s.arena := by
  obtain ⟨t, ht⟩ := h1
  cases t with
  | nil => simpa using ht
  | cons a t' =>
      exfalso
      have := h3 (by rw [ht]; simp)
      simp at this

/-- The full invariant of every parser method at one fuel level. -/
structure CoreOk (f : Nat) : Prop where
  branch : ∀ toks s,
    ResOk (fun n : ASTNode => n.typ.ids) NodeOk s (parse_branch f toks s)
  interpol_parts : ∀ values s,
    ResOk (fun ps : List Interpol => ps.flatMap Interpol.ids) (fun _ => True) s
      (parse_interpol_parts f values s)
  interpol : ∀ meta ml values s,
    ResOk ASTType.ids ASTTypeOk s (parse_interpol f meta ml values s)
  attr_next : ∀ s,
    ResOk (fun n : ASTNode => n.typ.ids) NodeOk s (next_attr f s)
  attr_loop : ∀ path (s s0 : PState),
    (∃ t, s.arena = s0.arena ++ t) →
    IdsLt (path.map Prod.fst) s.arena.length →
    (s0.arena.length < s.arena.length →
      s.arena.length - 1 ∈ path.map Prod.fst) →
    (ArenaWF s0.arena → ArenaWF s.arena) →
    ResOk (fun a : Attribute => a.path.map Prod.fst) (fun _ => True) s0
      (parse_attr_loop f path s)
  attr : ∀ s,
    ResOk (fun a : Attribute => a.path.map Prod.fst) (fun _ => True) s
      (parse_attr f s)
  pattern_entries : ∀ args (s s0 : PState),
    (∃ t, s.arena = s0.arena ++ t) →
    IdsLt (args.flatMap PatEntry.ids) s.arena.length →
    (s0.arena.length < s.arena.length →
      s.arena.length - 1 ∈ args.flatMap PatEntry.ids) →
    (ArenaWF s0.arena → ArenaWF s.arena) →
    ResOk (fun r : List PatEntry × Option Meta => r.1.flatMap PatEntry.ids)
      (fun _ => True) s0 (parse_pattern_entries f args s)
  pattern : ∀ openM bind s,
    ResOk (fun n : ASTNode => n.typ.ids) NodeOk s (parse_pattern f openM bind s)
  inherit_vars : ∀ vars s,
    ResOk (fun _ => []) (fun _ => True) s (collect_inherit_vars f vars s)
  set_entries : ∀ untilTok values (s s0 : PState),
    (∃ t, s.arena = s0.arena ++ t) →
    IdsLt (values.flatMap SetEntry.ids) s.arena.length →
    (s0.arena.length < s.arena.length →
      s.arena.length - 1 ∈ values.flatMap SetEntry.ids) →
    (ArenaWF s0.arena → ArenaWF s.arena) →
    ResOk (fun r : Meta × List SetEntry => r.2.flatMap SetEntry.ids)
      (fun _ => True) s0 (parse_set_entries f untilTok values s)
  set : ∀ untilTok s,
    ResOk (fun r : Meta × List SetEntry => r.2.flatMap SetEntry.ids)
      (fun _ => True) s (parse_set f untilTok s)
  list_items : ∀ values (s s0 : PState),
    (∃ t, s.arena = s0.arena ++ t) →
    IdsLt values s.arena.length →
    (s0.arena.length < s.arena.length → s.arena.length - 1 ∈ values) →
    (ArenaWF s0.arena → ArenaWF s.arena) →
    ResOk (fun l : List NodeId => l) (fun _ => True) s0
      (parse_list_items f values s)
  val : ∀ s, ResOk (fun n : ASTNode => n.typ.ids) NodeOk s (parse_val f s)
  val_dots : ∀ val (s s0 : PState),
    (∃ t, s.arena = s0.arena ++ t) →
    IdsLt val.typ.ids s.arena.length →
    (s0.arena.length < s.arena.length →
      s.arena.length - 1 ∈ val.typ.ids) →
    (ArenaWF s0.arena → ArenaWF s.arena) → NodeOk val →
    ResOk (fun n : ASTNode => n.typ.ids) NodeOk s0 (parse_val_dots f val s)
  fn : ∀ s, ResOk (fun n : ASTNode => n.typ.ids) NodeOk s (parse_fn f s)
  fn_loop : ∀ val (s s0 : PState),
    (∃ t, s.arena = s0.arena ++ t) →
    IdsLt val.typ.ids s.arena.length →
    (s0.arena.length < s.arena.length →
      s.arena.length - 1 ∈ val.typ.ids) →
    (ArenaWF s0.arena → ArenaWF s.arena) → NodeOk val →
    ResOk (fun n : ASTNode => n.typ.ids) NodeOk s0 (parse_fn_loop f val s)
  negate : ∀ s, ResOk (fun n : ASTNode => n.typ.ids) NodeOk s (parse_negate f s)
  isset : ∀ s, ResOk (fun n : ASTNode => n.typ.ids) NodeOk s (parse_isset f s)
  isset_loop : ∀ val (s s0 : PState),
    (∃ t, s.arena = s0.arena ++ t) →
    IdsLt val.typ.ids s.arena.length →
    (s0.arena.length < s.arena.length →
      s.arena.length - 1 ∈ val.typ.ids) →
    (ArenaWF s0.arena → ArenaWF s.arena) → NodeOk val →
    ResOk (fun n : ASTNode => n.typ.ids) NodeOk s0 (parse_isset_loop f val s)
  concat : ∀ s, ResOk (fun n : ASTNode => n.typ.ids) NodeOk s (parse_concat f s)
  concat_loop : ∀ val (s s0 : PState),
    (∃ t, s.arena = s0.arena ++ t) →
    IdsLt val.typ.ids s.arena.length →
    (s0.arena.length < s.arena.length →
      s.arena.length - 1 ∈ val.typ.ids) →
    (ArenaWF s0.arena → ArenaWF s.arena) → NodeOk val →
    ResOk (fun n : ASTNode => n.typ.ids) NodeOk s0 (parse_concat_loop f val s)
  mul : ∀ s, ResOk (fun n : ASTNode => n.typ.ids) NodeOk s (parse_mul f s)
  mul_loop : ∀ val (s s0 : PState),
    (∃ t, s.arena = s0.arena ++ t) →
    IdsLt val.typ.ids s.arena.length →
    (s0.arena.length < s.arena.length →
      s.arena.length - 1 ∈ val.typ.ids) →
    (ArenaWF s0.arena → ArenaWF s.arena) → NodeOk val →
    ResOk (fun n : ASTNode => n.typ.ids) NodeOk s0 (parse_mul_loop f val s)
  add : ∀ s, ResOk (fun n : ASTNode => n.typ.ids) NodeOk s (parse_add f s)
  add_loop : ∀ val (s s0 : PState),
    (∃ t, s.arena = s0.arena ++ t) →
    IdsLt val.typ.ids s.arena.length →
    (s0.arena.length < s.arena.length →
      s.arena.length - 1 ∈ val.typ.ids) →
    (ArenaWF s0.arena → ArenaWF s.arena) → NodeOk val →
    ResOk (fun n : ASTNode => n.typ.ids) NodeOk s0 (parse_add_loop f val s)
  invert : ∀ s, ResOk (fun n : ASTNode => n.typ.ids) NodeOk s (parse_invert f s)
  merge : ∀ s, ResOk (fun n : ASTNode => n.typ.ids) NodeOk s (parse_merge f s)
  merge_loop : ∀ val (s s0 : PState),
    (∃ t, s.arena = s0.arena ++ t) →
    IdsLt val.typ.ids s.arena.length →
    (s0.arena.length < s.arena.length →
      s.arena.length - 1 ∈ val.typ.ids) →
    (ArenaWF s0.arena → ArenaWF s.arena) → NodeOk val →
    ResOk (fun n : ASTNode => n.typ.ids) NodeOk s0 (parse_merge_loop f val s)
  compare : ∀ s, ResOk (fun n : ASTNode => n.typ.ids) NodeOk s (parse_compare f s)
  equal : ∀ s, ResOk (fun n : ASTNode => n.typ.ids) NodeOk s (parse_equal f s)
  and : ∀ s, ResOk (fun n : ASTNode => n.typ.ids) NodeOk s (parse_and f s)
  and_loop : ∀ val (s s0 : PState),
    (∃ t, s.arena = s0.arena ++ t) →
    IdsLt val.typ.ids s.arena.length →
    (s0.arena.length < s.arena.length →
      s.arena.length - 1 ∈ val.typ.ids) →
    (ArenaWF s0.arena → ArenaWF s.arena) → NodeOk val →
    ResOk (fun n : ASTNode => n.typ.ids) NodeOk s0 (parse_and_loop f val s)
  or : ∀ s, ResOk (fun n : ASTNode => n.typ.ids) NodeOk s (parse_or f s)
  or_loop : ∀ val (s s0 : PState),
    (∃ t, s.arena = s0.arena ++ t) →
    IdsLt val.typ.ids s.arena.length →
    (s0.arena.length < s.arena.length →
      s.arena.length - 1 ∈ val.typ.ids) →
    (ArenaWF s0.arena → ArenaWF s.arena) → NodeOk val →
    ResOk (fun n : ASTNode => n.typ.ids) NodeOk s0 (parse_or_loop f val s)
  implication : ∀ s,
    ResOk (fun n : ASTNode => n.typ.ids) NodeOk s (parse_implication f s)
  implication_loop : ∀ val (s s0 : PState),
    (∃ t, s.arena = s0.arena ++ t) →
    IdsLt val.typ.ids s.arena.length →
    (s0.arena.length < s.arena.length →
      s.arena.length - 1 ∈ val.typ.ids) →
    (ArenaWF s0.arena → ArenaWF s.arena) → NodeOk val →
    ResOk (fun n : ASTNode => n.typ.ids) NodeOk s0
      (parse_implication_loop f val s)
  math : ∀ s, ResOk (fun n : ASTNode => n.typ.ids) NodeOk s (parse_math f s)
  expr : ∀ s, ResOk (fun n : ASTNode => n.typ.ids) NodeOk s (parse_expr f s)

/-- All invariants hold trivially at zero fuel. -/
theorem coreOk_zero : CoreOk 0 := by
  constructor <;> intros <;> trivial

theorem ResOk.rebase_eq {α : Type} {v : α → List Nat} {o : α → Prop}
    {s s1 : PState} {r : PResult α}
    (hs : s1.arena = s.arena) (h : ResOk v o s1 r) : ResOk v o s r := by
  cases r with
  | ok a s' =>
      obtain ⟨h1, h2, h3, h4, h5⟩ := h
      rw [hs] at h1 h3 h4
      exact ⟨h1, h2, h3, h4, h5⟩
  | err sp e => exact h
  | fuelOut => trivial

/-- The folding step shared by every looping math level: consume the
operator token, parse the next-tighter level, fold via mk_operation, and
continue the loop. -/
theorem math_arm_ok {nextP : M ASTNode} {loopP : ASTNode → M ASTNode}
    {op : Operator} {val : ASTNode} {s s0 : PState}
    (hext : ∃ t, s.arena = s0.arena ++ t)
    (hids : IdsLt val.typ.ids s.arena.length)
    (hwf : ArenaWF s0.arena → ArenaWF s.arena)
    (hok : NodeOk val)
    (hnext : ∀ s', ResOk (fun n : ASTNode => n.typ.ids) NodeOk s' (nextP s'))
    (hloop : ∀ v2 (s4 : PState),
      (∃ t, s4.arena = s0.arena ++ t) →
      IdsLt v2.typ.ids s4.arena.length →
      (s0.arena.length < s4.arena.length → s4.arena.length - 1 ∈ v2.typ.ids) →
      (ArenaWF s0.arena → ArenaWF s4.arena) → NodeOk v2 →
      ResOk (fun n : ASTNode => n.typ.ids) NodeOk s0 (loopP v2 s4)) :
    ResOk (fun n : ASTNode => n.typ.ids) NodeOk s0
      ((do
        let mt ← next
        let expr ← nextP
        let val2 ← mk_operation val expr mt.1 op
        loopP val2) s) := by
  refine ResOk.step (next_ok s) ?_
  intro mt s2 hxs2 q1 q2 q3 q4 _
  have hs2 : s2.arena = s.arena := no_growth q1 q3
  refine ResOk.step (hnext s2) ?_
  intro expr s3 hxs3 e1 e2 e3 e4 e5
  simp only [run_bind, mk_operation_spec]
  have hlen23 : s2.arena.length ≤ s3.arena.length := ext_len e1
  have hlenS3 : s.arena.length ≤ s3.arena.length := by
    rw [← hs2]; exact hlen23
  refine hloop _ _ ?_ ?_ ?_ ?_ ?_
  · refine ext_trans (ext_trans ?_ e1) ⟨[some val, some expr], rfl⟩
    rw [hs2]; exact hext
  · intro i hi
    simp [ASTType.ids] at hi
    simp
    omega
  · intro _
    simp [ASTType.ids]
  · intro hw
    have w3 : ArenaWF s3.arena := e4 (by rw [hs2]; exact hwf hw)
    have hv3 : IdsLt val.typ.ids s3.arena.length := hids.mono hlenS3
    have w4 := w3.append hv3 hok
    have he3 : IdsLt expr.typ.ids (s3.arena ++ [some val]).length :=
      e2.mono (by simp)
    have w5 := w4.append he3 e5
    rw [List.append_assoc] at w5
    exact w5
  · intro l mo r hop
    cases hop
    rfl

theorem branch_ok_succ {f : Nat} (ih : CoreOk f) (toks : List (Meta × Token))
    (s : PState) :
    ResOk (fun n : ASTNode => n.typ.ids) NodeOk s
      (parse_branch (f + 1) toks s) := by
  simp only [parse_branch_succ]
  cases hx : parse_expr f ⟨toks, s.arena⟩ with
  | fuelOut => trivial
  | err sp e =>
      have h := ih.expr ⟨toks, s.arena⟩
      rw [hx] at h
      exact h
  | ok node s1 =>
      have h := ih.expr ⟨toks, s.arena⟩
      rw [hx] at h
      obtain ⟨h1, h2, h3, h4, h5⟩ := h
      exact ⟨h1, h2, h3, h4, h5⟩

theorem negate_ok_succ {f : Nat} (ih : CoreOk f) (s : PState) :
    ResOk (fun n : ASTNode => n.typ.ids) NodeOk s (parse_negate (f + 1) s) := by
  rw [parse_negate_succ]
  refine ResOk.step (peek_ok s) ?_
  intro pk s1 hxs p1 p2 p3 p4 _
  have hs1 : s1.arena = s.arena := no_growth p1 p3
  by_cases hc : (pk == some Token.sub) = true
  · rw [if_pos hc]
    refine ResOk.step (next_ok s1) ?_
    intro mt s2 hxs2 q1 q2 q3 q4 _
    have hs2 : s2.arena = s1.arena := no_growth q1 q3
    refine ResOk.step (ih.negate s2) ?_
    intro expr s3 hxs3 e1 e2 e3 e4 e5
    simp only [run_bind, run_insert]
    refine ResOk.pure ?_ ?_ ?_ ?_ ?_
    · refine ext_trans (ext_trans ?_ e1) ⟨[some expr], rfl⟩
      exact ⟨[], by rw [hs2, hs1]; simp⟩
    · intro i hi
      simp [ASTType.ids] at hi
      simp [hi]
    · intro _
      simp [ASTType.ids]
    · intro hw
      have w3 : ArenaWF s3.arena := e4 (by rw [hs2, hs1]; exact hw)
      exact w3.append e2 e5
    · intro l mo r hop
      simp [ASTType.unary.injEq] at hop
  · rw [if_neg hc]
    have h := ih.fn s1
    exact ResOk.rebase_eq hs1 h

theorem invert_ok_succ {f : Nat} (ih : CoreOk f) (s : PState) :
    ResOk (fun n : ASTNode => n.typ.ids) NodeOk s (parse_invert (f + 1) s) := by
  rw [parse_invert_succ]
  refine ResOk.step (peek_ok s) ?_
  intro pk s1 hxs p1 p2 p3 p4 _
  have hs1 : s1.arena = s.arena := no_growth p1 p3
  by_cases hc : (pk == some Token.invert) = true
  · rw [if_pos hc]
    refine ResOk.step (next_ok s1) ?_
    intro mt s2 hxs2 q1 q2 q3 q4 _
    have hs2 : s2.arena = s1.arena := no_growth q1 q3
    refine ResOk.step (ih.invert s2) ?_
    intro expr s3 hxs3 e1 e2 e3 e4 e5
    simp only [run_bind, run_insert]
    refine ResOk.pure ?_ ?_ ?_ ?_ ?_
    · refine ext_trans (ext_trans ?_ e1) ⟨[some expr], rfl⟩
      exact ⟨[], by rw [hs2, hs1]; simp⟩
    · intro i hi
      simp [ASTType.ids] at hi
      simp [hi]
    · intro _
      simp [ASTType.ids]
    · intro hw
      have w3 : ArenaWF s3.arena := e4 (by rw [hs2, hs1]; exact hw)
      exact w3.append e2 e5
    · intro l mo r hop
      simp [ASTType.unary.injEq] at hop
  · rw [if_neg hc]
    have h := ih.add s1
    exact ResOk.rebase_eq hs1 h

theorem isset_loop_ok_succ {f : Nat} (ih : CoreOk f) :
    ∀ val (s s0 : PState),
    (∃ t, s.arena = s0.arena ++ t) →
    IdsLt val.typ.ids s.arena.length →
    (s0.arena.length < s.arena.length → s.arena.length - 1 ∈ val.typ.ids) →
    (ArenaWF s0.arena → ArenaWF s.arena) → NodeOk val →
    ResOk (fun n : ASTNode => n.typ.ids) NodeOk s0
      (parse_isset_loop (f + 1) val s) := by
  intro val s s0 hext hids hlast hwf hok
  rw [parse_isset_loop_succ]
  refine ResOk.step (peek_ok s) ?_
  intro pk s1 hxs p1 p2 p3 p4 _
  have hs1 : s1.arena = s.arena := no_growth p1 p3
  have hpure : ResOk (fun n : ASTNode => n.typ.ids) NodeOk s0
      ((pure val : M ASTNode) s1) :=
    ResOk.pure (by rwa [hs1]) (by rwa [hs1]) (by rw [hs1]; exact hlast)
      (by rw [hs1]; exact hwf) hok
  have harm : ∀ op : Operator, ResOk (fun n : ASTNode => n.typ.ids) NodeOk s0
      ((do
        let mt ← next
        let expr ← parse_negate f
        let val2 ← mk_operation val expr mt.1 op
        parse_isset_loop f val2) s1) := fun op =>
    math_arm_ok (by rwa [hs1]) (by rwa [hs1]) (by rw [hs1]; exact hwf) hok
      (ih.negate) (fun v2 s4 a b c d e => ih.isset_loop v2 s4 s0 a b c d e)
  rcases pk with _ | tk
  · exact hpure
  · cases tk <;> first
      | exact hpure
      | exact harm Operator.isSet

theorem isset_ok_succ {f : Nat} (ih : CoreOk f) (s : PState) :
    ResOk (fun n : ASTNode => n.typ.ids) NodeOk s (parse_isset (f + 1) s) := by
  rw [parse_isset_succ]
  exact ResOk.step (ih.negate s)
    (fun a s1 hxs h1 h2 h3 h4 h5 => ih.isset_loop a s1 s h1 h2 h3 h4 h5)

/-- The fold-once step of the two non-associative levels. -/
theorem math_once_arm_ok {nextP : M ASTNode} {op : Operator} {val : ASTNode}
    {s s0 : PState}
    (hext : ∃ t, s.arena = s0.arena ++ t)
    (hids : IdsLt val.typ.ids s.arena.length)
    (hwf : ArenaWF s0.arena → ArenaWF s.arena)
    (hok : NodeOk val)
    (hnext : ∀ s', ResOk (fun n : ASTNode => n.typ.ids) NodeOk s' (nextP s')) :
    ResOk (fun n : ASTNode => n.typ.ids) NodeOk s0
      ((do
        let mt ← next
        let expr ← nextP
        mk_operation val expr mt.1 op) s) := by
  refine ResOk.step (next_ok s) ?_
  intro mt s2 hxs2 q1 q2 q3 q4 _
  have hs2 : s2.arena = s.arena := no_growth q1 q3
  refine ResOk.step (hnext s2) ?_
  intro expr s3 hxs3 e1 e2 e3 e4 e5
  rw [mk_operation_spec]
  have hlenS3 : s.arena.length ≤ s3.arena.length := by
    rw [← hs2]; exact ext_len e1
  refine ⟨?_, ?_, ?_, ?_, ?_⟩
  · refine ext_trans (ext_trans ?_ e1) ⟨[some val, some expr], rfl⟩
    exact ⟨hext.choose, by rw [hs2]; exact hext.choose_spec⟩
  · intro i hi
    simp [ASTType.ids] at hi
    simp
    omega
  · intro _
    simp [ASTType.ids]
  · intro hw
    have w3 : ArenaWF s3.arena := e4 (by rw [hs2]; exact hwf hw)
    have hv3 : IdsLt val.typ.ids s3.arena.length := hids.mono hlenS3
    have w4 := w3.append hv3 hok
    have he3 : IdsLt expr.typ.ids (s3.arena ++ [some val]).length :=
      e2.mono (by simp)
    have w5 := w4.append he3 e5
    rw [List.append_assoc] at w5
    exact w5
  · intro l mo r hop
    cases hop
    rfl

theorem concat_loop_ok_succ {f : Nat} (ih : CoreOk f) :
    ∀ val (s s0 : PState),
    (∃ t, s.arena = s0.arena ++ t) →
    IdsLt val.typ.ids s.arena.length →
    (s0.arena.length < s.arena.length → s.arena.length - 1 ∈ val.typ.ids) →
    (ArenaWF s0.arena → ArenaWF s.arena) → NodeOk val →
    ResOk (fun n : ASTNode => n.typ.ids) NodeOk s0
      (parse_concat_loop (f + 1) val s) := by
  intro val s s0 hext hids hlast hwf hok
  rw [parse_concat_loop_succ]
  refine ResOk.step (peek_ok s) ?_
  intro pk s1 hxs p1 p2 p3 p4 _
  have hs1 : s1.arena = s.arena := no_growth p1 p3
  have hpure : ResOk (fun n : ASTNode => n.typ.ids) NodeOk s0
      ((pure val : M ASTNode) s1) :=
    ResOk.pure (by rwa [hs1]) (by rwa [hs1]) (by rw [hs1]; exact hlast)
      (by rw [hs1]; exact hwf) hok
  have harm : ∀ op : Operator, ResOk (fun n : ASTNode => n.typ.ids) NodeOk s0
      ((do
        let mt ← next
        let expr ← parse_isset f
        let val2 ← mk_operation val expr mt.1 op
        parse_concat_loop f val2) s1) := fun op =>
    math_arm_ok (by rwa [hs1]) (by rwa [hs1]) (by rw [hs1]; exact hwf) hok
      (ih.isset) (fun v2 s4 a b c d e => ih.concat_loop v2 s4 s0 a b c d e)
  rcases pk with _ | tk
  · exact hpure
  · cases tk <;> first
      | exact hpure
      | exact harm Operator.concat

theorem concat_ok_succ {f : Nat} (ih : CoreOk f) (s : PState) :
    ResOk (fun n : ASTNode => n.typ.ids) NodeOk s (parse_concat (f + 1) s) := by
  rw [parse_concat_succ]
  exact ResOk.step (ih.isset s)
    (fun a s1 hxs h1 h2 h3 h4 h5 => ih.concat_loop a s1 s h1 h2 h3 h4 h5)

theorem mul_loop_ok_succ {f : Nat} (ih : CoreOk f) :
    ∀ val (s s0 : PState),
    (∃ t, s.arena = s0.arena ++ t) →
    IdsLt val.typ.ids s.arena.length →
    (s0.arena.length < s.arena.length → s.arena.length - 1 ∈ val.typ.ids) →
    (ArenaWF s0.arena → ArenaWF s.arena) → NodeOk val →
    ResOk (fun n : ASTNode => n.typ.ids) NodeOk s0
      (parse_mul_loop (f + 1) val s) := by
  intro val s s0 hext hids hlast hwf hok
  rw [parse_mul_loop_succ]
  refine ResOk.step (peek_ok s) ?_
  intro pk s1 hxs p1 p2 p3 p4 _
  have hs1 : s1.arena = s.arena := no_growth p1 p3
  have hpure : ResOk (fun n : ASTNode => n.typ.ids) NodeOk s0
      ((pure val : M ASTNode) s1) :=
    ResOk.pure (by rwa [hs1]) (by rwa [hs1]) (by rw [hs1]; exact hlast)
      (by rw [hs1]; exact hwf) hok
  have harm : ∀ op : Operator, ResOk (fun n : ASTNode => n.typ.ids) NodeOk s0
      ((do
        let mt ← next
        let expr ← parse_concat f
        let val2 ← mk_operation val expr mt.1 op
        parse_mul_loop f val2) s1) := fun op =>
    math_arm_ok (by rwa [hs1]) (by rwa [hs1]) (by rw [hs1]; exact hwf) hok
      (ih.concat) (fun v2 s4 a b c d e => ih.mul_loop v2 s4 s0 a b c d e)
  rcases pk with _ | tk
  · exact hpure
  · cases tk <;> first
      | exact hpure
      | exact harm Operator.mul
      | exact harm Operator.div

theorem mul_ok_succ {f : Nat} (ih : CoreOk f) (s : PState) :
    ResOk (fun n : ASTNode => n.typ.ids) NodeOk s (parse_mul (f + 1) s) := by
  rw [parse_mul_succ]
  exact ResOk.step (ih.concat s)
    (fun a s1 hxs h1 h2 h3 h4 h5 => ih.mul_loop a s1 s h1 h2 h3 h4 h5)

theorem add_loop_ok_succ {f : Nat} (ih : CoreOk f) :
    ∀ val (s s0 : PState),
    (∃ t, s.arena = s0.arena ++ t) →
    IdsLt val.typ.ids s.arena.length →
    (s0.arena.length < s.arena.length → s.arena.length - 1 ∈ val.typ.ids) →
    (ArenaWF s0.arena → ArenaWF s.arena) → NodeOk val →
    ResOk (fun n : ASTNode => n.typ.ids) NodeOk s0
      (parse_add_loop (f + 1) val s) := by
  intro val s s0 hext hids hlast hwf hok
  rw [parse_add_loop_succ]
  refine ResOk.step (peek_ok s) ?_
  intro pk s1 hxs p1 p2 p3 p4 _
  have hs1 : s1.arena = s.arena := no_growth p1 p3
  have hpure : ResOk (fun n : ASTNode => n.typ.ids) NodeOk s0
      ((pure val : M ASTNode) s1) :=
    ResOk.pure (by rwa [hs1]) (by rwa [hs1]) (by rw [hs1]; exact hlast)
      (by rw [hs1]; exact hwf) hok
  have harm : ∀ op : Operator, ResOk (fun n : ASTNode => n.typ.ids) NodeOk s0
      ((do
        let mt ← next
        let expr ← parse_mul f
        let val2 ← mk_operation val expr mt.1 op
        parse_add_loop f val2) s1) := fun op =>
    math_arm_ok (by rwa [hs1]) (by rwa [hs1]) (by rw [hs1]; exact hwf) hok
      (ih.mul) (fun v2 s4 a b c d e => ih.add_loop v2 s4 s0 a b c d e)
  rcases pk with _ | tk
  · exact hpure
  · cases tk <;> first
      | exact hpure
      | exact harm Operator.add
      | exact harm Operator.sub

theorem add_ok_succ {f : Nat} (ih : CoreOk f) (s : PState) :
    ResOk (fun n : ASTNode => n.typ.ids) NodeOk s (parse_add (f + 1) s) := by
  rw [parse_add_succ]
  exact ResOk.step (ih.mul s)
    (fun a s1 hxs h1 h2 h3 h4 h5 => ih.add_loop a s1 s h1 h2 h3 h4 h5)

theorem merge_loop_ok_succ {f : Nat} (ih : CoreOk f) :
    ∀ val (s s0 : PState),
    (∃ t, s.arena = s0.arena ++ t) →
    IdsLt val.typ.ids s.arena.length →
    (s0.arena.length < s.arena.length → s.arena.length - 1 ∈ val.typ.ids) →
    (ArenaWF s0.arena → ArenaWF s.arena) → NodeOk val →
    ResOk (fun n : ASTNode => n.typ.ids) NodeOk s0
      (parse_merge_loop (f + 1) val s) := by
  intro val s s0 hext hids hlast hwf hok
  rw [parse_merge_loop_succ]
  refine ResOk.step (peek_ok s) ?_
  intro pk s1 hxs p1 p2 p3 p4 _
  have hs1 : s1.arena = s.arena := no_growth p1 p3
  have hpure : ResOk (fun n : ASTNode => n.typ.ids) NodeOk s0
      ((pure val : M ASTNode) s1) :=
    ResOk.pure (by rwa [hs1]) (by rwa [hs1]) (by rw [hs1]; exact hlast)
      (by rw [hs1]; exact hwf) hok
  have harm : ∀ op : Operator, ResOk (fun n : ASTNode => n.typ.ids) NodeOk s0
      ((do
        let mt ← next
        let expr ← parse_invert f
        let val2 ← mk_operation val expr mt.1 op
        parse_merge_loop f val2) s1) := fun op =>
    math_arm_ok (by rwa [hs1]) (by rwa [hs1]) (by rw [hs1]; exact hwf) hok
      (ih.invert) (fun v2 s4 a b c d e => ih.merge_loop v2 s4 s0 a b c d e)
  rcases pk with _ | tk
  · exact hpure
  · cases tk <;> first
      | exact hpure
      | exact harm Operator.merge

theorem merge_ok_succ {f : Nat} (ih : CoreOk f) (s : PState) :
    ResOk (fun n : ASTNode => n.typ.ids) NodeOk s (parse_merge (f + 1) s) := by
  rw [parse_merge_succ]
  exact ResOk.step (ih.invert s)
    (fun a s1 hxs h1 h2 h3 h4 h5 => ih.merge_loop a s1 s h1 h2 h3 h4 h5)

theorem and_loop_ok_succ {f : Nat} (ih : CoreOk f) :
    ∀ val (s s0 : PState),
    (∃ t, s.arena = s0.arena ++ t) →
    IdsLt val.typ.ids s.arena.length →
    (s0.arena.length < s.arena.length → s.arena.length - 1 ∈ val.typ.ids) →
    (ArenaWF s0.arena → ArenaWF s.arena) → NodeOk val →
    ResOk (fun n : ASTNode => n.typ.ids) NodeOk s0
      (parse_and_loop (f + 1) val s) := by
  intro val s s0 hext hids hlast hwf hok
  rw [parse_and_loop_succ]
  refine ResOk.step (peek_ok s) ?_
  intro pk s1 hxs p1 p2 p3 p4 _
  have hs1 : s1.arena = s.arena := no_growth p1 p3
  have hpure : ResOk (fun n : ASTNode => n.typ.ids) NodeOk s0
      ((pure val : M ASTNode) s1) :=
    ResOk.pure (by rwa [hs1]) (by rwa [hs1]) (by rw [hs1]; exact hlast)
      (by rw [hs1]; exact hwf) hok
  have harm : ∀ op : Operator, ResOk (fun n : ASTNode => n.typ.ids) NodeOk s0
      ((do
        let mt ← next
        let expr ← parse_equal f
        let val2 ← mk_operation val expr mt.1 op
        parse_and_loop f val2) s1) := fun op =>
    math_arm_ok (by rwa [hs1]) (by rwa [hs1]) (by rw [hs1]; exact hwf) hok
      (ih.equal) (fun v2 s4 a b c d e => ih.and_loop v2 s4 s0 a b c d e)
  rcases pk with _ | tk
  · exact hpure
  · cases tk <;> first
      | exact hpure
      | exact harm Operator.and

theorem and_ok_succ {f : Nat} (ih : CoreOk f) (s : PState) :
    ResOk (fun n : ASTNode => n.typ.ids) NodeOk s (parse_and (f + 1) s) := by
  rw [parse_and_succ]
  exact ResOk.step (ih.equal s)
    (fun a s1 hxs h1 h2 h3 h4 h5 => ih.and_loop a s1 s h1 h2 h3 h4 h5)

theorem or_loop_ok_succ {f : Nat} (ih : CoreOk f) :
    ∀ val (s s0 : PState),
    (∃ t, s.arena = s0.arena ++ t) →
    IdsLt val.typ.ids s.arena.length →
    (s0.arena.length < s.arena.length → s.arena.length - 1 ∈ val.typ.ids) →
    (ArenaWF s0.arena → ArenaWF s.arena) → NodeOk val →
    ResOk (fun n : ASTNode => n.typ.ids) NodeOk s0
      (parse_or_loop (f + 1) val s) := by
  intro val s s0 hext hids hlast hwf hok
  rw [parse_or_loop_succ]
  refine ResOk.step (peek_ok s) ?_
  intro pk s1 hxs p1 p2 p3 p4 _
  have hs1 : s1.arena = s.arena := no_growth p1 p3
  have hpure : ResOk (fun n : ASTNode => n.typ.ids) NodeOk s0
      ((pure val : M ASTNode) s1) :=
    ResOk.pure (by rwa [hs1]) (by rwa [hs1]) (by rw [hs1]; exact hlast)
      (by rw [hs1]; exact hwf) hok
  have harm : ∀ op : Operator, ResOk (fun n : ASTNode => n.typ.ids) NodeOk s0
      ((do
        let mt ← next
        let expr ← parse_and f
        let val2 ← mk_operation val expr mt.1 op
        parse_or_loop f val2) s1) := fun op =>
    math_arm_ok (by rwa [hs1]) (by rwa [hs1]) (by rw [hs1]; exact hwf) hok
      (ih.and) (fun v2 s4 a b c d e => ih.or_loop v2 s4 s0 a b c d e)
  rcases pk with _ | tk
  · exact hpure
  · cases tk <;> first
      | exact hpure
      | exact harm Operator.or

theorem or_ok_succ {f : Nat} (ih : CoreOk f) (s : PState) :
    ResOk (fun n : ASTNode => n.typ.ids) NodeOk s (parse_or (f + 1) s) := by
  rw [parse_or_succ]
  exact ResOk.step (ih.and s)
    (fun a s1 hxs h1 h2 h3 h4 h5 => ih.or_loop a s1 s h1 h2 h3 h4 h5)

theorem implication_loop_ok_succ {f : Nat} (ih : CoreOk f) :
    ∀ val (s s0 : PState),
    (∃ t, s.arena = s0.arena ++ t) →
    IdsLt val.typ.ids s.arena.length →
    (s0.arena.length < s.arena.length → s.arena.length - 1 ∈ val.typ.ids) →
    (ArenaWF s0.arena → ArenaWF s.arena) → NodeOk val →
    ResOk (fun n : ASTNode => n.typ.ids) NodeOk s0
      (parse_implication_loop (f + 1) val s) := by
  intro val s s0 hext hids hlast hwf hok
  rw [parse_implication_loop_succ]
  refine ResOk.step (peek_ok s) ?_
  intro pk s1 hxs p1 p2 p3 p4 _
  have hs1 : s1.arena = s.arena := no_growth p1 p3
  have hpure : ResOk (fun n : ASTNode => n.typ.ids) NodeOk s0
      ((pure val : M ASTNode) s1) :=
    ResOk.pure (by rwa [hs1]) (by rwa [hs1]) (by rw [hs1]; exact hlast)
      (by rw [hs1]; exact hwf) hok
  have harm : ∀ op : Operator, ResOk (fun n : ASTNode => n.typ.ids) NodeOk s0
      ((do
        let mt ← next
        let expr ← parse_or f
        let val2 ← mk_operation val expr mt.1 op
        parse_implication_loop f val2) s1) := fun op =>
    math_arm_ok (by rwa [hs1]) (by rwa [hs1]) (by rw [hs1]; exact hwf) hok
      (ih.or) (fun v2 s4 a b c d e => ih.implication_loop v2 s4 s0 a b c d e)
  rcases pk with _ | tk
  · exact hpure
  · cases tk <;> first
      | exact hpure
      | exact harm Operator.implication

theorem implication_ok_succ {f : Nat} (ih : CoreOk f) (s : PState) :
    ResOk (fun n : ASTNode => n.typ.ids) NodeOk s
      (parse_implication (f + 1) s) := by
  rw [parse_implication_succ]
  exact ResOk.step (ih.or s)
    (fun a s1 hxs h1 h2 h3 h4 h5 => ih.implication_loop a s1 s h1 h2 h3 h4 h5)

theorem compare_ok_succ {f : Nat} (ih : CoreOk f) (s : PState) :
    ResOk (fun n : ASTNode => n.typ.ids) NodeOk s (parse_compare (f + 1) s) := by
  rw [parse_compare_succ]
  refine ResOk.step (ih.merge s) ?_
  intro val s1 hxs h1 h2 h3 h4 h5
  refine ResOk.step (peek_ok s1) ?_
  intro pk s2 hxs2 p1 p2 p3 p4 _
  have hs2 : s2.arena = s1.arena := no_growth p1 p3
  have hpure : ResOk (fun n : ASTNode => n.typ.ids) NodeOk s
      ((pure val : M ASTNode) s2) :=
    ResOk.pure (by rw [hs2]; exact h1) (by rwa [hs2]) (by rw [hs2]; exact h3)
      (by rw [hs2]; exact h4) h5
  have harm : ∀ op : Operator, ResOk (fun n : ASTNode => n.typ.ids) NodeOk s
      ((do
        let mt ← next
        let expr ← parse_merge f
        mk_operation val expr mt.1 op) s2) := fun op =>
    math_once_arm_ok (by rw [hs2]; exact h1) (by rwa [hs2])
      (by rw [hs2]; exact h4) h5 (ih.merge)
  rcases pk with _ | tk
  · exact hpure
  · cases tk <;> first
      | exact hpure
      | exact harm Operator.less
      | exact harm Operator.lessOrEq
      | exact harm Operator.more
      | exact harm Operator.moreOrEq

theorem equal_ok_succ {f : Nat} (ih : CoreOk f) (s : PState) :
    ResOk (fun n : ASTNode => n.typ.ids) NodeOk s (parse_equal (f + 1) s) := by
  rw [parse_equal_succ]
  refine ResOk.step (ih.compare s) ?_
  intro val s1 hxs h1 h2 h3 h4 h5
  refine ResOk.step (peek_ok s1) ?_
  intro pk s2 hxs2 p1 p2 p3 p4 _
  have hs2 : s2.arena = s1.arena := no_growth p1 p3
  have hpure : ResOk (fun n : ASTNode => n.typ.ids) NodeOk s
      ((pure val : M ASTNode) s2) :=
    ResOk.pure (by rw [hs2]; exact h1) (by rwa [hs2]) (by rw [hs2]; exact h3)
      (by rw [hs2]; exact h4) h5
  have harm : ∀ op : Operator, ResOk (fun n : ASTNode => n.typ.ids) NodeOk s
      ((do
        let mt ← next
        let expr ← parse_compare f
        mk_operation val expr mt.1 op) s2) := fun op =>
    math_once_arm_ok (by rw [hs2]; exact h1) (by rwa [hs2])
      (by rw [hs2]; exact h4) h5 (ih.compare)
  rcases pk with _ | tk
  · exact hpure
  · cases tk <;> first
      | exact hpure
      | exact harm Operator.equal
      | exact harm Operator.notEqual

theorem math_ok_succ {f : Nat} (ih : CoreOk f) (s : PState) :
    ResOk (fun n : ASTNode => n.typ.ids) NodeOk s (parse_math (f + 1) s) := by
  rw [parse_math_succ]
  exact ih.implication s

theorem fn_loop_ok_succ {f : Nat} (ih : CoreOk f) :
    ∀ val (s s0 : PState),
    (∃ t, s.arena = s0.arena ++ t) →
    IdsLt val.typ.ids s.arena.length →
    (s0.arena.length < s.arena.length → s.arena.length - 1 ∈ val.typ.ids) →
    (ArenaWF s0.arena → ArenaWF s.arena) → NodeOk val →
    ResOk (fun n : ASTNode => n.typ.ids) NodeOk s0
      (parse_fn_loop (f + 1) val s) := by
  intro val s s0 hext hids hlast hwf hok
  rw [parse_fn_loop_succ]
  refine ResOk.step (peek_ok s) ?_
  intro pk s1 hxs p1 p2 p3 p4 _
  have hs1 : s1.arena = s.arena := no_growth p1 p3
  by_cases hc : ((pk.map Token.is_fn_arg).getD false) = true
  · rw [if_pos hc]
    refine ResOk.step (ih.val s1) ?_
    intro arg s3 hxs3 e1 e2 e3 e4 e5
    simp only [run_bind, run_insert]
    have hlenS3 : s.arena.length ≤ s3.arena.length := by
      rw [← hs1]; exact ext_len e1
    refine ih.fn_loop _ _ s0 ?_ ?_ ?_ ?_ ?_
    · refine ext_trans (ext_trans ?_ e1) ⟨[some val] ++ [some arg], by simp⟩
      exact ⟨hext.choose, by rw [hs1]; exact hext.choose_spec⟩
    · intro i hi
      simp [ASTType.ids] at hi
      simp
      omega
    · intro _
      simp [ASTType.ids]
    · intro hw
      have w3 : ArenaWF s3.arena := e4 (by rw [hs1]; exact hwf hw)
      have hv3 : IdsLt val.typ.ids s3.arena.length := hids.mono hlenS3
      have w4 := w3.append hv3 hok
      have he3 : IdsLt arg.typ.ids (s3.arena ++ [some val]).length :=
        e2.mono (by simp)
      exact w4.append he3 e5
    · intro l mo r hop
      cases hop
  · rw [if_neg hc]
    exact ResOk.pure (by rwa [hs1]) (by rwa [hs1]) (by rw [hs1]; exact hlast)
      (by rw [hs1]; exact hwf) hok

theorem fn_ok_succ {f : Nat} (ih : CoreOk f) (s : PState) :
    ResOk (fun n : ASTNode => n.typ.ids) NodeOk s (parse_fn (f + 1) s) := by
  rw [parse_fn_succ]
  exact ResOk.step (ih.val s)
    (fun a s1 hxs h1 h2 h3 h4 h5 => ih.fn_loop a s1 s h1 h2 h3 h4 h5)

/-- The three facts every insert step yields: the fresh id is live, the
arena strictly grew, and the fresh id is the last slot. -/
theorem insert_facts {nid : Nat} {s s' : PState}
    (i2 : IdsLt [nid] s'.arena.length)
    (i3 : s.arena.length < s'.arena.length → s'.arena.length - 1 ∈ [nid])
    (i5 : nid = s.arena.length) :
    nid < s'.arena.length ∧ s.arena.length < s'.arena.length ∧
      s'.arena.length - 1 = nid := by
  have h1 : nid < s'.arena.length := i2 nid (by simp)
  have h2 : s.arena.length < s'.arena.length := lt_of_eq_of_lt i5.symm h1
  have h3 := i3 h2
  simp at h3
  exact ⟨h1, h2, h3⟩

theorem interpol_parts_ok_succ {f : Nat} (ih : CoreOk f)
    (values : List TokenInterpol) (s : PState) :
    ResOk (fun ps : List Interpol => ps.flatMap Interpol.ids) (fun _ => True) s
      (parse_interpol_parts (f + 1) values s) := by
  rw [parse_interpol_parts_succ]
  cases values with
  | nil => exact ResOk.ok_eqArena rfl idsLt_nil trivial
  | cons v rest =>
      cases v with
      | literal text =>
          refine ResOk.step (ih.interpol_parts rest s) ?_
          intro tail s1 _ h1 h2 h3 h4 _
          refine ResOk.pure h1 ?_ ?_ h4 trivial
          · intro i hi
            exact h2 i (by simpa [Interpol.ids] using hi)
          · intro hg
            have := h3 hg
            simpa [Interpol.ids] using this
      | tokens toks close =>
          refine ResOk.step (ih.branch toks s) ?_
          intro parsed s1 _ b1 b2 b3 b4 b5
          refine ResOk.step (insert_ok b2 b5) ?_
          intro id s2 _ i1 i2 i3 i4 i5
          refine ResOk.step (ih.interpol_parts rest s2) ?_
          intro tail s3 _ t1 t2 t3 t4 _
          have hid : id < s2.arena.length := i2 id (by simp)
          have hlen23 : s2.arena.length ≤ s3.arena.length := ext_len t1
          refine ResOk.pure ?_ ?_ ?_ ?_ trivial
          · exact ext_trans (ext_trans b1 i1) t1
          · intro i hi
            simp [Interpol.ids] at hi
            rcases hi with rfl | hi
            · exact lt_of_lt_of_le hid hlen23
            · exact t2 i (by simpa using hi)
          · intro _
            by_cases hg : s2.arena.length < s3.arena.length
            · have ht := t3 hg
              simp [Interpol.ids]
              right
              simpa using ht
            · obtain ⟨hidlt, hgrow2, hlast2⟩ := insert_facts i2 i3 i5
              have heq : s3.arena.length = s2.arena.length :=
                le_antisymm (not_lt.mp hg) hlen23
              simp [Interpol.ids]
              left
              rw [heq, hlast2]
          · intro hw
            exact t4 (i4 (b4 hw))

theorem interpol_ok_succ {f : Nat} (ih : CoreOk f) (meta : Meta) (ml : Bool)
    (values : List TokenInterpol) (s : PState) :
    ResOk ASTType.ids ASTTypeOk s (parse_interpol (f + 1) meta ml values s) := by
  rw [parse_interpol_succ]
  refine ResOk.step (ih.interpol_parts values s) ?_
  intro parts s1 _ h1 h2 h3 h4 _
  refine ResOk.pure h1 ?_ ?_ h4 ?_
  · intro i hi
    exact h2 i (by simpa [ASTType.ids] using hi)
  · intro hg
    have := h3 hg
    simpa [ASTType.ids] using this
  · intro l mo r h
    cases h

theorem attr_next_ok_succ {f : Nat} (ih : CoreOk f) (s : PState) :
    ResOk (fun n : ASTNode => n.typ.ids) NodeOk s (next_attr (f + 1) s) := by
  rw [next_attr_succ]
  refine ResOk.step (next_ok s) ?_
  intro mt s1 _ n1 n2 n3 n4 _
  have hs1 : s1.arena = s.arena := no_growth n1 n3
  obtain ⟨meta, tok⟩ := mt
  cases tok <;> try (exact ResOk.throw rfl)
  · exact ResOk.ok_eqArena hs1 idsLt_nil (by intro l mo r h; cases h)
  · exact ResOk.ok_eqArena hs1 idsLt_nil (by intro l mo r h; cases h)
  · rename_i multiline parts hx1
    have hlen1 : s1.arena.length = s.arena.length := by rw [hs1]
    refine ResOk.step (ih.interpol meta multiline parts s1) ?_
    intro t s2 _ h1 h2 h3 h4 h5
    refine ResOk.pure ?_ h2 ?_ ?_ h5
    · exact ext_trans ⟨[], by rw [hs1]; simp⟩ h1
    · intro hg
      exact h3 (by omega)
    · intro hw
      exact h4 (by rw [hs1]; exact hw)
  · rename_i values close hx1
    refine ResOk.step (ih.branch values s1) ?_
    intro parsed s2 _ b1 b2 b3 b4 b5
    refine ResOk.step (insert_ok b2 b5) ?_
    intro nid s3 _ i1 i2 i3 i4 i5
    obtain ⟨hidlt, hgrow2, hlast2⟩ := insert_facts i2 i3 i5
    refine ResOk.pure ?_ ?_ ?_ ?_ ?_
    · exact ext_trans ⟨[], by rw [hs1]; simp⟩ (ext_trans b1 i1)
    · intro i hi
      simp [ASTType.ids] at hi
      subst hi
      exact hidlt
    · intro _
      simpa [ASTType.ids] using hlast2
    · intro hw
      exact i4 (b4 (by rw [hs1]; exact hw))
    · intro l mo r h
      cases h

theorem attr_loop_ok_succ {f : Nat} (ih : CoreOk f) :
    ∀ path (s s0 : PState),
    (∃ t, s.arena = s0.arena ++ t) →
    IdsLt (path.map Prod.fst) s.arena.length →
    (s0.arena.length < s.arena.length →
      s.arena.length - 1 ∈ path.map Prod.fst) →
    (ArenaWF s0.arena → ArenaWF s.arena) →
    ResOk (fun a : Attribute => a.path.map Prod.fst) (fun _ => True) s0
      (parse_attr_loop (f + 1) path s) := by
  intro path s s0 hext hids hlast hwf
  rw [parse_attr_loop_succ]
  refine ResOk.step (ih.attr_next s) ?_
  intro attr s1 _ a1 a2 a3 a4 a5
  refine ResOk.step (insert_ok a2 a5) ?_
  intro attrId s2 _ i1 i2 i3 i4 i5
  refine ResOk.step (peek_ok s2) ?_
  intro pk s3 _ p1 p2 p3 p4 _
  have hs3 : s3.arena = s2.arena := no_growth p1 p3
  have hlen01 : s.arena.length ≤ s1.arena.length := ext_len a1
  obtain ⟨hid2, hgrow12, hlast2⟩ := insert_facts i2 i3 i5
  have hext3 : ∃ t, s3.arena = s0.arena ++ t :=
    ext_trans hext (ext_trans (ext_trans a1 i1) ⟨[], by rw [hs3]; simp⟩)
  have hids3 : ∀ X : Option Meta,
      IdsLt ((path ++ [(attrId, X)]).map Prod.fst) s3.arena.length := by
    intro X i hi
    rw [List.map_append] at hi
    rcases List.mem_append.mp hi with hi | hi
    · have h1 := hids i hi
      have h2 := ext_len i1
      rw [hs3]
      omega
    · simp at hi
      subst hi
      rw [hs3]
      exact hid2
  have hlast3 : ∀ X : Option Meta,
      s3.arena.length - 1 ∈ (path ++ [(attrId, X)]).map Prod.fst := by
    intro X
    rw [List.map_append]
    refine List.mem_append.mpr (Or.inr ?_)
    simp [hs3, hlast2]
  have hwf3 : ArenaWF s0.arena → ArenaWF s3.arena := by
    intro hw
    rw [hs3]
    exact i4 (a4 (hwf hw))
  by_cases hc : (pk == some Token.dot) = true
  · rw [if_pos hc]
    refine ResOk.step (next_ok s3) ?_
    intro d s4 _ m1 m2 m3 m4 _
    have hs4 : s4.arena = s3.arena := no_growth m1 m3
    refine ih.attr_loop (path ++ [(attrId, some d.1)]) s4 s0 ?_ ?_ ?_ ?_
    · exact ext_trans hext3 ⟨[], by rw [hs4]; simp⟩
    · intro i hi
      rw [hs4]
      exact hids3 _ i hi
    · intro _
      rw [hs4]
      exact hlast3 _
    · intro hw
      rw [hs4]
      exact hwf3 hw
  · rw [if_neg hc]
    exact ResOk.pure hext3 (hids3 none) (fun _ => hlast3 none) hwf3 trivial

theorem attr_ok_succ {f : Nat} (ih : CoreOk f) (s : PState) :
    ResOk (fun a : Attribute => a.path.map Prod.fst) (fun _ => True) s
      (parse_attr (f + 1) s) := by
  rw [parse_attr_succ]
  exact ih.attr_loop [] s s ⟨[], by simp⟩ idsLt_nil
    (fun h => absurd h (lt_irrefl _)) id

theorem inherit_vars_ok_succ {f : Nat} (ih : CoreOk f)
    (vars : List (Meta × String)) (s : PState) :
    ResOk (fun _ => ([] : List Nat)) (fun _ => True) s
      (collect_inherit_vars (f + 1) vars s) := by
  rw [collect_inherit_vars_succ]
  refine ResOk.step (peek_ok s) ?_
  intro pk s1 _ p1 p2 p3 p4 _
  have hs1 : s1.arena = s.arena := no_growth p1 p3
  have hpure : ResOk (fun _ => ([] : List Nat)) (fun _ => True) s
      ((pure vars : M (List (Meta × String))) s1) :=
    ResOk.ok_eqArena hs1 idsLt_nil trivial
  have hident : ResOk (fun _ => ([] : List Nat)) (fun _ => True) s
      ((do
        let v ← next_ident
        collect_inherit_vars f (vars ++ [v])) s1) := by
    refine ResOk.step (next_ident_ok s1) ?_
    intro v s2 _ q1 q2 q3 q4 _
    have hs2 : s2.arena = s1.arena := no_growth q1 q3
    exact ResOk.rebase_eq (by rw [hs2, hs1])
      (ih.inherit_vars (vars ++ [v]) s2)
  rcases pk with _ | tk
  · exact hpure
  · cases tk <;> first | exact hpure | exact hident

theorem list_items_ok_succ {f : Nat} (ih : CoreOk f) :
    ∀ values (s s0 : PState),
    (∃ t, s.arena = s0.arena ++ t) →
    IdsLt values s.arena.length →
    (s0.arena.length < s.arena.length → s.arena.length - 1 ∈ values) →
    (ArenaWF s0.arena → ArenaWF s.arena) →
    ResOk (fun l : List NodeId => l) (fun _ => True) s0
      (parse_list_items (f + 1) values s) := by
  intro values s s0 hext hids hlast hwf
  rw [parse_list_items_succ]
  refine ResOk.step (peek_ok s) ?_
  intro pk s1 _ p1 p2 p3 p4 _
  have hs1 : s1.arena = s.arena := no_growth p1 p3
  have hpure : ResOk (fun l : List NodeId => l) (fun _ => True) s0
      ((pure values : M (List NodeId)) s1) :=
    ResOk.pure ⟨hext.choose, by rw [hs1]; exact hext.choose_spec⟩
      (by rwa [hs1]) (by rw [hs1]; exact hlast) (by rw [hs1]; exact hwf)
      trivial
  have harm : ResOk (fun l : List NodeId => l) (fun _ => True) s0
      ((do
        let val ← parse_val f
        let id ← insert val
        parse_list_items f (values ++ [id])) s1) := by
    refine ResOk.step (ih.val s1) ?_
    intro val s2 _ v1 v2 v3 v4 v5
    refine ResOk.step (insert_ok v2 v5) ?_
    intro nid s3 _ i1 i2 i3 i4 i5
    obtain ⟨hidlt, hgrow2, hlast2⟩ := insert_facts i2 i3 i5
    have hlen : s.arena.length ≤ s2.arena.length := by
      have h := ext_len v1
      rw [hs1] at h
      exact h
    have hlen3 : s2.arena.length ≤ s3.arena.length := ext_len i1
    refine ih.list_items (values ++ [nid]) s3 s0 ?_ ?_ ?_ ?_
    · exact ext_trans hext
        (ext_trans ⟨[], by rw [hs1]; simp⟩ (ext_trans v1 i1))
    · intro i hi
      rcases List.mem_append.mp hi with hi | hi
      · have := hids i hi
        omega
      · simp at hi
        subst hi
        exact hidlt
    · intro _
      exact List.mem_append.mpr (Or.inr (by simp [hlast2]))
    · intro hw
      exact i4 (v4 (by rw [hs1]; exact hwf hw))
  rcases pk with _ | tk
  · exact hpure
  · cases tk <;> first | exact hpure | exact harm

theorem set_head_ok_succ {f : Nat} (ih : CoreOk f) (untilTok : Token)
    (s : PState) :
    ResOk (fun r : Meta × List SetEntry => r.2.flatMap SetEntry.ids)
      (fun _ => True) s (parse_set (f + 1) untilTok s) := by
  rw [parse_set_succ]
  exact ih.set_entries untilTok [] s s ⟨[], by simp⟩ idsLt_nil
    (fun h => absurd h (lt_irrefl _)) id

theorem pattern_entries_ok_succ {f : Nat} (ih : CoreOk f) :
    ∀ args (s s0 : PState),
    (∃ t, s.arena = s0.arena ++ t) →
    IdsLt (args.flatMap PatEntry.ids) s.arena.length →
    (s0.arena.length < s.arena.length →
      s.arena.length - 1 ∈ args.flatMap PatEntry.ids) →
    (ArenaWF s0.arena → ArenaWF s.arena) →
    ResOk (fun r : List PatEntry × Option Meta => r.1.flatMap PatEntry.ids)
      (fun _ => True) s0 (parse_pattern_entries (f + 1) args s) := by
  intro args s s0 hext hids hlast hwf
  rw [parse_pattern_entries_succ]
  refine ResOk.step (peek_meta_ok s) ?_
  intro pk s1 _ p1 p2 p3 p4 _
  have hs1 : s1.arena = s.arena := no_growth p1 p3
  have hell : ResOk
      (fun r : List PatEntry × Option Meta => r.1.flatMap PatEntry.ids)
      (fun _ => True) s0
      ((do
        let new ← next
        pure (args, some new.1)) s1) := by
    refine ResOk.step (next_ok s1) ?_
    intro new s2 _ n1 n2 n3 n4 _
    have hs2 : s2.arena = s1.arena := no_growth n1 n3
    exact ResOk.pure ⟨hext.choose, by rw [hs2, hs1]; exact hext.choose_spec⟩
      (by rw [hs2, hs1]; exact hids) (by rw [hs2, hs1]; exact hlast)
      (by rw [hs2, hs1]; exact hwf) trivial
  have hclose : ResOk
      (fun r : List PatEntry × Option Meta => r.1.flatMap PatEntry.ids)
      (fun _ => True) s0
      ((pure (args, none) : M (List PatEntry × Option Meta)) s1) :=
    ResOk.pure ⟨hext.choose, by rw [hs1]; exact hext.choose_spec⟩
      (by rw [hs1]; exact hids) (by rw [hs1]; exact hlast)
      (by rw [hs1]; exact hwf) trivial
  have hmain : ResOk
      (fun r : List PatEntry × Option Meta => r.1.flatMap PatEntry.ids)
      (fun _ => True) s0
      ((do
        let (ident, name) ← next_ident
        let default ← (do
          let pk ← peek
          if pk == some Token.question then do
            let q ← next
            let expr ← parse_expr f
            let id ← insert expr
            pure (some (q.1, id))
          else pure none)
        let comma ← (do
          match ← peek with
          | some Token.comma => do
              let c ← next
              pure (some c.1)
          | _ => pure none)
        if comma.isNone then
          pure (args ++ [(⟨ident, name, default, comma⟩ : PatEntry)], none)
        else
          parse_pattern_entries f
            (args ++ [(⟨ident, name, default, comma⟩ : PatEntry)]))
        s1) := by
    refine ResOk.step (next_ident_ok s1) ?_
    intro idn s2 _ n1 n2 n3 n4 _
    have hs2 : s2.arena = s1.arena := no_growth n1 n3
    obtain ⟨ident, name⟩ := idn
    have hdef : ResOk optIds (fun _ => True) s2
        ((do
          let pk ← peek
          if pk == some Token.question then do
            let q ← next
            let expr ← parse_expr f
            let id ← insert expr
            pure (some (q.1, id))
          else pure none) s2) := by
      refine ResOk.step (peek_ok s2) ?_
      intro pk2 s3 _ q1 q2 q3 q4 _
      have hs3 : s3.arena = s2.arena := no_growth q1 q3
      by_cases hq : (pk2 == some Token.question) = true
      · rw [if_pos hq]
        refine ResOk.step (next_ok s3) ?_
        intro q s4 _ r1 r2 r3 r4 _
        have hs4 : s4.arena = s3.arena := no_growth r1 r3
        refine ResOk.step (ih.expr s4) ?_
        intro expr s5 _ e1 e2 e3 e4 e5
        refine ResOk.step (insert_ok e2 e5) ?_
        intro nid s6 _ i1 i2 i3 i4 i5
        obtain ⟨hidlt, hgrow2, hlast2⟩ := insert_facts i2 i3 i5
        refine ResOk.pure ?_ ?_ ?_ ?_ trivial
        · exact ext_trans ⟨[], by rw [hs4, hs3]; simp⟩ (ext_trans e1 i1)
        · intro i hi
          simp [optIds] at hi
          subst hi
          exact hidlt
        · intro _
          simpa [optIds] using hlast2
        · intro hw
          exact i4 (e4 (by rw [hs4, hs3]; exact hw))
      · rw [if_neg hq]
        exact ResOk.ok_eqArena hs3 idsLt_nil trivial
    refine ResOk.step hdef ?_
    intro default s3 _ d1 d2 d3 d4 _
    have hcomma : ResOk (fun _ : Option Meta => ([] : List Nat))
        (fun _ => True) s3
        ((do
          match ← peek with
          | some Token.comma => do
              let c ← next
              pure (some c.1)
          | _ => pure none) s3) := by
      refine ResOk.step (peek_ok s3) ?_
      intro pk3 s4 _ c1 c2 c3 c4 _
      have hs4 : s4.arena = s3.arena := no_growth c1 c3
      have hnone : ResOk (fun _ : Option Meta => ([] : List Nat))
          (fun _ => True) s3
          ((pure (none : Option Meta) : M (Option Meta)) s4) :=
        ResOk.ok_eqArena hs4 idsLt_nil trivial
      have hcm : ResOk (fun _ : Option Meta => ([] : List Nat))
          (fun _ => True) s3
          ((do
            let c ← next
            pure (some c.1)) s4) := by
        refine ResOk.step (next_ok s4) ?_
        intro c s5 _ m1 m2 m3 m4 _
        have hs5 : s5.arena = s4.arena := no_growth m1 m3
        exact ResOk.ok_eqArena (by rw [hs5, hs4]) idsLt_nil trivial
      rcases pk3 with _ | tk
      · exact hnone
      · cases tk <;> first | exact hnone | exact hcm
    refine ResOk.step hcomma ?_
    intro comma s4 _ c1 c2 c3 c4 _
    have hs4 : s4.arena = s3.arena := no_growth c1 c3
    have hl1 : s1.arena.length = s.arena.length := by rw [hs1]
    have hl2 : s2.arena.length = s1.arena.length := by rw [hs2]
    have hl23 : s2.arena.length ≤ s3.arena.length := ext_len d1
    have hl4 : s4.arena.length = s3.arena.length := by rw [hs4]
    have he : PatEntry.ids (⟨ident, name, default, comma⟩ : PatEntry) =
        optIds default := by
      cases default <;> rfl
    have hextF : ∃ t, s4.arena = s0.arena ++ t :=
      ext_trans hext (ext_trans ⟨[], by rw [hs2, hs1]; simp⟩
        (ext_trans d1 ⟨[], by rw [hs4]; simp⟩))
    have hidsF : IdsLt
        ((args ++ [(⟨ident, name, default, comma⟩ : PatEntry)]).flatMap
          PatEntry.ids) s4.arena.length := by
      intro i hi
      rw [List.flatMap_append] at hi
      rcases List.mem_append.mp hi with hi | hi
      · have h := hids i hi
        omega
      · rw [List.flatMap_singleton, he] at hi
        have h := d2 i hi
        omega
    have hlastF : s0.arena.length < s4.arena.length →
        s4.arena.length - 1 ∈
          (args ++ [(⟨ident, name, default, comma⟩ : PatEntry)]).flatMap
            PatEntry.ids := by
      intro hg
      rw [List.flatMap_append]
      by_cases hg2 : s2.arena.length < s3.arena.length
      · refine List.mem_append.mpr (Or.inr ?_)
        have h := d3 hg2
        rw [List.flatMap_singleton, he]
        have h4 : s4.arena.length - 1 = s3.arena.length - 1 := by omega
        rw [h4]
        exact h
      · have heq : s3.arena.length = s2.arena.length :=
          le_antisymm (not_lt.mp hg2) hl23
        refine List.mem_append.mpr (Or.inl ?_)
        have h4 : s4.arena.length - 1 = s.arena.length - 1 := by omega
        rw [h4]
        exact hlast (by omega)
    have hwfF : ArenaWF s0.arena → ArenaWF s4.arena := by
      intro hw
      rw [hs4]
      exact d4 (by rw [hs2, hs1]; exact hwf hw)
    by_cases hcn : comma.isNone = true
    · rw [if_pos hcn]
      exact ResOk.pure hextF hidsF hlastF hwfF trivial
    · rw [if_neg hcn]
      exact ih.pattern_entries
        (args ++ [(⟨ident, name, default, comma⟩ : PatEntry)]) s4 s0
        hextF hidsF hlastF hwfF
  rcases pk with _ | mt0
  · exact hmain
  · obtain ⟨m0, t0⟩ := mt0
    cases t0 <;> first | exact hell | exact hclose | exact hmain

theorem pattern_ok_succ {f : Nat} (ih : CoreOk f) (openM : Meta)
    (bind : Option PatternBind) (s : PState) :
    ResOk (fun n : ASTNode => n.typ.ids) NodeOk s
      (parse_pattern (f + 1) openM bind s) := by
  rw [parse_pattern_succ]
  refine ResOk.step (ih.pattern_entries [] s s ⟨[], by simp⟩ idsLt_nil
    (fun h => absurd h (lt_irrefl _)) id) ?_
  intro entries s1 _ g1 g2 g3 g4 _
  refine ResOk.step (expect_ok Token.curlyBClose s1) ?_
  intro close s2 _ x1 x2 x3 x4 _
  have hs2 : s2.arena = s1.arena := no_growth x1 x3
  have hbind : ResOk (fun _ : Option PatternBind => ([] : List Nat))
      (fun _ => True) s2
      ((do
        match ← peek with
        | some Token.atTk => do
            let at2 ← next
            if bind.isSome then
              throwE (some at2.1.span) ParseError.alreadyBound
            else do
              let (ident, name) ← next_ident
              pure (some (⟨false, at2.1.span.until ident.span, at2.1, ident,
                name⟩ : PatternBind))
        | _ => pure bind) s2) := by
    refine ResOk.step (peek_ok s2) ?_
    intro pk s3 _ q1 q2 q3 q4 _
    have hs3 : s3.arena = s2.arena := no_growth q1 q3
    have hpure : ResOk (fun _ : Option PatternBind => ([] : List Nat))
        (fun _ => True) s2
        ((pure bind : M (Option PatternBind)) s3) :=
      ResOk.ok_eqArena hs3 idsLt_nil trivial
    have hat : ResOk (fun _ : Option PatternBind => ([] : List Nat))
        (fun _ => True) s2
        ((do
          let at2 ← next
          if bind.isSome then
            throwE (some at2.1.span) ParseError.alreadyBound
          else do
            let (ident, name) ← next_ident
            pure (some (⟨false, at2.1.span.until ident.span, at2.1, ident,
              name⟩ : PatternBind))) s3) := by
      refine ResOk.step (next_ok s3) ?_
      intro at2 s4 _ r1 r2 r3 r4 _
      have hs4 : s4.arena = s3.arena := no_growth r1 r3
      by_cases hb : bind.isSome = true
      · rw [if_pos hb]
        exact ResOk.throw rfl
      · rw [if_neg hb]
        refine ResOk.step (next_ident_ok s4) ?_
        intro idn s5 _ w1 w2 w3 w4 _
        have hs5 : s5.arena = s4.arena := no_growth w1 w3
        obtain ⟨ident, name⟩ := idn
        exact ResOk.ok_eqArena (by rw [hs5, hs4, hs3]) idsLt_nil trivial
    rcases pk with _ | tk
    · exact hpure
    · cases tk <;> first | exact hpure | exact hat
  refine ResOk.step hbind ?_
  intro bind2 s3 _ b1 b2 b3 b4 _
  have hs3 : s3.arena = s2.arena := no_growth b1 b3
  refine ResOk.step (expect_ok Token.colon s3) ?_
  intro colon s4 _ y1 y2 y3 y4 _
  have hs4 : s4.arena = s3.arena := no_growth y1 y3
  refine ResOk.step (ih.expr s4) ?_
  intro expr s5 _ e1 e2 e3 e4 e5
  refine ResOk.step (insert_ok e2 e5) ?_
  intro nid s6 _ i1 i2 i3 i4 i5
  obtain ⟨hidlt, hgrow2, hlast2⟩ := insert_facts i2 i3 i5
  have hl2 : s2.arena.length = s1.arena.length := by rw [hs2]
  have hl3 : s3.arena.length = s2.arena.length := by rw [hs3]
  have hl4 : s4.arena.length = s3.arena.length := by rw [hs4]
  have hl45 : s4.arena.length ≤ s5.arena.length := ext_len e1
  refine ResOk.pure ?_ ?_ ?_ ?_ ?_
  · exact ext_trans g1 (ext_trans ⟨[], by rw [hs4, hs3, hs2]; simp⟩
      (ext_trans e1 i1))
  · intro i hi
    simp [ASTType.ids, LambdaArg.ids] at hi
    rcases hi with hi | rfl
    · have h := g2 i (by simpa using hi)
      omega
    · exact hidlt
  · intro _
    simp [ASTType.ids, LambdaArg.ids]
    right
    exact hlast2
  · intro hw
    exact i4 (e4 (by rw [hs4, hs3, hs2]; exact g4 hw))
  · intro l mo r h
    cases h

theorem set_entries_ok_succ {f : Nat} (ih : CoreOk f) :
    ∀ untilTok values (s s0 : PState),
    (∃ t, s.arena = s0.arena ++ t) →
    IdsLt (values.flatMap SetEntry.ids) s.arena.length →
    (s0.arena.length < s.arena.length →
      s.arena.length - 1 ∈ values.flatMap SetEntry.ids) →
    (ArenaWF s0.arena → ArenaWF s.arena) →
    ResOk (fun r : Meta × List SetEntry => r.2.flatMap SetEntry.ids)
      (fun _ => True) s0 (parse_set_entries (f + 1) untilTok values s) := by
  intro untilTok values s s0 hext hids hlast hwf
  rw [parse_set_entries_succ]
  refine ResOk.step (peek_ok s) ?_
  intro pk s1 _ p1 p2 p3 p4 _
  have hs1 : s1.arena = s.arena := no_growth p1 p3
  by_cases hu : (pk == some untilTok) = true
  · rw [if_pos hu]
    refine ResOk.step (next_ok s1) ?_
    intro e s2 _ n1 n2 n3 n4 _
    have hs2 : s2.arena = s1.arena := no_growth n1 n3
    exact ResOk.pure ⟨hext.choose, by rw [hs2, hs1]; exact hext.choose_spec⟩
      (by rw [hs2, hs1]; exact hids) (by rw [hs2, hs1]; exact hlast)
      (by rw [hs2, hs1]; exact hwf) trivial
  · rw [if_neg hu]
    have hassign : ResOk
        (fun r : Meta × List SetEntry => r.2.flatMap SetEntry.ids)
        (fun _ => True) s0
        ((do
          let key ← parse_attr f
          let assignM ← expect .assign
          let value ← parse_expr f
          let semi ← expect .semicolon
          let id ← insert value
          parse_set_entries f untilTok
            (values ++ [(.assign key assignM id semi : SetEntry)])) s1) := by
      refine ResOk.step (ih.attr s1) ?_
      intro key s2 _ a1 a2 a3 a4 _
      refine ResOk.step (expect_ok Token.assign s2) ?_
      intro assignM s3 _ x1 x2 x3 x4 _
      have hs3 : s3.arena = s2.arena := no_growth x1 x3
      refine ResOk.step (ih.expr s3) ?_
      intro value s4 _ e1 e2 e3 e4 e5
      refine ResOk.step (expect_ok Token.semicolon s4) ?_
      intro semi s5 _ y1 y2 y3 y4 _
      have hs5 : s5.arena = s4.arena := no_growth y1 y3
      refine ResOk.step (insert_ok (by rw [hs5]; exact e2) e5) ?_
      intro nid s6 _ i1 i2 i3 i4 i5
      obtain ⟨hidlt, hgrow2, hlast2⟩ := insert_facts i2 i3 i5
      have hl1 : s1.arena.length = s.arena.length := by rw [hs1]
      have hl12 : s1.arena.length ≤ s2.arena.length := ext_len a1
      have hl3 : s3.arena.length = s2.arena.length := by rw [hs3]
      have hl34 : s3.arena.length ≤ s4.arena.length := ext_len e1
      have hl5 : s5.arena.length = s4.arena.length := by rw [hs5]
      have hl56 : s5.arena.length ≤ s6.arena.length := ext_len i1
      refine ih.set_entries untilTok
        (values ++ [.assign key assignM nid semi]) s6 s0 ?_ ?_ ?_ ?_
      · exact ext_trans hext (ext_trans ⟨[], by rw [hs1]; simp⟩
          (ext_trans a1 (ext_trans ⟨[], by rw [hs3]; simp⟩
            (ext_trans e1 (ext_trans ⟨[], by rw [hs5]; simp⟩ i1)))))
      · intro i hi
        rw [List.flatMap_append] at hi
        rcases List.mem_append.mp hi with hi | hi
        · have h := hids i hi
          omega
        · rw [List.flatMap_singleton] at hi
          simp only [SetEntry.ids] at hi
          rcases List.mem_append.mp hi with hi | hi
          · have h := a2 i hi
            omega
          · simp at hi
            subst hi
            exact hidlt
      · intro _
        rw [List.flatMap_append, List.flatMap_singleton]
        refine List.mem_append.mpr (Or.inr ?_)
        simp [SetEntry.ids]
        right
        exact hlast2
      · intro hw
        refine i4 ?_
        rw [hs5]
        refine e4 ?_
        rw [hs3]
        exact a4 (by rw [hs1]; exact hwf hw)
    have hinherit : ResOk
        (fun r : Meta × List SetEntry => r.2.flatMap SetEntry.ids)
        (fun _ => True) s0
        ((do
          let (meta, _) ← next
          let fromExpr ← (do
            let pk2 ← peek
            if pk2 == some Token.parenOpen then do
              let openM ← next
              let fromE ← parse_expr f
              let close ← expect .parenClose
              let id ← insert fromE
              pure (some (⟨openM.1, id, close⟩ : Parens))
            else pure none)
          let vars ← collect_inherit_vars f []
          let semi ← expect .semicolon
          parse_set_entries f untilTok
            (values ++ [(.inheritE meta fromExpr vars semi : SetEntry)])) s1)
        := by
      refine ResOk.step (next_ok s1) ?_
      intro mt s2 _ n1 n2 n3 n4 _
      have hs2 : s2.arena = s1.arena := no_growth n1 n3
      obtain ⟨meta, mtk⟩ := mt
      have hfrom : ResOk parensIds (fun _ => True) s2
          ((do
            let pk2 ← peek
            if pk2 == some Token.parenOpen then do
              let openM ← next
              let fromE ← parse_expr f
              let close ← expect Token.parenClose
              let id ← insert fromE
              pure (some (⟨openM.1, id, close⟩ : Parens))
            else pure none) s2) := by
        refine ResOk.step (peek_ok s2) ?_
        intro pk2 s3 _ q1 q2 q3 q4 _
        have hs3 : s3.arena = s2.arena := no_growth q1 q3
        by_cases hp : (pk2 == some Token.parenOpen) = true
        · rw [if_pos hp]
          refine ResOk.step (next_ok s3) ?_
          intro openM s4 _ r1 r2 r3 r4 _
          have hs4 : s4.arena = s3.arena := no_growth r1 r3
          refine ResOk.step (ih.expr s4) ?_
          intro fromE s5 _ e1 e2 e3 e4 e5
          refine ResOk.step (expect_ok Token.parenClose s5) ?_
          intro close s6 _ y1 y2 y3 y4 _
          have hs6 : s6.arena = s5.arena := no_growth y1 y3
          refine ResOk.step (insert_ok (by rw [hs6]; exact e2) e5) ?_
          intro nid s7 _ i1 i2 i3 i4 i5
          obtain ⟨hidlt, hgrow2, hlast2⟩ := insert_facts i2 i3 i5
          refine ResOk.pure ?_ ?_ ?_ ?_ trivial
          · exact ext_trans ⟨[], by rw [hs4, hs3]; simp⟩
              (ext_trans e1 (ext_trans ⟨[], by rw [hs6]; simp⟩ i1))
          · intro i hi
            simp [parensIds] at hi
            subst hi
            exact hidlt
          · intro _
            simpa [parensIds] using hlast2
          · intro hw
            refine i4 ?_
            rw [hs6]
            exact e4 (by rw [hs4, hs3]; exact hw)
        · rw [if_neg hp]
          exact ResOk.ok_eqArena hs3 idsLt_nil trivial
      refine ResOk.step hfrom ?_
      intro fromExpr s3 _ d1 d2 d3 d4 _
      refine ResOk.step (ih.inherit_vars [] s3) ?_
      intro vars s4 _ v1 v2 v3 v4 _
      have hs4v : s4.arena = s3.arena := no_growth v1 v3
      refine ResOk.step (expect_ok Token.semicolon s4) ?_
      intro semi s5 _ y1 y2 y3 y4 _
      have hs5 : s5.arena = s4.arena := no_growth y1 y3
      have hl1 : s1.arena.length = s.arena.length := by rw [hs1]
      have hl2 : s2.arena.length = s1.arena.length := by rw [hs2]
      have hl23 : s2.arena.length ≤ s3.arena.length := ext_len d1
      have hl4 : s4.arena.length = s3.arena.length := by rw [hs4v]
      have hl5 : s5.arena.length = s4.arena.length := by rw [hs5]
      have he : SetEntry.ids (.inheritE meta fromExpr vars semi) =
          parensIds fromExpr := by
        cases fromExpr <;> rfl
      refine ih.set_entries untilTok
        (values ++ [.inheritE meta fromExpr vars semi]) s5 s0 ?_ ?_ ?_ ?_
      · exact ext_trans hext (ext_trans ⟨[], by rw [hs2, hs1]; simp⟩
          (ext_trans d1 ⟨[], by rw [hs5, hs4v]; simp⟩))
      · intro i hi
        rw [List.flatMap_append] at hi
        rcases List.mem_append.mp hi with hi | hi
        · have h := hids i hi
          omega
        · rw [List.flatMap_singleton, he] at hi
          have h := d2 i hi
          omega
      · intro hg
        rw [List.flatMap_append]
        by_cases hg2 : s2.arena.length < s3.arena.length
        · refine List.mem_append.mpr (Or.inr ?_)
          have h := d3 hg2
          rw [List.flatMap_singleton, he]
          have h5 : s5.arena.length - 1 = s3.arena.length - 1 := by omega
          rw [h5]
          exact h
        · have heq : s3.arena.length = s2.arena.length :=
            le_antisymm (not_lt.mp hg2) hl23
          refine List.mem_append.mpr (Or.inl ?_)
          have h5 : s5.arena.length - 1 = s.arena.length - 1 := by omega
          rw [h5]
          exact hlast (by omega)
      · intro hw
        rw [hs5, hs4v]
        exact d4 (by rw [hs2, hs1]; exact hwf hw)
    rcases pk with _ | tk
    · exact hassign
    · cases tk <;> first | exact hassign | exact hinherit

theorem val_dots_ok_succ {f : Nat} (ih : CoreOk f) :
    ∀ val (s s0 : PState),
    (∃ t, s.arena = s0.arena ++ t) →
    IdsLt val.typ.ids s.arena.length →
    (s0.arena.length < s.arena.length → s.arena.length - 1 ∈ val.typ.ids) →
    (ArenaWF s0.arena → ArenaWF s.arena) → NodeOk val →
    ResOk (fun n : ASTNode => n.typ.ids) NodeOk s0
      (parse_val_dots (f + 1) val s) := by
  intro val s s0 hext hids hlast hwf hok
  rw [parse_val_dots_succ]
  refine ResOk.step (peek_ok s) ?_
  intro pk s1 _ p1 p2 p3 p4 _
  have hs1 : s1.arena = s.arena := no_growth p1 p3
  by_cases hd : (pk == some Token.dot) = true
  · rw [if_pos hd]
    refine ResOk.step (next_ok s1) ?_
    intro d s2 _ n1 n2 n3 n4 _
    have hs2 : s2.arena = s1.arena := no_growth n1 n3
    refine ResOk.step (ih.attr_next s2) ?_
    intro attr s3 _ a1 a2 a3 a4 a5
    refine ResOk.step (peek_ok s3) ?_
    intro pk2 s4 _ q1 q2 q3 q4 _
    have hs4 : s4.arena = s3.arena := no_growth q1 q3
    have hl1 : s1.arena.length = s.arena.length := by rw [hs1]
    have hl2 : s2.arena.length = s1.arena.length := by rw [hs2]
    have hl23 : s2.arena.length ≤ s3.arena.length := ext_len a1
    have hl4 : s4.arena.length = s3.arena.length := by rw [hs4]
    by_cases ho : isOrIdent pk2 = true
    · rw [if_pos ho]
      refine ResOk.step (next_ok s4) ?_
      intro orTok s5 _ r1 r2 r3 r4 _
      have hs5 : s5.arena = s4.arena := no_growth r1 r3
      refine ResOk.step (ih.val s5) ?_
      intro dflt s6 _ v1 v2 v3 v4 v5
      have hl5 : s5.arena.length = s4.arena.length := by rw [hs5]
      have hl56 : s5.arena.length ≤ s6.arena.length := ext_len v1
      refine ResOk.step (insert_ok (hids.mono (by omega)) hok) ?_
      intro setId s7 _ i1 i2 i3 i4 i5
      obtain ⟨hA, hB, hC⟩ := insert_facts i2 i3 i5
      have hl67 : s6.arena.length ≤ s7.arena.length := ext_len i1
      refine ResOk.step (insert_ok (a2.mono (by omega)) a5) ?_
      intro attrId s8 _ j1 j2 j3 j4 j5
      obtain ⟨hA2, hB2, hC2⟩ := insert_facts j2 j3 j5
      have hl78 : s7.arena.length ≤ s8.arena.length := ext_len j1
      refine ResOk.step (insert_ok (v2.mono (by omega)) v5) ?_
      intro defaultId s9 _ k1 k2 k3 k4 k5
      obtain ⟨hA3, hB3, hC3⟩ := insert_facts k2 k3 k5
      have hl89 : s8.arena.length ≤ s9.arena.length := ext_len k1
      refine ih.val_dots _ s9 s0 ?_ ?_ ?_ ?_ ?_
      · exact ext_trans hext (ext_trans ⟨[], by rw [hs2, hs1]; simp⟩
          (ext_trans a1 (ext_trans ⟨[], by rw [hs5, hs4]; simp⟩
            (ext_trans v1 (ext_trans i1 (ext_trans j1 k1))))))
      · intro i hi
        simp [ASTType.ids] at hi
        rcases hi with rfl | rfl | rfl
        · omega
        · omega
        · omega
      · intro _
        simp [ASTType.ids]
        right; right
        exact hC3
      · intro hw
        have w3 : ArenaWF s3.arena := a4 (by rw [hs2, hs1]; exact hwf hw)
        have w5 : ArenaWF s5.arena := by rw [hs5, hs4]; exact w3
        exact k4 (j4 (i4 (v4 w5)))
      · intro l mo r h
        cases h
    · rw [if_neg ho]
      refine ResOk.step (insert_ok (hids.mono (by omega)) hok) ?_
      intro setId s5 _ i1 i2 i3 i4 i5
      obtain ⟨hA, hB, hC⟩ := insert_facts i2 i3 i5
      have hl45 : s4.arena.length ≤ s5.arena.length := ext_len i1
      refine ResOk.step (insert_ok (a2.mono (by omega)) a5) ?_
      intro attrId s6 _ j1 j2 j3 j4 j5
      obtain ⟨hA2, hB2, hC2⟩ := insert_facts j2 j3 j5
      have hl56 : s5.arena.length ≤ s6.arena.length := ext_len j1
      refine ih.val_dots _ s6 s0 ?_ ?_ ?_ ?_ ?_
      · exact ext_trans hext (ext_trans ⟨[], by rw [hs2, hs1]; simp⟩
          (ext_trans a1 (ext_trans ⟨[], by rw [hs4]; simp⟩
            (ext_trans i1 j1))))
      · intro i hi
        simp [ASTType.ids] at hi
        rcases hi with rfl | rfl
        · omega
        · omega
      · intro _
        simp [ASTType.ids]
        right
        exact hC2
      · intro hw
        have w3 : ArenaWF s3.arena := a4 (by rw [hs2, hs1]; exact hwf hw)
        exact j4 (i4 (by rw [hs4]; exact w3))
      · intro l mo r h
        cases h
  · rw [if_neg hd]
    exact ResOk.pure ⟨hext.choose, by rw [hs1]; exact hext.choose_spec⟩
      (by rwa [hs1]) (by rw [hs1]; exact hlast) (by rw [hs1]; exact hwf) hok

theorem val_ok_succ {f : Nat} (ih : CoreOk f) (s : PState) :
    ResOk (fun n : ASTNode => n.typ.ids) NodeOk s (parse_val (f + 1) s) := by
  rw [parse_val_succ]
  refine ResOk.step (next_ok s) ?_
  intro mt s1 _ n1 n2 n3 n4 _
  have hs1 : s1.arena = s.arena := no_growth n1 n3
  have hl1 : s1.arena.length = s.arena.length := by rw [hs1]
  obtain ⟨meta, tok⟩ := mt
  have hcont : ∀ (v : ASTNode) (s2 : PState),
      (∃ t, s2.arena = s1.arena ++ t) →
      IdsLt v.typ.ids s2.arena.length →
      (s1.arena.length < s2.arena.length →
        s2.arena.length - 1 ∈ v.typ.ids) →
      (ArenaWF s1.arena → ArenaWF s2.arena) → NodeOk v →
      ResOk (fun n : ASTNode => n.typ.ids) NodeOk s
        (parse_val_dots f v s2) :=
    fun v s2 m1 m2 m3 m4 m5 =>
      ih.val_dots v s2 s (ext_trans ⟨[], by rw [hs1]; simp⟩ m1) m2
        (by rw [← hl1]; exact m3) (fun hw => m4 (by rw [hs1]; exact hw)) m5
  refine ResOk.step ?_ (fun v s2 _ m1 m2 m3 m4 m5 => hcont v s2 m1 m2 m3 m4 m5)
  cases tok <;> try (exact ResOk.throw rfl)
  · rename_i name hx1
    refine ResOk.step (peek_ok s1) ?_
    intro pk s2 _ q1 q2 q3 q4 _
    have hs2 : s2.arena = s1.arena := no_growth q1 q3
    by_cases hat : (pk == some Token.atTk) = true
    · rw [if_pos hat]
      refine ResOk.step (next_ok s2) ?_
      intro at2 s3 _ r1 r2 r3 r4 _
      have hs3 : s3.arena = s2.arena := no_growth r1 r3
      refine ResOk.step (expect_ok Token.curlyBOpen s3) ?_
      intro openM s4 _ y1 y2 y3 y4 _
      have hs4 : s4.arena = s3.arena := no_growth y1 y3
      exact ResOk.rebase_eq (by rw [hs4, hs3, hs2])
        (ih.pattern openM
          (some ⟨true, meta.span.until at2.1.span, at2.1, meta, name⟩) s4)
    · rw [if_neg hat]
      exact ResOk.ok_eqArena hs2 idsLt_nil (by intro l mo r h; cases h)
  · exact ResOk.ok_eqArena rfl idsLt_nil (by intro l mo r h; cases h)
  · rename_i multiline parts hx1
    refine ResOk.step (ih.interpol meta multiline parts s1) ?_
    intro t s2 _ h1 h2 h3 h4 h5
    exact ResOk.pure h1 h2 h3 h4 h5
  · rename_i values close hx1
    refine ResOk.step (ih.branch values s1) ?_
    intro parsed s2 _ b1 b2 b3 b4 b5
    refine ResOk.step (insert_ok b2 b5) ?_
    intro nid s3 _ i1 i2 i3 i4 i5
    obtain ⟨hA, hB, hC⟩ := insert_facts i2 i3 i5
    refine ResOk.pure (ext_trans b1 i1) ?_ ?_ (fun hw => i4 (b4 hw)) ?_
    · intro i hi
      simp [ASTType.ids] at hi
      subst hi
      exact hA
    · intro _
      simpa [ASTType.ids] using hC
    · intro l mo r h
      cases h
  · refine ResOk.step (ih.expr s1) ?_
    intro expr s2 _ e1 e2 e3 e4 e5
    refine ResOk.step (expect_ok Token.parenClose s2) ?_
    intro close s3 _ y1 y2 y3 y4 _
    have hs3 : s3.arena = s2.arena := no_growth y1 y3
    refine ResOk.step (insert_ok (by rw [hs3]; exact e2) e5) ?_
    intro nid s4 _ i1 i2 i3 i4 i5
    obtain ⟨hA, hB, hC⟩ := insert_facts i2 i3 i5
    refine ResOk.pure ?_ ?_ ?_ ?_ ?_
    · exact ext_trans e1 (ext_trans ⟨[], by rw [hs3]; simp⟩ i1)
    · intro i hi
      simp [ASTType.ids] at hi
      subst hi
      exact hA
    · intro _
      simpa [ASTType.ids] using hC
    · intro hw
      exact i4 (by rw [hs3]; exact e4 hw)
    · intro l mo r h
      cases h
  · refine ResOk.step (ih.list_items [] s1 s1 ⟨[], by simp⟩ idsLt_nil
      (fun h => absurd h (lt_irrefl _)) id) ?_
    intro values s2 _ l1 l2 l3 l4 _
    refine ResOk.step (expect_ok Token.squareBClose s2) ?_
    intro close s3 _ y1 y2 y3 y4 _
    have hs3 : s3.arena = s2.arena := no_growth y1 y3
    refine ResOk.pure ?_ ?_ ?_ ?_ ?_
    · exact ext_trans l1 ⟨[], by rw [hs3]; simp⟩
    · intro i hi
      rw [hs3]
      exact l2 i (by simpa [ASTType.ids] using hi)
    · intro hg
      rw [hs3] at hg ⊢
      simpa [ASTType.ids] using l3 hg
    · intro hw
      rw [hs3]
      exact l4 hw
    · intro l mo r h
      cases h
  · refine ResOk.step (next_ok s1) ?_
    intro temporary s2 _ r1 r2 r3 r4 _
    have hs2 : s2.arena = s1.arena := no_growth r1 r3
    refine ResOk.step (peek_ok s2) ?_
    intro pk s3 _ q1 q2 q3 q4 _
    have hs3 : s3.arena = s2.arena := no_growth q1 q3
    by_cases hps : isPatternStart temporary.2 pk = true
    · rw [if_pos hps]
      refine ResOk.step (pushBack_ok temporary s3) ?_
      intro u s4 _ z1 z2 z3 z4 _
      have hs4 : s4.arena = s3.arena := no_growth z1 z3
      exact ResOk.rebase_eq (by rw [hs4, hs3, hs2]) (ih.pattern meta none s4)
    · rw [if_neg hps]
      refine ResOk.step (pushBack_ok temporary s3) ?_
      intro u s4 _ z1 z2 z3 z4 _
      have hs4 : s4.arena = s3.arena := no_growth z1 z3
      refine ResOk.step (ih.set Token.curlyBClose s4) ?_
      intro res s5 _ t1 t2 t3 t4 _
      refine ResOk.pure ?_ ?_ ?_ ?_ ?_
      · exact ext_trans ⟨[], by rw [hs4, hs3, hs2]; simp⟩ t1
      · intro i hi
        exact t2 i (by simpa [ASTType.ids] using hi)
      · intro hg
        have hl4 : s4.arena.length = s1.arena.length := by
          rw [hs4, hs3, hs2]
        have h3 := t3 (by omega)
        simpa [ASTType.ids] using h3
      · intro hw
        exact t4 (by rw [hs4, hs3, hs2]; exact hw)
      · intro l mo r h
        cases h
  · refine ResOk.step (expect_ok Token.curlyBOpen s1) ?_
    intro openM s2 _ y1 y2 y3 y4 _
    have hs2 : s2.arena = s1.arena := no_growth y1 y3
    refine ResOk.step (ih.set Token.curlyBClose s2) ?_
    intro res s3 _ t1 t2 t3 t4 _
    refine ResOk.pure ?_ ?_ ?_ ?_ ?_
    · exact ext_trans ⟨[], by rw [hs2]; simp⟩ t1
    · intro i hi
      exact t2 i (by simpa [ASTType.ids] using hi)
    · intro hg
      have hl2 : s2.arena.length = s1.arena.length := by rw [hs2]
      have h3 := t3 (by omega)
      simpa [ASTType.ids] using h3
    · intro hw
      exact t4 (by rw [hs2]; exact hw)
    · intro l mo r h
      cases h
  · refine ResOk.step (ih.val s1) ?_
    intro value s2 _ v1 v2 v3 v4 v5
    refine ResOk.step (insert_ok v2 v5) ?_
    intro nid s3 _ i1 i2 i3 i4 i5
    obtain ⟨hA, hB, hC⟩ := insert_facts i2 i3 i5
    refine ResOk.pure (ext_trans v1 i1) ?_ ?_ (fun hw => i4 (v4 hw)) ?_
    · intro i hi
      simp [ASTType.ids] at hi
      subst hi
      exact hA
    · intro _
      simpa [ASTType.ids] using hC
    · intro l mo r h
      cases h

theorem expr_ok_succ {f : Nat} (ih : CoreOk f) (s : PState) :
    ResOk (fun n : ASTNode => n.typ.ids) NodeOk s (parse_expr (f + 1) s) := by
  rw [parse_expr_succ]
  refine ResOk.step (peek_ok s) ?_
  intro pk s1 _ p1 p2 p3 p4 _
  have hs1 : s1.arena = s.arena := no_growth p1 p3
  have hl1 : s1.arena.length = s.arena.length := by rw [hs1]
  have hmath : ResOk (fun n : ASTNode => n.typ.ids) NodeOk s
      ((do
        let ast ← parse_math f
        match ast with
        | ⟨start, .var m name⟩ => do
            let pk ← peek
            if pk == some Token.colon then do
              let colon ← next
              let expr ← parse_expr f
              let id ← insert expr
              pure (⟨start.until expr.span,
                .lambda (.ident m name) colon.1 id⟩ : ASTNode)
            else pure (⟨start, .var m name⟩ : ASTNode)
        | ast2 => pure ast2) s1) := by
    have hP : ∀ (n : ASTNode) (s2 : PState),
        (∃ t, s2.arena = s1.arena ++ t) →
        IdsLt n.typ.ids s2.arena.length →
        (s1.arena.length < s2.arena.length →
          s2.arena.length - 1 ∈ n.typ.ids) →
        (ArenaWF s1.arena → ArenaWF s2.arena) → NodeOk n →
        ResOk (fun n : ASTNode => n.typ.ids) NodeOk s
          ((pure n : M ASTNode) s2) :=
      fun n s2 m1 m2 m3 m4 m5 =>
        ResOk.pure (ext_trans ⟨[], by rw [hs1]; simp⟩ m1) m2
          (by rw [← hl1]; exact m3) (fun hw => m4 (by rw [hs1]; exact hw)) m5
    refine ResOk.step (ih.math s1) ?_
    intro ast s2 _ m1 m2 m3 m4 m5
    obtain ⟨start, t⟩ := ast
    revert m1 m2 m3 m4 m5
    cases t
    all_goals intro mExt mWf mIds mGrow mOk
    all_goals try (exact hP _ s2 mExt mIds mGrow mWf mOk)
    rename_i m name
    refine ResOk.step (peek_ok s2) ?_
    intro pk2 s3 _ q1 q2 q3 q4 _
    have hs3 : s3.arena = s2.arena := no_growth q1 q3
    by_cases hc : (pk2 == some Token.colon) = true
    · rw [if_pos hc]
      refine ResOk.step (next_ok s3) ?_
      intro colon s4 _ r1 r2 r3 r4 _
      have hs4 : s4.arena = s3.arena := no_growth r1 r3
      refine ResOk.step (ih.expr s4) ?_
      intro expr s5 _ e1 e2 e3 e4 e5
      refine ResOk.step (insert_ok e2 e5) ?_
      intro nid s6 _ i1 i2 i3 i4 i5
      obtain ⟨hA, hB, hC⟩ := insert_facts i2 i3 i5
      refine ResOk.pure ?_ ?_ ?_ ?_ ?_
      · exact ext_trans ⟨[], by rw [hs1]; simp⟩ (ext_trans mExt
          (ext_trans ⟨[], by rw [hs4, hs3]; simp⟩ (ext_trans e1 i1)))
      · intro i hi
        simp [ASTType.ids, LambdaArg.ids] at hi
        subst hi
        exact hA
      · intro _
        simp [ASTType.ids, LambdaArg.ids]
        exact hC
      · intro hw
        refine i4 (e4 ?_)
        rw [hs4, hs3]
        exact mWf (by rw [hs1]; exact hw)
      · intro l mo r h
        cases h
    · rw [if_neg hc]
      have hs2 : s2.arena = s1.arena := no_growth mExt mGrow
      exact ResOk.ok_eqArena (by rw [hs3, hs2, hs1]) idsLt_nil
        (by intro l mo r h; cases h)
  rcases pk with _ | tk
  · exact hmath
  · cases tk <;> first | exact hmath | skip
    · refine ResOk.step (next_ok s1) ?_
      intro letTok s2 _ r1 r2 r3 r4 _
      have hs2 : s2.arena = s1.arena := no_growth r1 r3
      refine ResOk.step (peek_ok s2) ?_
      intro pk2 s3 _ q1 q2 q3 q4 _
      have hs3 : s3.arena = s2.arena := no_growth q1 q3
      by_cases hc : (pk2 == some Token.curlyBOpen) = true
      · rw [if_pos hc]
        refine ResOk.step (next_ok s3) ?_
        intro openM s4 _ z1 z2 z3 z4 _
        have hs4 : s4.arena = s3.arena := no_growth z1 z3
        refine ResOk.step (ih.set Token.curlyBClose s4) ?_
        intro res s5 _ t1 t2 t3 t4 _
        refine ResOk.pure ?_ ?_ ?_ ?_ ?_
        · exact ext_trans ⟨[], by rw [hs4, hs3, hs2, hs1]; simp⟩ t1
        · intro i hi
          exact t2 i (by simpa [ASTType.ids] using hi)
        · intro hg
          have hl4 : s4.arena.length = s.arena.length := by
            rw [hs4, hs3, hs2, hs1]
          have h3 := t3 (by omega)
          simpa [ASTType.ids] using h3
        · intro hw
          exact t4 (by rw [hs4, hs3, hs2, hs1]; exact hw)
        · intro l mo r h
          cases h
      · rw [if_neg hc]
        refine ResOk.step (ih.set Token.inKw s3) ?_
        intro res s4 _ t1 t2 t3 t4 _
        refine ResOk.step (ih.expr s4) ?_
        intro expr s5 _ e1 e2 e3 e4 e5
        refine ResOk.step (insert_ok e2 e5) ?_
        intro nid s6 _ i1 i2 i3 i4 i5
        obtain ⟨hA, hB, hC⟩ := insert_facts i2 i3 i5
        have hl45 : s4.arena.length ≤ s5.arena.length := ext_len e1
        have hl56 : s5.arena.length ≤ s6.arena.length := ext_len i1
        refine ResOk.pure ?_ ?_ ?_ ?_ ?_
        · exact ext_trans ⟨[], by rw [hs3, hs2, hs1]; simp⟩
            (ext_trans t1 (ext_trans e1 i1))
        · intro i hi
          simp [ASTType.ids] at hi
          rcases hi with hi | rfl
          · have h := t2 i (by simpa using hi)
            omega
          · exact hA
        · intro _
          simp [ASTType.ids]
          right
          exact hC
        · intro hw
          exact i4 (e4 (t4 (by rw [hs3, hs2, hs1]; exact hw)))
        · intro l mo r h
          cases h
    · refine ResOk.step (next_ok s1) ?_
      intro withTok s2 _ r1 r2 r3 r4 _
      have hs2 : s2.arena = s1.arena := no_growth r1 r3
      refine ResOk.step (ih.expr s2) ?_
      intro vars s3 _ e1 e2 e3 e4 e5
      refine ResOk.step (expect_ok Token.semicolon s3) ?_
      intro semi s4 _ y1 y2 y3 y4 _
      have hs4 : s4.arena = s3.arena := no_growth y1 y3
      refine ResOk.step (ih.expr s4) ?_
      intro rest s5 _ g1 g2 g3 g4 g5
      have hl35 : s3.arena.length ≤ s5.arena.length := by
        have h := ext_len g1
        rw [hs4] at h
        exact h
      refine ResOk.step (insert_ok (e2.mono hl35) e5) ?_
      intro varsId s6 _ i1 i2 i3 i4 i5
      obtain ⟨hA, hB, hC⟩ := insert_facts i2 i3 i5
      have hl56 : s5.arena.length ≤ s6.arena.length := ext_len i1
      refine ResOk.step (insert_ok (g2.mono hl56) g5) ?_
      intro restId s7 _ j1 j2 j3 j4 j5
      obtain ⟨hA2, hB2, hC2⟩ := insert_facts j2 j3 j5
      have hl67 : s6.arena.length ≤ s7.arena.length := ext_len j1
      refine ResOk.pure ?_ ?_ ?_ ?_ ?_
      · exact ext_trans ⟨[], by rw [hs2, hs1]; simp⟩ (ext_trans e1
          (ext_trans ⟨[], by rw [hs4]; simp⟩
            (ext_trans g1 (ext_trans i1 j1))))
      · intro i hi
        simp [ASTType.ids] at hi
        rcases hi with rfl | rfl
        · omega
        · omega
      · intro _
        simp [ASTType.ids]
        right
        exact hC2
      · intro hw
        refine j4 (i4 (g4 ?_))
        rw [hs4]
        exact e4 (by rw [hs2, hs1]; exact hw)
      · intro l mo r h
        cases h
    · refine ResOk.step (next_ok s1) ?_
      intro ifTok s2 _ r1 r2 r3 r4 _
      have hs2 : s2.arena = s1.arena := no_growth r1 r3
      refine ResOk.step (ih.expr s2) ?_
      intro condition s3 _ e1 e2 e3 e4 e5
      refine ResOk.step (expect_ok Token.thenKw s3) ?_
      intro thenMeta s4 _ y1 y2 y3 y4 _
      have hs4 : s4.arena = s3.arena := no_growth y1 y3
      refine ResOk.step (ih.expr s4) ?_
      intro body s5 _ g1 g2 g3 g4 g5
      refine ResOk.step (expect_ok Token.elseKw s5) ?_
      intro elseMeta s6 _ z1 z2 z3 z4 _
      have hs6 : s6.arena = s5.arena := no_growth z1 z3
      refine ResOk.step (ih.expr s6) ?_
      intro otherwise s7 _ w1 w2 w3 w4 w5
      have hl37 : s3.arena.length ≤ s7.arena.length := by
        have h1 := ext_len g1
        have h2 := ext_len w1
        rw [hs4] at h1
        rw [hs6] at h2
        omega
      refine ResOk.step (insert_ok (e2.mono hl37) e5) ?_
      intro conditionId s8 _ i1 i2 i3 i4 i5
      obtain ⟨hA, hB, hC⟩ := insert_facts i2 i3 i5
      have hl58 : s5.arena.length ≤ s8.arena.length := by
        have h2 := ext_len w1
        have h3 := ext_len i1
        rw [hs6] at h2
        omega
      refine ResOk.step (insert_ok (g2.mono hl58) g5) ?_
      intro thenId s9 _ j1 j2 j3 j4 j5
      obtain ⟨hA2, hB2, hC2⟩ := insert_facts j2 j3 j5
      have hl79 : s7.arena.length ≤ s9.arena.length := by
        have h3 := ext_len i1
        have h4 := ext_len j1
        omega
      refine ResOk.step (insert_ok (w2.mono hl79) w5) ?_
      intro elseId s10 _ k1 k2 k3 k4 k5
      obtain ⟨hA3, hB3, hC3⟩ := insert_facts k2 k3 k5
      have hl910 : s9.arena.length ≤ s10.arena.length := ext_len k1
      have hl89 : s8.arena.length ≤ s9.arena.length := ext_len j1
      refine ResOk.pure ?_ ?_ ?_ ?_ ?_
      · exact ext_trans ⟨[], by rw [hs2, hs1]; simp⟩ (ext_trans e1
          (ext_trans ⟨[], by rw [hs4]; simp⟩ (ext_trans g1
            (ext_trans ⟨[], by rw [hs6]; simp⟩ (ext_trans w1
              (ext_trans i1 (ext_trans j1 k1)))))))
      · intro i hi
        simp [ASTType.ids] at hi
        rcases hi with rfl | rfl | rfl
        · omega
        · omega
        · omega
      · intro _
        simp [ASTType.ids]
        right; right
        exact hC3
      · intro hw
        refine k4 (j4 (i4 (w4 ?_)))
        rw [hs6]
        refine g4 ?_
        rw [hs4]
        exact e4 (by rw [hs2, hs1]; exact hw)
      · intro l mo r h
        cases h
    · refine ResOk.step (next_ok s1) ?_
      intro assertTok s2 _ r1 r2 r3 r4 _
      have hs2 : s2.arena = s1.arena := no_growth r1 r3
      refine ResOk.step (ih.expr s2) ?_
      intro condition s3 _ e1 e2 e3 e4 e5
      refine ResOk.step (expect_ok Token.semicolon s3) ?_
      intro semi s4 _ y1 y2 y3 y4 _
      have hs4 : s4.arena = s3.arena := no_growth y1 y3
      refine ResOk.step (ih.expr s4) ?_
      intro rest s5 _ g1 g2 g3 g4 g5
      have hl35 : s3.arena.length ≤ s5.arena.length := by
        have h := ext_len g1
        rw [hs4] at h
        exact h
      refine ResOk.step (insert_ok (e2.mono hl35) e5) ?_
      intro condId s6 _ i1 i2 i3 i4 i5
      obtain ⟨hA, hB, hC⟩ := insert_facts i2 i3 i5
      have hl56 : s5.arena.length ≤ s6.arena.length := ext_len i1
      refine ResOk.step (insert_ok (g2.mono hl56) g5) ?_
      intro restId s7 _ j1 j2 j3 j4 j5
      obtain ⟨hA2, hB2, hC2⟩ := insert_facts j2 j3 j5
      have hl67 : s6.arena.length ≤ s7.arena.length := ext_len j1
      refine ResOk.pure ?_ ?_ ?_ ?_ ?_
      · exact ext_trans ⟨[], by rw [hs2, hs1]; simp⟩ (ext_trans e1
          (ext_trans ⟨[], by rw [hs4]; simp⟩
            (ext_trans g1 (ext_trans i1 j1))))
      · intro i hi
        simp [ASTType.ids] at hi
        rcases hi with rfl | rfl
        · omega
        · omega
      · intro _
        simp [ASTType.ids]
        right
        exact hC2
      · intro hw
        refine j4 (i4 (g4 ?_))
        rw [hs4]
        exact e4 (by rw [hs2, hs1]; exact hw)
      · intro l mo r h
        cases h

/-- The omnibus invariant holds at every fuel level: the parser only ever
appends to the arena, returns values whose node ids reference live slots,
preserves arena well-formedness, keeps Operation children consecutive, and
never produces an InvalidType error. -/
theorem coreOk : ∀ f, CoreOk f
  | 0 => coreOk_zero
  | f + 1 =>
    let ih := coreOk f
    { branch := branch_ok_succ ih
      interpol_parts := interpol_parts_ok_succ ih
      interpol := interpol_ok_succ ih
      attr_next := attr_next_ok_succ ih
      attr_loop := attr_loop_ok_succ ih
      attr := attr_ok_succ ih
      pattern_entries := pattern_entries_ok_succ ih
      pattern := pattern_ok_succ ih
      inherit_vars := inherit_vars_ok_succ ih
      set_entries := set_entries_ok_succ ih
      set := set_head_ok_succ ih
      list_items := list_items_ok_succ ih
      val := val_ok_succ ih
      val_dots := val_dots_ok_succ ih
      fn := fn_ok_succ ih
      fn_loop := fn_loop_ok_succ ih
      negate := negate_ok_succ ih
      isset := isset_ok_succ ih
      isset_loop := isset_loop_ok_succ ih
      concat := concat_ok_succ ih
      concat_loop := concat_loop_ok_succ ih
      mul := mul_ok_succ ih
      mul_loop := mul_loop_ok_succ ih
      add := add_ok_succ ih
      add_loop := add_loop_ok_succ ih
      invert := invert_ok_succ ih
      merge := merge_ok_succ ih
      merge_loop := merge_loop_ok_succ ih
      compare := compare_ok_succ ih
      equal := equal_ok_succ ih
      and := and_ok_succ ih
      and_loop := and_loop_ok_succ ih
      or := or_ok_succ ih
      or_loop := or_loop_ok_succ ih
      implication := implication_ok_succ ih
      implication_loop := implication_loop_ok_succ ih
      math := math_ok_succ ih
      expr := expr_ok_succ ih }

/-- C9 (confirmed): for every fuel bound and every input token stream, the
parser never returns an InvalidType error: the variant exists in the
ParseError enum but no parse path produces it. -/
theorem claim_C9 :
    ∀ (fuel : Nat) (tokens : List (Meta × Token)),
      (parse fuel tokens).isInvalidTypeErr = false := by
  intro fuel tokens
  have h := (coreOk fuel).expr ⟨tokens, []⟩
  unfold parse
  cases hx : parse_expr fuel ⟨tokens, []⟩ with
  | ok node s1 => rfl
  | err sp e =>
      rw [hx] at h
      exact h
  | fuelOut => rfl

/-- C10 (confirmed): on every successful parse the root node is returned by
value and is never inserted into the arena: no arena slot holds the root. -/
theorem claim_C10 (fuel : Nat) (tokens : List (Meta × Token))
    (root : ASTNode) (arena : List (Option ASTNode))
    (h : parse fuel tokens = .ok root arena) :
    ∀ (p : Nat) (n : ASTNode), arena[p]? = some (some n) → n ≠ root := by
  have hr := (coreOk fuel).expr ⟨tokens, []⟩
  unfold parse at h
  cases hx : parse_expr fuel ⟨tokens, []⟩ with
  | ok node s1 =>
      rw [hx] at h hr
      have h' : ParseOutcome.ok node s1.arena = ParseOutcome.ok root arena := h
      injection h' with h1 h2
      subst h1
      subst h2
      obtain ⟨hext, hids, hlast, hwf, hok⟩ := hr
      have hwf1 : ArenaWF s1.arena := hwf (by intro p n hp; simp at hp)
      intro p n hp heq
      subst heq
      obtain ⟨hlt, _⟩ := hwf1 p n hp
      have hplen : p < s1.arena.length := by
        rcases List.getElem?_eq_some_iff.mp hp with ⟨hl, _⟩
        exact hl
      have hl0 : (0 : Nat) < s1.arena.length :=
        lt_of_le_of_lt (Nat.zero_le p) hplen
      have hmem := hlast hl0
      have hx2 := hlt (s1.arena.length - 1) hmem
      exact absurd (lt_of_lt_of_le hx2 (Nat.le_pred_of_lt hplen))
        (lt_irrefl _)
  | err sp e =>
      rw [hx] at h
      simp at h
  | fuelOut =>
      rw [hx] at h
      simp at h

/-- C4 (amended; the claim as stated is disproved by
claim_C4_counterexample): arena ids are not assigned in global post-order,
but the Operation layout part of the claim does hold: for every successful
parse, every Operation node stored in the arena has its LHS id immediately
followed by its RHS id and both children precede the node's own slot, and
the root Operation likewise has consecutive children ids below the arena
length. -/
theorem claim_C4 (fuel : Nat) (tokens : List (Meta × Token))
    (root : ASTNode) (arena : List (Option ASTNode))
    (h : parse fuel tokens = .ok root arena) :
    (∀ (p : Nat) (n : ASTNode) (l : NodeId) (mo : Meta × Operator)
      (r : NodeId), arena[p]? = some (some n) → n.typ = .operation l mo r →
      l < r ∧ r = l + 1 ∧ r < p) ∧
    (∀ (l : NodeId) (mo : Meta × Operator) (r : NodeId),
      root.typ = .operation l mo r →
      l < r ∧ r = l + 1 ∧ r < arena.length) := by
  have hr := (coreOk fuel).expr ⟨tokens, []⟩
  unfold parse at h
  cases hx : parse_expr fuel ⟨tokens, []⟩ with
  | ok node s1 =>
      rw [hx] at h hr
      have h' : ParseOutcome.ok node s1.arena = ParseOutcome.ok root arena := h
      injection h' with h1 h2
      subst h1
      subst h2
      obtain ⟨hext, hids, hlast, hwf, hok⟩ := hr
      have hwf1 : ArenaWF s1.arena := hwf (by intro p n hp; simp at hp)
      constructor
      · intro p n l mo r hp hop
        obtain ⟨hlt, hnok⟩ := hwf1 p n hp
        have hr2 : r = l + 1 := hnok l mo r hop
        have hl2 : l < p := hlt l (by rw [hop]; simp [ASTType.ids])
        have hr3 : r < p := hlt r (by rw [hop]; simp [ASTType.ids])
        exact ⟨by rw [hr2]; exact Nat.lt_succ_self l, hr2, hr3⟩
      · intro l mo r hop
        have hr2 : r = l + 1 := hok l mo r hop
        have hrlen : r < s1.arena.length :=
          hids r (by show r ∈ node.typ.ids; rw [hop]; simp [ASTType.ids])
        exact ⟨by rw [hr2]; exact Nat.lt_succ_self l, hr2, hrlen⟩
  | err sp e =>
      rw [hx] at h
      simp at h
  | fuelOut =>
      rw [hx] at h
      simp at h

/-- C4 witness: the amended statement applied to the parse of 1 + 2 * 3,
checking the stored Mul operation at slot 3 and the Add operation at the
root. -/
theorem claim_C4_witness :
    ((0 : Nat) < 1 ∧ (1 : Nat) = 0 + 1 ∧ (1 : Nat) < 3) ∧
    ((2 : Nat) < 3 ∧ (3 : Nat) = 2 + 1 ∧ (3 : Nat) < 4) :=
  ⟨(claim_C4 100 [(mkMeta 0 1, .value (.int 1)), (mkMeta 2 3, .add),
        (mkMeta 4 5, .value (.int 2)), (mkMeta 6 7, .mul),
        (mkMeta 8 9, .value (.int 3))]
      ⟨⟨0, some 9⟩, .operation 2 (mkMeta 2 3, .add) 3⟩
      [some ⟨⟨4, some 5⟩, .value (mkMeta 4 5) (.int 2)⟩,
       some ⟨⟨8, some 9⟩, .value (mkMeta 8 9) (.int 3)⟩,
       some ⟨⟨0, some 1⟩, .value (mkMeta 0 1) (.int 1)⟩,
       some ⟨⟨4, some 9⟩, .operation 0 (mkMeta 6 7, .mul) 1⟩] rfl).1
    3 ⟨⟨4, some 9⟩, .operation 0 (mkMeta 6 7, .mul) 1⟩
    0 (mkMeta 6 7, Operator.mul) 1 rfl rfl,
   (claim_C4 100 [(mkMeta 0 1, .value (.int 1)), (mkMeta 2 3, .add),
        (mkMeta 4 5, .value (.int 2)), (mkMeta 6 7, .mul),
        (mkMeta 8 9, .value (.int 3))]
      ⟨⟨0, some 9⟩, .operation 2 (mkMeta 2 3, .add) 3⟩
      [some ⟨⟨4, some 5⟩, .value (mkMeta 4 5) (.int 2)⟩,
       some ⟨⟨8, some 9⟩, .value (mkMeta 8 9) (.int 3)⟩,
       some ⟨⟨0, some 1⟩, .value (mkMeta 0 1) (.int 1)⟩,
       some ⟨⟨4, some 9⟩, .operation 0 (mkMeta 6 7, .mul) 1⟩] rfl).2
    2 (mkMeta 2 3, Operator.add) 3 rfl⟩

/-- C10 witness: for the parse of 1 + 2 * 3, the Operation node stored at
arena slot 3 is not the root node. -/
theorem claim_C10_witness :
    (⟨⟨4, some 9⟩, .operation 0 (mkMeta 6 7, .mul) 1⟩ : ASTNode) ≠
      ⟨⟨0, some 9⟩, .operation 2 (mkMeta 2 3, .add) 3⟩ :=
  claim_C10 100 [(mkMeta 0 1, .value (.int 1)), (mkMeta 2 3, .add),
      (mkMeta 4 5, .value (.int 2)), (mkMeta 6 7, .mul),
      (mkMeta 8 9, .value (.int 3))]
    ⟨⟨0, some 9⟩, .operation 2 (mkMeta 2 3, .add) 3⟩
    [some ⟨⟨4, some 5⟩, .value (mkMeta 4 5) (.int 2)⟩,
     some ⟨⟨8, some 9⟩, .value (mkMeta 8 9) (.int 3)⟩,
     some ⟨⟨0, some 1⟩, .value (mkMeta 0 1) (.int 1)⟩,
     some ⟨⟨4, some 9⟩, .operation 0 (mkMeta 6 7, .mul) 1⟩] rfl
    3 ⟨⟨4, some 9⟩, .operation 0 (mkMeta 6 7, .mul) 1⟩ rfl

/-- C1 (amended; the claim as stated is disproved by
claim_C1_counterexample): span containment does not hold for every Meta
transitively inside a node. For every span-ordered stream of the or-default
family a.b or d, the OrDefault root's span (value start to attribute end)
covers the value, dot and attribute metas, yet the or keyword's meta and
the default expression's meta both lie transitively inside the node while
ending past the attribute, so neither is covered. -/
theorem claim_C1 (m1 m2 m3 m4 m5 : Meta) (a b : String) (d : Value)
    (e1 e2 e3 e4 e5 : Nat)
    (h1 : m1.span.stop = some e1) (h2 : m2.span.stop = some e2)
    (h3 : m3.span.stop = some e3) (h4 : m4.span.stop = some e4)
    (h5 : m5.span.stop = some e5)
    (hs12 : m1.span.start ≤ m2.span.start)
    (hs13 : m1.span.start ≤ m3.span.start)
    (he13 : e1 ≤ e3) (he23 : e2 ≤ e3)
    (he34 : e3 < e4) (he35 : e3 < e5) :
    parse 100 (orTokens m1 m2 m3 m4 m5 a b d) =
      .ok ⟨m1.span.until m3.span, .orDefault 0 m2 1 m4 2⟩
        [some ⟨m1.span, .var m1 a⟩, some ⟨m3.span, .var m3 b⟩,
         some ⟨m5.span, .value m5 d⟩] ∧
    Span.covers (m1.span.until m3.span) m1.span = true ∧
    Span.covers (m1.span.until m3.span) m2.span = true ∧
    Span.covers (m1.span.until m3.span) m3.span = true ∧
    m4 ∈ nodeAllMetas
        [some ⟨m1.span, .var m1 a⟩, some ⟨m3.span, .var m3 b⟩,
         some ⟨m5.span, .value m5 d⟩]
        ⟨m1.span.until m3.span, .orDefault 0 m2 1 m4 2⟩ ∧
    m5 ∈ nodeAllMetas
        [some ⟨m1.span, .var m1 a⟩, some ⟨m3.span, .var m3 b⟩,
         some ⟨m5.span, .value m5 d⟩]
        ⟨m1.span.until m3.span, .orDefault 0 m2 1 m4 2⟩ ∧
    Span.covers (m1.span.until m3.span) m4.span = false ∧
    Span.covers (m1.span.until m3.span) m5.span = false := by
  refine ⟨rfl, ?_, ?_, ?_, ?_, ?_, ?_, ?_⟩
  · simp [Span.covers, Span.until, h1, h3]
    exact he13
  · simp [Span.covers, Span.until, h2, h3]
    exact ⟨hs12, he23⟩
  · simp [Span.covers, Span.until, h3]
    exact hs13
  · simp [nodeAllMetas, arenaMetaTable, ASTType.metas, ASTType.ids,
      Interpol.metas]
  · simp [nodeAllMetas, arenaMetaTable, ASTType.metas, ASTType.ids,
      Interpol.metas]
  · have hno : ¬ (e4 ≤ e3) := by omega
    simp [Span.covers, Span.until, h3, h4, hno]
  · have hno : ¬ (e5 ≤ e3) := by omega
    simp [Span.covers, Span.until, h3, h5, hno]

/-- C1 witness: the amended statement at the concrete stream of
claim_C1_counterexample, with all ordering hypotheses checked. -/
theorem claim_C1_witness :
    parse 100 (orTokens (mkMeta 0 1) (mkMeta 1 2) (mkMeta 2 3) (mkMeta 4 6)
        (mkMeta 7 8) "a" "b" (.int 1)) =
      .ok ⟨(mkMeta 0 1).span.until (mkMeta 2 3).span,
            .orDefault 0 (mkMeta 1 2) 1 (mkMeta 4 6) 2⟩
        [some ⟨(mkMeta 0 1).span, .var (mkMeta 0 1) "a"⟩,
         some ⟨(mkMeta 2 3).span, .var (mkMeta 2 3) "b"⟩,
         some ⟨(mkMeta 7 8).span, .value (mkMeta 7 8) (.int 1)⟩] ∧
    Span.covers ((mkMeta 0 1).span.until (mkMeta 2 3).span)
      (mkMeta 0 1).span = true ∧
    Span.covers ((mkMeta 0 1).span.until (mkMeta 2 3).span)
      (mkMeta 1 2).span = true ∧
    Span.covers ((mkMeta 0 1).span.until (mkMeta 2 3).span)
      (mkMeta 2 3).span = true ∧
    mkMeta 4 6 ∈ nodeAllMetas
        [some ⟨(mkMeta 0 1).span, .var (mkMeta 0 1) "a"⟩,
         some ⟨(mkMeta 2 3).span, .var (mkMeta 2 3) "b"⟩,
         some ⟨(mkMeta 7 8).span, .value (mkMeta 7 8) (.int 1)⟩]
        ⟨(mkMeta 0 1).span.until (mkMeta 2 3).span,
          .orDefault 0 (mkMeta 1 2) 1 (mkMeta 4 6) 2⟩ ∧
    mkMeta 7 8 ∈ nodeAllMetas
        [some ⟨(mkMeta 0 1).span, .var (mkMeta 0 1) "a"⟩,
         some ⟨(mkMeta 2 3).span, .var (mkMeta 2 3) "b"⟩,
         some ⟨(mkMeta 7 8).span, .value (mkMeta 7 8) (.int 1)⟩]
        ⟨(mkMeta 0 1).span.until (mkMeta 2 3).span,
          .orDefault 0 (mkMeta 1 2) 1 (mkMeta 4 6) 2⟩ ∧
    Span.covers ((mkMeta 0 1).span.until (mkMeta 2 3).span)
      (mkMeta 4 6).span = false ∧
    Span.covers ((mkMeta 0 1).span.until (mkMeta 2 3).span)
      (mkMeta 7 8).span = false :=
  claim_C1 (mkMeta 0 1) (mkMeta 1 2) (mkMeta 2 3) (mkMeta 4 6) (mkMeta 7 8)
    "a" "b" (.int 1) 1 2 3 6 8 rfl rfl rfl rfl rfl (by decide) (by decide)
    (by decide) (by decide) (by decide) (by decide)

/-! At-token accounting: the number of at tokens in a stream, counting
transitively through owned token slices (dynamic segments and interpolated
parts), used to show that the single AlreadyBound throw site of
parse_pattern fires only when two at-binds' worth of at tokens exist. -/

mutual
/-- Number of at tokens in a token, transitively. -/
def Token.atNum : Token → Nat
  | .interpol _ parts => TokenInterpol.atNumList parts
  | .dynamic toks _ => streamAtCount toks
  | .atTk => 1
  | _ => 0
termination_by structural t => t
/-- Number of at tokens inside one interpolation part. -/
def TokenInterpol.atNum : TokenInterpol → Nat
  | .literal _ => 0
  | .tokens toks _ => streamAtCount toks
termination_by structural t => t
/-- Number of at tokens in a list of interpolation parts. -/
def TokenInterpol.atNumList : List TokenInterpol → Nat
  | [] => 0
  | p :: rest => TokenInterpol.atNum p + TokenInterpol.atNumList rest
termination_by structural l => l
/-- Number of at tokens in a token stream, transitively. -/
def streamAtCount : List (Meta × Token) → Nat
  | [] => 0
  | (_, t) :: rest => Token.atNum t + streamAtCount rest
termination_by structural l => l
end

/-- Whether a parse error is the AlreadyBound variant. -/
def ParseError.isAlreadyBound : ParseError → Bool
  | .alreadyBound => true
  | _ => false

/-- Whether a parse outcome is an AlreadyBound error. -/
def ParseOutcome.isAlreadyBoundErr : ParseOutcome → Bool
  | .err _ e => e.isAlreadyBound
  | _ => false

/-- The at-token budget invariant of one parser outcome relative to the
entry state: the stream never gains at tokens, and an AlreadyBound error
demands two at-binds' worth of budget (the stream count plus the credit of
a leading bind). -/
def ABRes {α : Type} (k : Nat) (s : PState) : PResult α → Prop
  | .ok _ s' => streamAtCount s'.tokens ≤ streamAtCount s.tokens
  | .err _ e => e = ParseError.alreadyBound →
      2 ≤ streamAtCount s.tokens + k
  | .fuelOut => True

/-- The budget invariant for computations over an owned token slice: the
parent stream is returned untouched and an AlreadyBound error demands two
at tokens inside the slice budget. -/
def ABResS {α : Type} (k : Nat) (s : PState) : PResult α → Prop
  | .ok _ s' => s'.tokens = s.tokens
  | .err _ e => e = ParseError.alreadyBound → 2 ≤ k
  | .fuelOut => True

theorem ABRes.chain {α β : Type} {x : M α} {g : α → M β} {k : Nat}
    {s s1 : PState}
    (hx : ABRes k s (x s1))
    (hg : ∀ a s2, x s1 = .ok a s2 →
      streamAtCount s2.tokens ≤ streamAtCount s.tokens →
      ABRes k s (g a s2)) :
    ABRes k s ((x >>= g) s1) := by
  rw [run_bind]
  cases hxs : x s1 with
  | ok a s2 =>
      rw [hxs] at hx
      exact hg a s2 hxs hx
  | err sp e => rw [hxs] at hx; exact hx
  | fuelOut => trivial

theorem ABRes.rebase {α : Type} {k : Nat} {s s1 : PState} {r : PResult α}
    (h : ABRes 0 s1 r)
    (hle : streamAtCount s1.tokens ≤ streamAtCount s.tokens) :
    ABRes k s r := by
  cases r with
  | ok a s' => exact le_trans h hle
  | err sp e =>
      intro hh
      have h2 := h hh
      rw [Nat.add_zero] at h2
      exact le_trans h2 (le_trans hle (Nat.le_add_right _ _))
  | fuelOut => trivial

theorem ABRes.use_credit {α : Type} {s s1 : PState} {r : PResult α}
    (h : ABRes 1 s1 r)
    (hle : streamAtCount s1.tokens + 1 ≤ streamAtCount s.tokens) :
    ABRes 0 s r := by
  cases r with
  | ok a s' => exact le_trans h (le_trans (Nat.le_add_right _ 1) hle)
  | err sp e =>
      intro hh
      exact le_trans (h hh) (le_trans hle (Nat.le_add_right _ 0))
  | fuelOut => trivial

theorem ABRes.ret {α : Type} {a : α} {k : Nat} {s s1 : PState}
    (hle : streamAtCount s1.tokens ≤ streamAtCount s.tokens) :
    ABRes k s ((pure a : M α) s1) := hle

theorem ABRes.throw_ne {α : Type} {sp : Option Span} {e : ParseError}
    {k : Nat} {s s1 : PState} (hne : e ≠ ParseError.alreadyBound) :
    ABRes k s ((throwE sp e : M α) s1) := fun h => absurd h hne

theorem ABResS.chainS {α β : Type} {x : M α} {g : α → M β} {k : Nat}
    {s s1 : PState}
    (hx : ABResS k s (x s1))
    (hg : ∀ a s2, x s1 = .ok a s2 → s2.tokens = s.tokens →
      ABResS k s (g a s2)) :
    ABResS k s ((x >>= g) s1) := by
  rw [run_bind]
  cases hxs : x s1 with
  | ok a s2 =>
      rw [hxs] at hx
      exact hg a s2 hxs hx
  | err sp e => rw [hxs] at hx; exact hx
  | fuelOut => trivial

theorem ABResS.rebaseS {α : Type} {k k' : Nat} {s s1 : PState} {r : PResult α}
    (h : ABResS k s1 r) (hk : k ≤ k') (ht : s1.tokens = s.tokens) :
    ABResS k' s r := by
  cases r with
  | ok a s' => exact h.trans ht
  | err sp e => exact fun hh => le_trans (h hh) hk
  | fuelOut => trivial

theorem ABResS.toAB {α : Type} {kk k : Nat} {s s1 : PState} {r : PResult α}
    (h : ABResS kk s1 r)
    (hle : streamAtCount s1.tokens ≤ streamAtCount s.tokens)
    (hkk : kk ≤ streamAtCount s.tokens + k) :
    ABRes k s r := by
  cases r with
  | ok a s' => exact le_trans (le_of_eq (congrArg streamAtCount h)) hle
  | err sp e => exact fun hh => le_trans (h hh) hkk
  | fuelOut => trivial

theorem next_tokens {mt : Meta × Token} {s s' : PState}
    (h : next s = .ok mt s') : s.tokens = mt :: s'.tokens := by
  cases s with
  | mk toks arena =>
      cases toks with
      | nil => exact nomatch h
      | cons t rest =>
          rw [run_next_cons] at h
          injection h with e1 e2
          rw [e1, ← e2]

theorem expect_le {e : Token} {m : Meta} {s s' : PState}
    (h : expect e s = .ok m s') :
    streamAtCount s'.tokens ≤ streamAtCount s.tokens := by
  cases s with
  | mk toks arena =>
      cases toks with
      | nil =>
          rw [run_expect_nil] at h
          exact nomatch h
      | cons t rest =>
          obtain ⟨mm, tok⟩ := t
          rw [run_expect_cons] at h
          by_cases hc : (tok == e) = true
          · rw [if_pos hc] at h
            injection h with e1 e2
            rw [← e2]
            show streamAtCount rest ≤
              Token.atNum tok + streamAtCount rest
            exact Nat.le_add_left _ _
          · rw [if_neg hc] at h
            exact nomatch h

theorem next_ab {k : Nat} {s s1 : PState}
    (hle : streamAtCount s1.tokens ≤ streamAtCount s.tokens) :
    ABRes k s (next s1) := by
  cases s1 with
  | mk toks arena =>
      cases toks with
      | nil => exact fun h => ParseError.noConfusion h
      | cons t rest =>
          obtain ⟨m, tok⟩ := t
          show streamAtCount rest ≤ streamAtCount s.tokens
          exact le_trans (Nat.le_add_left _ _) hle

theorem expect_ab {k : Nat} (e : Token) {s s1 : PState}
    (hle : streamAtCount s1.tokens ≤ streamAtCount s.tokens) :
    ABRes k s (expect e s1) := by
  cases s1 with
  | mk toks arena =>
      cases toks with
      | nil =>
          rw [run_expect_nil]
          exact fun h => ParseError.noConfusion h
      | cons t rest =>
          obtain ⟨m, tok⟩ := t
          rw [run_expect_cons]
          by_cases hc : (tok == e) = true
          · rw [if_pos hc]
            show streamAtCount rest ≤ streamAtCount s.tokens
            exact le_trans (Nat.le_add_left _ _) hle
          · rw [if_neg hc]
            exact fun h => ParseError.noConfusion h

theorem next_ident_ab {k : Nat} {s s1 : PState}
    (hle : streamAtCount s1.tokens ≤ streamAtCount s.tokens) :
    ABRes k s (next_ident s1) := by
  cases s1 with
  | mk toks arena =>
      cases toks with
      | nil => exact fun h => ParseError.noConfusion h
      | cons t rest =>
          obtain ⟨m, tok⟩ := t
          cases tok <;>
            first
              | exact fun h => ParseError.noConfusion h
              | (show streamAtCount rest ≤ streamAtCount s.tokens
                 exact le_trans (Nat.le_add_left _ _) hle)

theorem peek_ab {k : Nat} {s s1 : PState}
    (hle : streamAtCount s1.tokens ≤ streamAtCount s.tokens) :
    ABRes k s (peek s1) := hle

theorem peek_meta_ab {k : Nat} {s s1 : PState}
    (hle : streamAtCount s1.tokens ≤ streamAtCount s.tokens) :
    ABRes k s (peek_meta s1) := hle

theorem mk_operation_ab {k : Nat} {val expr : ASTNode} {meta : Meta}
    {op : Operator} {s s1 : PState}
    (hle : streamAtCount s1.tokens ≤ streamAtCount s.tokens) :
    ABRes k s (mk_operation val expr meta op s1) := by
  rw [mk_operation_spec]
  exact hle

theorem opt_token_beq_atTk {pk : Option Token}
    (h : (pk == some Token.atTk) = true) : pk = some Token.atTk := by
  cases pk with
  | none => exact Bool.noConfusion h
  | some t =>
      have ht : (t == Token.atTk) = true := h
      cases t <;> first | rfl | exact Bool.noConfusion ht

/-- A head token that is an at token decomposes the stream and puts at
least one at token in its count. -/
theorem streamAtCount_head_atTk {stoks : List (Meta × Token)}
    (h : stoks.head?.map Prod.snd = some Token.atTk) :
    1 ≤ streamAtCount stoks ∧
      ∃ am rest, stoks = (am, Token.atTk) :: rest := by
  cases stoks with
  | nil => simp at h
  | cons t0 rest =>
      obtain ⟨am, tk⟩ := t0
      simp at h
      subst h
      exact ⟨Nat.le_add_right 1 _, am, rest, rfl⟩

/-- An error is AlreadyBound exactly when the observer says so. -/
theorem ParseError.isAlreadyBound_iff {e : ParseError} :
    e.isAlreadyBound = true ↔ e = ParseError.alreadyBound := by
  cases e <;> simp [ParseError.isAlreadyBound]

theorem insert_ab {k : Nat} {node : ASTNode} {s s1 : PState}
    (hle : streamAtCount s1.tokens ≤ streamAtCount s.tokens) :
    ABRes k s (insert node s1) := hle

theorem insert_abS {k : Nat} {node : ASTNode} {s s1 : PState}
    (ht : s1.tokens = s.tokens) : ABResS k s (insert node s1) := ht

/-- The at-token budget invariant of every parser method at a fuel level:
streams never gain at tokens, owned-slice methods return the parent stream
untouched with the slice count as error budget, and parse_pattern charges
one extra credit when it starts with a leading bind. -/
structure CoreAB (f : Nat) : Prop where
  branch : ∀ toks s, ABResS (streamAtCount toks) s (parse_branch f toks s)
  interpol_parts : ∀ values s,
    ABResS (TokenInterpol.atNumList values) s (parse_interpol_parts f values s)
  interpol : ∀ meta ml values s,
    ABResS (TokenInterpol.atNumList values) s (parse_interpol f meta ml values s)
  attr_next : ∀ s, ABRes 0 s (next_attr f s)
  attr_loop : ∀ path s, ABRes 0 s (parse_attr_loop f path s)
  attr : ∀ s, ABRes 0 s (parse_attr f s)
  pattern_entries : ∀ args s, ABRes 0 s (parse_pattern_entries f args s)
  pattern : ∀ openM bind s,
    ABRes (if bind.isSome then 1 else 0) s (parse_pattern f openM bind s)
  inherit_vars : ∀ vars s, ABRes 0 s (collect_inherit_vars f vars s)
  set_entries : ∀ untilTok values s,
    ABRes 0 s (parse_set_entries f untilTok values s)
  set : ∀ untilTok s, ABRes 0 s (parse_set f untilTok s)
  list_items : ∀ values s, ABRes 0 s (parse_list_items f values s)
  val : ∀ s, ABRes 0 s (parse_val f s)
  val_dots : ∀ val s, ABRes 0 s (parse_val_dots f val s)
  fn : ∀ s, ABRes 0 s (parse_fn f s)
  fn_loop : ∀ val s, ABRes 0 s (parse_fn_loop f val s)
  negate : ∀ s, ABRes 0 s (parse_negate f s)
  isset : ∀ s, ABRes 0 s (parse_isset f s)
  isset_loop : ∀ val s, ABRes 0 s (parse_isset_loop f val s)
  concat : ∀ s, ABRes 0 s (parse_concat f s)
  concat_loop : ∀ val s, ABRes 0 s (parse_concat_loop f val s)
  mul : ∀ s, ABRes 0 s (parse_mul f s)
  mul_loop : ∀ val s, ABRes 0 s (parse_mul_loop f val s)
  add : ∀ s, ABRes 0 s (parse_add f s)
  add_loop : ∀ val s, ABRes 0 s (parse_add_loop f val s)
  invert : ∀ s, ABRes 0 s (parse_invert f s)
  merge : ∀ s, ABRes 0 s (parse_merge f s)
  merge_loop : ∀ val s, ABRes 0 s (parse_merge_loop f val s)
  compare : ∀ s, ABRes 0 s (parse_compare f s)
  equal : ∀ s, ABRes 0 s (parse_equal f s)
  and : ∀ s, ABRes 0 s (parse_and f s)
  and_loop : ∀ val s, ABRes 0 s (parse_and_loop f val s)
  or : ∀ s, ABRes 0 s (parse_or f s)
  or_loop : ∀ val s, ABRes 0 s (parse_or_loop f val s)
  implication : ∀ s, ABRes 0 s (parse_implication f s)
  implication_loop : ∀ val s, ABRes 0 s (parse_implication_loop f val s)
  math : ∀ s, ABRes 0 s (parse_math f s)
  expr : ∀ s, ABRes 0 s (parse_expr f s)

/-- The budget invariants hold trivially at zero fuel. -/
theorem coreAB_zero : CoreAB 0 := by
  constructor <;> intros <;> trivial

theorem ab_branch_succ {f : Nat} (ih : CoreAB f) (toks : List (Meta × Token))
    (s : PState) : ABResS (streamAtCount toks) s (parse_branch (f + 1) toks s) := by
  simp only [parse_branch_succ]
  cases hx : parse_expr f ⟨toks, s.arena⟩ with
  | fuelOut => trivial
  | err sp e =>
      have h := ih.expr ⟨toks, s.arena⟩
      rw [hx] at h
      intro hh
      have h2 := h hh
      rw [Nat.add_zero] at h2
      exact h2
  | ok node s1 => rfl

theorem ab_interpol_parts_succ {f : Nat} (ih : CoreAB f)
    (values : List TokenInterpol) (s : PState) :
    ABResS (TokenInterpol.atNumList values) s
      (parse_interpol_parts (f + 1) values s) := by
  rw [parse_interpol_parts_succ]
  cases values with
  | nil => rfl
  | cons p rest =>
      cases p with
      | literal text =>
          refine ABResS.chainS (ABResS.rebaseS (ih.interpol_parts rest s)
            (Nat.le_add_left _ _) rfl) ?_
          intro tail s2 _ h2
          exact h2
      | tokens tokens close =>
          refine ABResS.chainS (ABResS.rebaseS (ih.branch tokens s)
            (Nat.le_add_right _ _) rfl) ?_
          intro parsed s2 _ h2
          refine ABResS.chainS (insert_abS h2) ?_
          intro id2 s3 _ h3
          refine ABResS.chainS (ABResS.rebaseS (ih.interpol_parts rest s3)
            (Nat.le_add_left _ _) h3) ?_
          intro tail s4 _ h4
          exact h4

theorem ab_interpol_succ {f : Nat} (ih : CoreAB f) (meta : Meta) (ml : Bool)
    (values : List TokenInterpol) (s : PState) :
    ABResS (TokenInterpol.atNumList values) s
      (parse_interpol (f + 1) meta ml values s) := by
  rw [parse_interpol_succ]
  refine ABResS.chainS (ABResS.rebaseS (ih.interpol_parts values s) le_rfl rfl) ?_
  intro parts s2 _ h2
  exact h2

theorem ab_attr_next_succ {f : Nat} (ih : CoreAB f) (s : PState) :
    ABRes 0 s (next_attr (f + 1) s) := by
  rw [next_attr_succ]
  refine ABRes.chain (next_ab le_rfl) ?_
  intro mt s1 hnx h1
  obtain ⟨meta, tok⟩ := mt
  cases tok <;>
    first
      | exact ABRes.ret h1
      | exact ABRes.throw_ne (fun h => ParseError.noConfusion h)
      | skip
  · rename_i multiline parts
    have hcount : streamAtCount s.tokens =
        TokenInterpol.atNumList parts + streamAtCount s1.tokens := by
      rw [next_tokens hnx]
      rfl
    refine ABRes.chain (ABResS.toAB (ih.interpol meta multiline parts s1) h1 ?_) ?_
    · rw [hcount]
      exact le_trans (Nat.le_add_right _ _) (Nat.le_add_right _ 0)
    · intro t s2 _ h2
      exact ABRes.ret h2
  · rename_i values close
    have hcount : streamAtCount s.tokens =
        streamAtCount values + streamAtCount s1.tokens := by
      rw [next_tokens hnx]
      rfl
    refine ABRes.chain (ABResS.toAB (ih.branch values s1) h1 ?_) ?_
    · rw [hcount]
      exact le_trans (Nat.le_add_right _ _) (Nat.le_add_right _ 0)
    · intro parsed s2 _ h2
      simp only [run_bind, run_insert]
      exact ABRes.ret h2

theorem ab_attr_loop_succ {f : Nat} (ih : CoreAB f)
    (path : List (NodeId × Option Meta)) (s : PState) :
    ABRes 0 s (parse_attr_loop (f + 1) path s) := by
  rw [parse_attr_loop_succ]
  refine ABRes.chain (ih.attr_next s) ?_
  intro attr s1 _ h1
  refine ABRes.chain (insert_ab h1) ?_
  intro attrId s1b _ h1b
  refine ABRes.chain (peek_ab h1b) ?_
  intro pk s2 _ h2
  by_cases hc : (pk == some Token.dot) = true
  · rw [if_pos hc]
    refine ABRes.chain (next_ab h2) ?_
    intro d s3 _ h3
    exact ABRes.rebase (ih.attr_loop _ s3) h3
  · rw [if_neg hc]
    exact ABRes.ret h2

theorem ab_attr_succ {f : Nat} (ih : CoreAB f) (s : PState) :
    ABRes 0 s (parse_attr (f + 1) s) := by
  rw [parse_attr_succ]
  exact ih.attr_loop [] s

theorem ab_inherit_vars_succ {f : Nat} (ih : CoreAB f)
    (vars : List (Meta × String)) (s : PState) :
    ABRes 0 s (collect_inherit_vars (f + 1) vars s) := by
  rw [collect_inherit_vars_succ]
  refine ABRes.chain (peek_ab le_rfl) ?_
  intro pk s1 _ h1
  rcases pk with _ | tk
  · exact ABRes.ret h1
  · cases tk <;> try (exact ABRes.ret h1)
    refine ABRes.chain (next_ident_ab h1) ?_
    intro v s2 _ h2
    exact ABRes.rebase (ih.inherit_vars _ s2) h2

theorem ab_set_entries_succ {f : Nat} (ih : CoreAB f) (untilTok : Token)
    (values : List SetEntry) (s : PState) :
    ABRes 0 s (parse_set_entries (f + 1) untilTok values s) := by
  rw [parse_set_entries_succ]
  refine ABRes.chain (peek_ab le_rfl) ?_
  intro pk s1 _ h1
  by_cases hu : (pk == some untilTok) = true
  · rw [if_pos hu]
    refine ABRes.chain (next_ab h1) ?_
    intro e s2 _ h2
    exact ABRes.ret h2
  · rw [if_neg hu]
    have harm : ABRes 0 s ((do
        let key ← parse_attr f
        let assignM ← expect .assign
        let value ← parse_expr f
        let semi ← expect .semicolon
        let id ← insert value
        parse_set_entries f untilTok
          (values ++ [SetEntry.assign key assignM id semi])) s1) := by
      refine ABRes.chain (ABRes.rebase (ih.attr s1) h1) ?_
      intro key s2 _ h2
      refine ABRes.chain (expect_ab Token.assign h2) ?_
      intro assignM s3 _ h3
      refine ABRes.chain (ABRes.rebase (ih.expr s3) h3) ?_
      intro value s4 _ h4
      refine ABRes.chain (expect_ab Token.semicolon h4) ?_
      intro semi s5 _ h5
      simp only [run_bind, run_insert]
      exact ABRes.rebase (ih.set_entries untilTok _ _) h5
    rcases pk with _ | tk
    · exact harm
    · cases tk <;> try (exact harm)
      refine ABRes.chain (next_ab h1) ?_
      intro mtv s2 _ h2
      obtain ⟨meta2, tk2⟩ := mtv
      refine ABRes.chain ?_ ?_
      · refine ABRes.chain (peek_ab h2) ?_
        intro pk2 s3 _ h3
        by_cases hp : (pk2 == some Token.parenOpen) = true
        · rw [if_pos hp]
          refine ABRes.chain (next_ab h3) ?_
          intro openM s4 _ h4
          refine ABRes.chain (ABRes.rebase (ih.expr s4) h4) ?_
          intro fromE s5 _ h5
          refine ABRes.chain (expect_ab Token.parenClose h5) ?_
          intro closeP s6 _ h6
          simp only [run_bind, run_insert]
          exact ABRes.ret h6
        · rw [if_neg hp]
          exact ABRes.ret h3
      · intro fromExpr s3 _ h3
        refine ABRes.chain (ABRes.rebase (ih.inherit_vars [] s3) h3) ?_
        intro vars2 s4 _ h4
        refine ABRes.chain (expect_ab Token.semicolon h4) ?_
        intro semi s5 _ h5
        exact ABRes.rebase (ih.set_entries untilTok _ s5) h5

theorem ab_set_succ {f : Nat} (ih : CoreAB f) (untilTok : Token) (s : PState) :
    ABRes 0 s (parse_set (f + 1) untilTok s) := by
  rw [parse_set_succ]
  exact ih.set_entries untilTok [] s

theorem ab_list_items_succ {f : Nat} (ih : CoreAB f) (values : List NodeId)
    (s : PState) : ABRes 0 s (parse_list_items (f + 1) values s) := by
  rw [parse_list_items_succ]
  refine ABRes.chain (peek_ab le_rfl) ?_
  intro pk s1 _ h1
  have harm : ABRes 0 s ((do
      let val ← parse_val f
      let id ← insert val
      parse_list_items f (values ++ [id])) s1) := by
    refine ABRes.chain (ABRes.rebase (ih.val s1) h1) ?_
    intro val s2 _ h2
    simp only [run_bind, run_insert]
    exact ABRes.rebase (ih.list_items _ _) h2
  rcases pk with _ | tk
  · exact ABRes.ret h1
  · cases tk <;> first | exact ABRes.ret h1 | exact harm

theorem ab_fn_succ {f : Nat} (ih : CoreAB f) (s : PState) :
    ABRes 0 s (parse_fn (f + 1) s) := by
  rw [parse_fn_succ]
  refine ABRes.chain (ih.val s) ?_
  intro val s1 _ h1
  exact ABRes.rebase (ih.fn_loop val s1) h1

theorem ab_fn_loop_succ {f : Nat} (ih : CoreAB f) (val : ASTNode) (s : PState) :
    ABRes 0 s (parse_fn_loop (f + 1) val s) := by
  rw [parse_fn_loop_succ]
  refine ABRes.chain (peek_ab le_rfl) ?_
  intro pk s1 _ h1
  by_cases hc : ((pk.map Token.is_fn_arg).getD false) = true
  · rw [if_pos hc]
    refine ABRes.chain (ABRes.rebase (ih.val s1) h1) ?_
    intro arg s2 _ h2
    simp only [run_bind, run_insert]
    exact ABRes.rebase (ih.fn_loop _ _) h2
  · rw [if_neg hc]
    exact ABRes.ret h1

theorem ab_negate_succ {f : Nat} (ih : CoreAB f) (s : PState) :
    ABRes 0 s (parse_negate (f + 1) s) := by
  rw [parse_negate_succ]
  refine ABRes.chain (peek_ab le_rfl) ?_
  intro pk s1 _ h1
  by_cases hc : (pk == some Token.sub) = true
  · rw [if_pos hc]
    refine ABRes.chain (next_ab h1) ?_
    intro subTok s2 _ h2
    refine ABRes.chain (ABRes.rebase (ih.negate s2) h2) ?_
    intro expr s3 _ h3
    simp only [run_bind, run_insert]
    exact ABRes.ret h3
  · rw [if_neg hc]
    exact ABRes.rebase (ih.fn s1) h1

theorem ab_invert_succ {f : Nat} (ih : CoreAB f) (s : PState) :
    ABRes 0 s (parse_invert (f + 1) s) := by
  rw [parse_invert_succ]
  refine ABRes.chain (peek_ab le_rfl) ?_
  intro pk s1 _ h1
  by_cases hc : (pk == some Token.invert) = true
  · rw [if_pos hc]
    refine ABRes.chain (next_ab h1) ?_
    intro excl s2 _ h2
    refine ABRes.chain (ABRes.rebase (ih.invert s2) h2) ?_
    intro expr s3 _ h3
    simp only [run_bind, run_insert]
    exact ABRes.ret h3
  · rw [if_neg hc]
    exact ABRes.rebase (ih.add s1) h1

/-- The fold step shared by the associative math loops: consume the operator
token, parse one more operand, fold with mk_operation and loop. -/
theorem math_arm_ab {nextP : M ASTNode} {loopP : ASTNode → M ASTNode}
    {op : Operator} {val : ASTNode} {s s1 : PState}
    (hle : streamAtCount s1.tokens ≤ streamAtCount s.tokens)
    (hnext : ∀ s2, ABRes 0 s2 (nextP s2))
    (hloop : ∀ v2 s2, ABRes 0 s2 (loopP v2 s2)) :
    ABRes 0 s ((do
      let mt ← next
      let expr ← nextP
      let val2 ← mk_operation val expr mt.1 op
      loopP val2) s1) := by
  refine ABRes.chain (next_ab hle) ?_
  intro mt s2 _ h2
  refine ABRes.chain (ABRes.rebase (hnext s2) h2) ?_
  intro expr s3 _ h3
  simp only [run_bind, mk_operation_spec]
  exact ABRes.rebase (hloop _ _) h3

theorem ab_isset_loop_succ {f : Nat} (ih : CoreAB f) (val : ASTNode)
    (s : PState) : ABRes 0 s (parse_isset_loop (f + 1) val s) := by
  rw [parse_isset_loop_succ]
  refine ABRes.chain (peek_ab le_rfl) ?_
  intro pk s1 _ h1
  have harm : ∀ op : Operator, ABRes 0 s ((do
      let mt ← next
      let expr ← parse_negate f
      let val2 ← mk_operation val expr mt.1 op
      parse_isset_loop f val2) s1) :=
    fun op => math_arm_ab h1 ih.negate ih.isset_loop
  rcases pk with _ | tk
  · exact ABRes.ret h1
  · cases tk <;> first | exact ABRes.ret h1 | exact harm Operator.isSet

theorem ab_isset_succ {f : Nat} (ih : CoreAB f) (s : PState) :
    ABRes 0 s (parse_isset (f + 1) s) := by
  rw [parse_isset_succ]
  refine ABRes.chain (ih.negate s) ?_
  intro val s1 _ h1
  exact ABRes.rebase (ih.isset_loop val s1) h1

theorem ab_concat_loop_succ {f : Nat} (ih : CoreAB f) (val : ASTNode)
    (s : PState) : ABRes 0 s (parse_concat_loop (f + 1) val s) := by
  rw [parse_concat_loop_succ]
  refine ABRes.chain (peek_ab le_rfl) ?_
  intro pk s1 _ h1
  have harm : ∀ op : Operator, ABRes 0 s ((do
      let mt ← next
      let expr ← parse_isset f
      let val2 ← mk_operation val expr mt.1 op
      parse_concat_loop f val2) s1) :=
    fun op => math_arm_ab h1 ih.isset ih.concat_loop
  rcases pk with _ | tk
  · exact ABRes.ret h1
  · cases tk <;> first | exact ABRes.ret h1 | exact harm Operator.concat

theorem ab_concat_succ {f : Nat} (ih : CoreAB f) (s : PState) :
    ABRes 0 s (parse_concat (f + 1) s) := by
  rw [parse_concat_succ]
  refine ABRes.chain (ih.isset s) ?_
  intro val s1 _ h1
  exact ABRes.rebase (ih.concat_loop val s1) h1

theorem ab_mul_loop_succ {f : Nat} (ih : CoreAB f) (val : ASTNode)
    (s : PState) : ABRes 0 s (parse_mul_loop (f + 1) val s) := by
  rw [parse_mul_loop_succ]
  refine ABRes.chain (peek_ab le_rfl) ?_
  intro pk s1 _ h1
  have harm : ∀ op : Operator, ABRes 0 s ((do
      let mt ← next
      let expr ← parse_concat f
      let val2 ← mk_operation val expr mt.1 op
      parse_mul_loop f val2) s1) :=
    fun op => math_arm_ab h1 ih.concat ih.mul_loop
  rcases pk with _ | tk
  · exact ABRes.ret h1
  · cases tk <;> first
      | exact ABRes.ret h1
      | exact harm Operator.mul
      | exact harm Operator.div

theorem ab_mul_succ {f : Nat} (ih : CoreAB f) (s : PState) :
    ABRes 0 s (parse_mul (f + 1) s) := by
  rw [parse_mul_succ]
  refine ABRes.chain (ih.concat s) ?_
  intro val s1 _ h1
  exact ABRes.rebase (ih.mul_loop val s1) h1

theorem ab_add_loop_succ {f : Nat} (ih : CoreAB f) (val : ASTNode)
    (s : PState) : ABRes 0 s (parse_add_loop (f + 1) val s) := by
  rw [parse_add_loop_succ]
  refine ABRes.chain (peek_ab le_rfl) ?_
  intro pk s1 _ h1
  have harm : ∀ op : Operator, ABRes 0 s ((do
      let mt ← next
      let expr ← parse_mul f
      let val2 ← mk_operation val expr mt.1 op
      parse_add_loop f val2) s1) :=
    fun op => math_arm_ab h1 ih.mul ih.add_loop
  rcases pk with _ | tk
  · exact ABRes.ret h1
  · cases tk <;> first
      | exact ABRes.ret h1
      | exact harm Operator.add
      | exact harm Operator.sub

theorem ab_add_succ {f : Nat} (ih : CoreAB f) (s : PState) :
    ABRes 0 s (parse_add (f + 1) s) := by
  rw [parse_add_succ]
  refine ABRes.chain (ih.mul s) ?_
  intro val s1 _ h1
  exact ABRes.rebase (ih.add_loop val s1) h1

theorem ab_merge_loop_succ {f : Nat} (ih : CoreAB f) (val : ASTNode)
    (s : PState) : ABRes 0 s (parse_merge_loop (f + 1) val s) := by
  rw [parse_merge_loop_succ]
  refine ABRes.chain (peek_ab le_rfl) ?_
  intro pk s1 _ h1
  have harm : ∀ op : Operator, ABRes 0 s ((do
      let mt ← next
      let expr ← parse_invert f
      let val2 ← mk_operation val expr mt.1 op
      parse_merge_loop f val2) s1) :=
    fun op => math_arm_ab h1 ih.invert ih.merge_loop
  rcases pk with _ | tk
  · exact ABRes.ret h1
  · cases tk <;> first | exact ABRes.ret h1 | exact harm Operator.merge

theorem ab_merge_succ {f : Nat} (ih : CoreAB f) (s : PState) :
    ABRes 0 s (parse_merge (f + 1) s) := by
  rw [parse_merge_succ]
  refine ABRes.chain (ih.invert s) ?_
  intro val s1 _ h1
  exact ABRes.rebase (ih.merge_loop val s1) h1

theorem ab_compare_succ {f : Nat} (ih : CoreAB f) (s : PState) :
    ABRes 0 s (parse_compare (f + 1) s) := by
  rw [parse_compare_succ]
  refine ABRes.chain (ih.merge s) ?_
  intro val s1 _ h1
  refine ABRes.chain (peek_ab h1) ?_
  intro pk s2 _ h2
  have harm : ∀ op : Operator, ABRes 0 s ((do
      let mt ← next
      let expr ← parse_merge f
      mk_operation val expr mt.1 op) s2) := by
    intro op
    refine ABRes.chain (next_ab h2) ?_
    intro mt s3 _ h3
    refine ABRes.chain (ABRes.rebase (ih.merge s3) h3) ?_
    intro expr s4 _ h4
    rw [mk_operation_spec]
    exact h4
  rcases pk with _ | tk
  · exact ABRes.ret h2
  · cases tk <;> first
      | exact ABRes.ret h2
      | exact harm Operator.less
      | exact harm Operator.lessOrEq
      | exact harm Operator.more
      | exact harm Operator.moreOrEq

theorem ab_equal_succ {f : Nat} (ih : CoreAB f) (s : PState) :
    ABRes 0 s (parse_equal (f + 1) s) := by
  rw [parse_equal_succ]
  refine ABRes.chain (ih.compare s) ?_
  intro val s1 _ h1
  refine ABRes.chain (peek_ab h1) ?_
  intro pk s2 _ h2
  have harm : ∀ op : Operator, ABRes 0 s ((do
      let mt ← next
      let expr ← parse_compare f
      mk_operation val expr mt.1 op) s2) := by
    intro op
    refine ABRes.chain (next_ab h2) ?_
    intro mt s3 _ h3
    refine ABRes.chain (ABRes.rebase (ih.compare s3) h3) ?_
    intro expr s4 _ h4
    rw [mk_operation_spec]
    exact h4
  rcases pk with _ | tk
  · exact ABRes.ret h2
  · cases tk <;> first
      | exact ABRes.ret h2
      | exact harm Operator.equal
      | exact harm Operator.notEqual

theorem ab_and_loop_succ {f : Nat} (ih : CoreAB f) (val : ASTNode)
    (s : PState) : ABRes 0 s (parse_and_loop (f + 1) val s) := by
  rw [parse_and_loop_succ]
  refine ABRes.chain (peek_ab le_rfl) ?_
  intro pk s1 _ h1
  have harm : ∀ op : Operator, ABRes 0 s ((do
      let mt ← next
      let expr ← parse_equal f
      let val2 ← mk_operation val expr mt.1 op
      parse_and_loop f val2) s1) :=
    fun op => math_arm_ab h1 ih.equal ih.and_loop
  rcases pk with _ | tk
  · exact ABRes.ret h1
  · cases tk <;> first | exact ABRes.ret h1 | exact harm Operator.and

theorem ab_and_succ {f : Nat} (ih : CoreAB f) (s : PState) :
    ABRes 0 s (parse_and (f + 1) s) := by
  rw [parse_and_succ]
  refine ABRes.chain (ih.equal s) ?_
  intro val s1 _ h1
  exact ABRes.rebase (ih.and_loop val s1) h1

theorem ab_or_loop_succ {f : Nat} (ih : CoreAB f) (val : ASTNode)
    (s : PState) : ABRes 0 s (parse_or_loop (f + 1) val s) := by
  rw [parse_or_loop_succ]
  refine ABRes.chain (peek_ab le_rfl) ?_
  intro pk s1 _ h1
  have harm : ∀ op : Operator, ABRes 0 s ((do
      let mt ← next
      let expr ← parse_and f
      let val2 ← mk_operation val expr mt.1 op
      parse_or_loop f val2) s1) :=
    fun op => math_arm_ab h1 ih.and ih.or_loop
  rcases pk with _ | tk
  · exact ABRes.ret h1
  · cases tk <;> first | exact ABRes.ret h1 | exact harm Operator.or

theorem ab_or_succ {f : Nat} (ih : CoreAB f) (s : PState) :
    ABRes 0 s (parse_or (f + 1) s) := by
  rw [parse_or_succ]
  refine ABRes.chain (ih.and s) ?_
  intro val s1 _ h1
  exact ABRes.rebase (ih.or_loop val s1) h1

theorem ab_implication_loop_succ {f : Nat} (ih : CoreAB f) (val : ASTNode)
    (s : PState) : ABRes 0 s (parse_implication_loop (f + 1) val s) := by
  rw [parse_implication_loop_succ]
  refine ABRes.chain (peek_ab le_rfl) ?_
  intro pk s1 _ h1
  have harm : ∀ op : Operator, ABRes 0 s ((do
      let mt ← next
      let expr ← parse_or f
      let val2 ← mk_operation val expr mt.1 op
      parse_implication_loop f val2) s1) :=
    fun op => math_arm_ab h1 ih.or ih.implication_loop
  rcases pk with _ | tk
  · exact ABRes.ret h1
  · cases tk <;> first | exact ABRes.ret h1 | exact harm Operator.implication

theorem ab_implication_succ {f : Nat} (ih : CoreAB f) (s : PState) :
    ABRes 0 s (parse_implication (f + 1) s) := by
  rw [parse_implication_succ]
  refine ABRes.chain (ih.or s) ?_
  intro val s1 _ h1
  exact ABRes.rebase (ih.implication_loop val s1) h1

theorem ab_math_succ {f : Nat} (ih : CoreAB f) (s : PState) :
    ABRes 0 s (parse_math (f + 1) s) := by
  rw [parse_math_succ]
  exact ih.implication s

theorem ab_pattern_entries_succ {f : Nat} (ih : CoreAB f)
    (args : List PatEntry) (s : PState) :
    ABRes 0 s (parse_pattern_entries (f + 1) args s) := by
  rw [parse_pattern_entries_succ]
  refine ABRes.chain (peek_meta_ab le_rfl) ?_
  intro pm s1 _ h1
  have harm : ABRes 0 s ((do
      let (ident, name) ← next_ident
      let default ← (do
        let pk ← peek
        if pk == some Token.question then do
          let q ← next
          let expr ← parse_expr f
          let id ← insert expr
          pure (some (q.1, id))
        else pure none)
      let comma ← (do
        match ← peek with
        | some Token.comma => do
            let c ← next
            pure (some c.1)
        | _ => pure none)
      if comma.isNone then
        pure (args ++ [(⟨ident, name, default, comma⟩ : PatEntry)], none)
      else
        parse_pattern_entries f
          (args ++ [(⟨ident, name, default, comma⟩ : PatEntry)])) s1) := by
    refine ABRes.chain (next_ident_ab h1) ?_
    intro idn s2 _ h2
    obtain ⟨ident, name⟩ := idn
    refine ABRes.chain ?_ ?_
    · refine ABRes.chain (peek_ab h2) ?_
      intro pk s3 _ h3
      by_cases hq : (pk == some Token.question) = true
      · rw [if_pos hq]
        refine ABRes.chain (next_ab h3) ?_
        intro q s4 _ h4
        refine ABRes.chain (ABRes.rebase (ih.expr s4) h4) ?_
        intro expr s5 _ h5
        simp only [run_bind, run_insert]
        exact ABRes.ret h5
      · rw [if_neg hq]
        exact ABRes.ret h3
    · intro default s3 _ h3
      refine ABRes.chain ?_ ?_
      · refine ABRes.chain (peek_ab h3) ?_
        intro pk s4 _ h4
        rcases pk with _ | tk
        · exact ABRes.ret h4
        · cases tk <;> try (exact ABRes.ret h4)
          refine ABRes.chain (next_ab h4) ?_
          intro c s5 _ h5
          exact ABRes.ret h5
      · intro comma s4 _ h4
        by_cases hcn : comma.isNone = true
        · rw [if_pos hcn]
          exact ABRes.ret h4
        · rw [if_neg hcn]
          exact ABRes.rebase (ih.pattern_entries _ s4) h4
  rcases pm with _ | ⟨mm, tk⟩
  · exact harm
  · cases tk <;> try (exact harm)
    · exact ABRes.ret h1
    · refine ABRes.chain (next_ab h1) ?_
      intro new s2 _ h2
      exact ABRes.ret h2

theorem ab_pattern_none_succ {f : Nat} (ih : CoreAB f) (openM : Meta)
    (s : PState) : ABRes 0 s (parse_pattern (f + 1) openM none s) := by
  rw [parse_pattern_succ]
  refine ABRes.chain (ABRes.rebase (ih.pattern_entries [] s) le_rfl) ?_
  intro entries s1 _ h1
  refine ABRes.chain (expect_ab Token.curlyBClose h1) ?_
  intro close s2 _ h2
  refine ABRes.chain ?_ ?_
  · refine ABRes.chain (peek_ab h2) ?_
    intro pk s3 _ h3
    rcases pk with _ | tk
    · exact ABRes.ret h3
    · cases tk <;> try (exact ABRes.ret h3)
      refine ABRes.chain (next_ab h3) ?_
      intro at2 s4 _ h4
      refine ABRes.chain (next_ident_ab h4) ?_
      intro idn s5 _ h5
      obtain ⟨imeta, iname⟩ := idn
      exact ABRes.ret h5
  · intro bind2 s4 _ h4
    refine ABRes.chain (expect_ab Token.colon h4) ?_
    intro colon s5 _ h5
    refine ABRes.chain (ABRes.rebase (ih.expr s5) h5) ?_
    intro expr s6 _ h6
    simp only [run_bind, run_insert]
    exact ABRes.ret h6

theorem ab_pattern_some_succ {f : Nat} (ih : CoreAB f) (openM : Meta)
    (pb : PatternBind) (s : PState) :
    ABRes 1 s (parse_pattern (f + 1) openM (some pb) s) := by
  rw [parse_pattern_succ]
  refine ABRes.chain (ABRes.rebase (ih.pattern_entries [] s) le_rfl) ?_
  intro entries s1 _ h1
  refine ABRes.chain (expect_ab Token.curlyBClose h1) ?_
  intro close s2 _ h2
  refine ABRes.chain ?_ ?_
  · refine ABRes.chain (peek_ab h2) ?_
    intro pk s3 hpk h3
    rw [run_peek] at hpk
    rcases pk with _ | tk
    · exact ABRes.ret h3
    · cases tk <;> try (exact ABRes.ret h3)
      injection hpk with e1 e2
      subst e2
      obtain ⟨hge1, am, rest2, hsteq⟩ := streamAtCount_head_atTk e1
      refine ABRes.chain (next_ab h3) ?_
      intro at2 s4 _ h4
      intro _hh
      show 2 ≤ streamAtCount s.tokens + 1
      omega
  · intro bind2 s4 _ h4
    refine ABRes.chain (expect_ab Token.colon h4) ?_
    intro colon s5 _ h5
    refine ABRes.chain (ABRes.rebase (ih.expr s5) h5) ?_
    intro expr s6 _ h6
    simp only [run_bind, run_insert]
    exact ABRes.ret h6

theorem ab_val_dots_succ {f : Nat} (ih : CoreAB f) (val : ASTNode)
    (s : PState) : ABRes 0 s (parse_val_dots (f + 1) val s) := by
  rw [parse_val_dots_succ]
  refine ABRes.chain (peek_ab le_rfl) ?_
  intro pk s1 _ h1
  by_cases hc : (pk == some Token.dot) = true
  · rw [if_pos hc]
    refine ABRes.chain (next_ab h1) ?_
    intro d s2 _ h2
    refine ABRes.chain (ih.attr_next s2 |>.rebase h2) ?_
    intro attr s3 _ h3
    refine ABRes.chain (peek_ab h3) ?_
    intro pk2 s4 _ h4
    by_cases ho : isOrIdent pk2 = true
    · rw [if_pos ho]
      refine ABRes.chain (next_ab h4) ?_
      intro orTok s5 _ h5
      refine ABRes.chain (ABRes.rebase (ih.val s5) h5) ?_
      intro default s6 _ h6
      refine ABRes.chain (insert_ab h6) ?_
      intro setId s7 _ h7
      refine ABRes.chain (insert_ab h7) ?_
      intro attrId s8 _ h8
      refine ABRes.chain (insert_ab h8) ?_
      intro defaultId s9 _ h9
      exact ABRes.rebase (ih.val_dots _ s9) h9
    · rw [if_neg ho]
      refine ABRes.chain (insert_ab h4) ?_
      intro setId s5 _ h5
      refine ABRes.chain (insert_ab h5) ?_
      intro attrId s6 _ h6
      exact ABRes.rebase (ih.val_dots _ s6) h6
  · rw [if_neg hc]
    exact ABRes.ret h1

theorem ab_val_succ {f : Nat} (ih : CoreAB f) (s : PState) :
    ABRes 0 s (parse_val (f + 1) s) := by
  rw [parse_val_succ]
  refine ABRes.chain (next_ab le_rfl) ?_
  intro mt s1 hnx h1
  obtain ⟨meta, tok⟩ := mt
  refine ABRes.chain ?_ (fun v s2 _ h2 => ABRes.rebase (ih.val_dots v s2) h2)
  cases tok <;>
    first
      | exact ABRes.ret h1
      | exact ABRes.throw_ne (fun h => ParseError.noConfusion h)
      | skip
  · rename_i name
    refine ABRes.chain (peek_ab h1) ?_
    intro pk s2 hpk h2
    by_cases hat : (pk == some Token.atTk) = true
    · rw [if_pos hat]
      have hpk2 : pk = some Token.atTk := opt_token_beq_atTk hat
      subst hpk2
      rw [run_peek] at hpk
      injection hpk with e1 e2
      subst e2
      obtain ⟨hge1, am, rest2, hsteq⟩ := streamAtCount_head_atTk e1
      refine ABRes.chain (next_ab h2) ?_
      intro at2 s3 hnx2 h3
      have hA : streamAtCount s1.tokens = 1 + streamAtCount s3.tokens := by
        have hcons := (next_tokens hnx2).symm.trans hsteq
        injection hcons with hat2 hrest
        rw [next_tokens hnx2, hat2]
        rfl
      refine ABRes.chain (expect_ab Token.curlyBOpen h3) ?_
      intro openM2 s4 heq2 h4
      have hle4 := expect_le heq2
      exact ABRes.use_credit (ih.pattern openM2 _ s4) (by omega)
    · rw [if_neg hat]
      exact ABRes.ret h2
  · rename_i multiline parts
    have hcount : streamAtCount s.tokens =
        TokenInterpol.atNumList parts + streamAtCount s1.tokens := by
      rw [next_tokens hnx]
      rfl
    refine ABRes.chain (ABResS.toAB (ih.interpol meta multiline parts s1) h1 ?_) ?_
    · rw [hcount]
      exact le_trans (Nat.le_add_right _ _) (Nat.le_add_right _ 0)
    · intro t s2 _ h2
      exact ABRes.ret h2
  · rename_i values close
    have hcount : streamAtCount s.tokens =
        streamAtCount values + streamAtCount s1.tokens := by
      rw [next_tokens hnx]
      rfl
    refine ABRes.chain (ABResS.toAB (ih.branch values s1) h1 ?_) ?_
    · rw [hcount]
      exact le_trans (Nat.le_add_right _ _) (Nat.le_add_right _ 0)
    · intro parsed s2 _ h2
      simp only [run_bind, run_insert]
      exact ABRes.ret h2
  · refine ABRes.chain (ABRes.rebase (ih.expr s1) h1) ?_
    intro expr s2 _ h2
    refine ABRes.chain (expect_ab Token.parenClose h2) ?_
    intro closeP s3 _ h3
    simp only [run_bind, run_insert]
    exact ABRes.ret h3
  · refine ABRes.chain (ABRes.rebase (ih.list_items [] s1) h1) ?_
    intro valuesL s2 _ h2
    refine ABRes.chain (expect_ab Token.squareBClose h2) ?_
    intro closeB s3 _ h3
    exact ABRes.ret h3
  · refine ABRes.chain (next_ab h1) ?_
    intro temporary s2 hnx2 h2
    have ht : s1.tokens = temporary :: s2.tokens := next_tokens hnx2
    refine ABRes.chain (peek_ab h2) ?_
    intro pk s3 hpk s3le
    rw [run_peek] at hpk
    injection hpk with e1 e2
    subst e2
    by_cases hps : isPatternStart temporary.2 pk = true
    · rw [if_pos hps]
      refine ABRes.chain ?_ ?_
      · show ABRes 0 s (pushBack temporary s2)
        show streamAtCount (temporary :: s2.tokens) ≤ streamAtCount s.tokens
        rw [← ht]
        exact h1
      · intro u s4 hpb h4
        refine ABRes.rebase (ih.pattern meta none s4) ?_
        exact h4
    · rw [if_neg hps]
      refine ABRes.chain ?_ ?_
      · show ABRes 0 s (pushBack temporary s2)
        show streamAtCount (temporary :: s2.tokens) ≤ streamAtCount s.tokens
        rw [← ht]
        exact h1
      · intro u s4 hpb h4
        refine ABRes.chain (ABRes.rebase (ih.set Token.curlyBClose s4) h4) ?_
        intro res s5 _ h5
        exact ABRes.ret h5
  · refine ABRes.chain (expect_ab Token.curlyBOpen h1) ?_
    intro openM2 s2 _ h2
    refine ABRes.chain (ABRes.rebase (ih.set Token.curlyBClose s2) h2) ?_
    intro res s3 _ h3
    exact ABRes.ret h3
  · refine ABRes.chain (ABRes.rebase (ih.val s1) h1) ?_
    intro value s2 _ h2
    simp only [run_bind, run_insert]
    exact ABRes.ret h2

theorem ab_expr_succ {f : Nat} (ih : CoreAB f) (s : PState) :
    ABRes 0 s (parse_expr (f + 1) s) := by
  rw [parse_expr_succ]
  refine ABRes.chain (peek_ab le_rfl) ?_
  intro pk s1 _ h1
  have hmath : ABRes 0 s ((do
      let ast ← parse_math f
      match ast with
      | ⟨start, .var m name⟩ => do
          let pk ← peek
          if pk == some Token.colon then do
            let colon ← next
            let expr ← parse_expr f
            let id ← insert expr
            pure (⟨start.until expr.span,
              .lambda (.ident m name) colon.1 id⟩ : ASTNode)
          else pure (⟨start, .var m name⟩ : ASTNode)
      | ast2 => pure ast2) s1) := by
    refine ABRes.chain (ABRes.rebase (ih.math s1) h1) ?_
    intro ast s2 _ h2
    obtain ⟨start, t⟩ := ast
    cases t
    all_goals try (exact ABRes.ret h2)
    rename_i m name
    refine ABRes.chain (peek_ab h2) ?_
    intro pk2 s3 _ h3
    by_cases hc : (pk2 == some Token.colon) = true
    · rw [if_pos hc]
      refine ABRes.chain (next_ab h3) ?_
      intro colon s4 _ h4
      refine ABRes.chain (ABRes.rebase (ih.expr s4) h4) ?_
      intro expr s5 _ h5
      simp only [run_bind, run_insert]
      exact ABRes.ret h5
    · rw [if_neg hc]
      exact ABRes.ret h3
  rcases pk with _ | tk
  · exact hmath
  · cases tk <;> first | exact hmath | skip
    · refine ABRes.chain (next_ab h1) ?_
      intro letTok s2 _ h2
      refine ABRes.chain (peek_ab h2) ?_
      intro pk2 s3 _ h3
      by_cases hc : (pk2 == some Token.curlyBOpen) = true
      · rw [if_pos hc]
        refine ABRes.chain (next_ab h3) ?_
        intro openM2 s4 _ h4
        refine ABRes.chain (ABRes.rebase (ih.set Token.curlyBClose s4) h4) ?_
        intro res s5 _ h5
        exact ABRes.ret h5
      · rw [if_neg hc]
        refine ABRes.chain (ABRes.rebase (ih.set Token.inKw s3) h3) ?_
        intro res s4 _ h4
        refine ABRes.chain (ABRes.rebase (ih.expr s4) h4) ?_
        intro expr s5 _ h5
        simp only [run_bind, run_insert]
        exact ABRes.ret h5
    · refine ABRes.chain (next_ab h1) ?_
      intro withTok s2 _ h2
      refine ABRes.chain (ABRes.rebase (ih.expr s2) h2) ?_
      intro vars s3 _ h3
      refine ABRes.chain (expect_ab Token.semicolon h3) ?_
      intro semi s4 _ h4
      refine ABRes.chain (ABRes.rebase (ih.expr s4) h4) ?_
      intro rest s5 _ h5
      simp only [run_bind, run_insert]
      exact ABRes.ret h5
    · refine ABRes.chain (next_ab h1) ?_
      intro ifTok s2 _ h2
      refine ABRes.chain (ABRes.rebase (ih.expr s2) h2) ?_
      intro condition s3 _ h3
      refine ABRes.chain (expect_ab Token.thenKw h3) ?_
      intro thenMeta s4 _ h4
      refine ABRes.chain (ABRes.rebase (ih.expr s4) h4) ?_
      intro body s5 _ h5
      refine ABRes.chain (expect_ab Token.elseKw h5) ?_
      intro elseMeta s6 _ h6
      refine ABRes.chain (ABRes.rebase (ih.expr s6) h6) ?_
      intro otherwise s7 _ h7
      simp only [run_bind, run_insert]
      exact ABRes.ret h7
    · refine ABRes.chain (next_ab h1) ?_
      intro assertTok s2 _ h2
      refine ABRes.chain (ABRes.rebase (ih.expr s2) h2) ?_
      intro condition s3 _ h3
      refine ABRes.chain (expect_ab Token.semicolon h3) ?_
      intro semi s4 _ h4
      refine ABRes.chain (ABRes.rebase (ih.expr s4) h4) ?_
      intro rest s5 _ h5
      simp only [run_bind, run_insert]
      exact ABRes.ret h5

/-- Every fuel level satisfies the at-token budget invariants. -/
theorem coreAB : ∀ f, CoreAB f
  | 0 => coreAB_zero
  | f + 1 =>
    let ih := coreAB f
    { branch := ab_branch_succ ih
      interpol_parts := ab_interpol_parts_succ ih
      interpol := ab_interpol_succ ih
      attr_next := ab_attr_next_succ ih
      attr_loop := ab_attr_loop_succ ih
      attr := ab_attr_succ ih
      pattern_entries := ab_pattern_entries_succ ih
      pattern := fun openM bind s =>
        match bind with
        | none => ab_pattern_none_succ ih openM s
        | some pb => ab_pattern_some_succ ih openM pb s
      inherit_vars := ab_inherit_vars_succ ih
      set_entries := ab_set_entries_succ ih
      set := ab_set_succ ih
      list_items := ab_list_items_succ ih
      val := ab_val_succ ih
      val_dots := ab_val_dots_succ ih
      fn := ab_fn_succ ih
      fn_loop := ab_fn_loop_succ ih
      negate := ab_negate_succ ih
      isset := ab_isset_succ ih
      isset_loop := ab_isset_loop_succ ih
      concat := ab_concat_succ ih
      concat_loop := ab_concat_loop_succ ih
      mul := ab_mul_succ ih
      mul_loop := ab_mul_loop_succ ih
      add := ab_add_succ ih
      add_loop := ab_add_loop_succ ih
      invert := ab_invert_succ ih
      merge := ab_merge_succ ih
      merge_loop := ab_merge_loop_succ ih
      compare := ab_compare_succ ih
      equal := ab_equal_succ ih
      and := ab_and_succ ih
      and_loop := ab_and_loop_succ ih
      or := ab_or_succ ih
      or_loop := ab_or_loop_succ ih
      implication := ab_implication_succ ih
      implication_loop := ab_implication_loop_succ ih
      math := ab_math_succ ih
      expr := ab_expr_succ ih }

/-- C8 (confirmed): the AlreadyBound error marks a doubly named pattern.
Four parts. (1) If a pattern already carries a leading bind, an at sign
after the closing brace makes parse_pattern fail with AlreadyBound at the
span of that second at sign. (2) A token stream holding at most one at
token - counted transitively through the owned slices of dynamic and
interpolated tokens - can never produce AlreadyBound: this covers both
patterns with no bind at all and the leading-bind-only form name@{...}:,
whose single at token is the leading bind's. (3) Any AlreadyBound failure
of parse_pattern needs two at-binds' worth of at tokens: at least two in
the remaining stream, or one in the stream on top of the credit of a
leading bind, so the error always originates at a doubly bound pattern.
(4) Concretely, x@\x7b \x7d@y: z fails with AlreadyBound at the second at
sign. -/
theorem claim_C8 :
    (∀ (f : Nat) (openM : Meta) (pb : PatternBind) (s : PState)
        (args : List PatEntry) (ell : Option Meta) (s1 : PState)
        (cm am : Meta) (rest : List (Meta × Token)),
      parse_pattern_entries f [] s = .ok (args, ell) s1 →
      s1.tokens = (cm, Token.curlyBClose) :: (am, Token.atTk) :: rest →
      parse_pattern (f + 1) openM (some pb) s =
        .err (some am.span) ParseError.alreadyBound) ∧
    (∀ (fuel : Nat) (tokens : List (Meta × Token)),
      streamAtCount tokens ≤ 1 →
      (parse fuel tokens).isAlreadyBoundErr = false) ∧
    (∀ (f : Nat) (openM : Meta) (bind : Option PatternBind) (s : PState)
        (sp : Option Span),
      parse_pattern f openM bind s = .err sp ParseError.alreadyBound →
      2 ≤ streamAtCount s.tokens + (if bind.isSome then 1 else 0)) ∧
    (∀ (m1 m2 m3 m4 m5 m6 m7 m8 : Meta) (x y z : String),
      parse 100 [(m1, .ident x), (m2, .atTk), (m3, .curlyBOpen),
        (m4, .curlyBClose), (m5, .atTk), (m6, .ident y), (m7, .colon),
        (m8, .ident z)] = .err (some m5.span) ParseError.alreadyBound) := by
  refine ⟨?_, ?_, ?_, ?_⟩
  · intro f openM pb s args ell s1 cm am rest h1 h2
    rw [parse_pattern_succ]
    simp [run_bind, h1, h2, expect, next, Token.beq]
  · intro fuel tokens hle
    have h := (coreAB fuel).expr ⟨tokens, []⟩
    unfold parse
    cases hx : parse_expr fuel ⟨tokens, []⟩ with
    | ok node s1 => rfl
    | err sp e =>
        rw [hx] at h
        show ParseError.isAlreadyBound e = false
        cases hb : ParseError.isAlreadyBound e with
        | false => rfl
        | true =>
            exfalso
            have h2 : 2 ≤ streamAtCount tokens + 0 :=
              h (ParseError.isAlreadyBound_iff.mp hb)
            omega
    | fuelOut => rfl
  · intro f openM bind s sp h
    have hab := (coreAB f).pattern openM bind s
    rw [h] at hab
    exact hab rfl
  · intro m1 m2 m3 m4 m5 m6 m7 m8 x y z
    rfl

/-- C8 witness: the three guarded parts applied at concrete inputs - the
double-bind state, a stream with a single at token, and the provenance
bound at the double-bind failure itself. -/
theorem claim_C8_witness :
    (parse_pattern 51 (mkMeta 2 3)
        (some ⟨true, ⟨0, some 2⟩, mkMeta 1 2, mkMeta 0 1, "x"⟩)
        ⟨[(mkMeta 3 4, Token.curlyBClose), (mkMeta 4 5, Token.atTk)], []⟩ =
      .err (some (mkMeta 4 5).span) ParseError.alreadyBound) ∧
    ((parse 20 [(mkMeta 0 1, Token.ident "x"), (mkMeta 1 2, Token.atTk),
        (mkMeta 2 3, Token.curlyBOpen), (mkMeta 3 4, Token.curlyBClose),
        (mkMeta 4 5, Token.colon),
        (mkMeta 5 6, Token.ident "y")]).isAlreadyBoundErr = false) ∧
    (2 ≤ streamAtCount [(mkMeta 3 4, Token.curlyBClose),
        (mkMeta 4 5, Token.atTk)] + 1) :=
  ⟨claim_C8.1 50 (mkMeta 2 3) ⟨true, ⟨0, some 2⟩, mkMeta 1 2, mkMeta 0 1, "x"⟩
      ⟨[(mkMeta 3 4, Token.curlyBClose), (mkMeta 4 5, Token.atTk)], []⟩ [] none
      ⟨[(mkMeta 3 4, Token.curlyBClose), (mkMeta 4 5, Token.atTk)], []⟩
      (mkMeta 3 4) (mkMeta 4 5) [] rfl rfl,
    claim_C8.2.1 20 [(mkMeta 0 1, Token.ident "x"), (mkMeta 1 2, Token.atTk),
      (mkMeta 2 3, Token.curlyBOpen), (mkMeta 3 4, Token.curlyBClose),
      (mkMeta 4 5, Token.colon), (mkMeta 5 6, Token.ident "y")] (by decide),
    claim_C8.2.2.1 51 (mkMeta 2 3)
      (some ⟨true, ⟨0, some 2⟩, mkMeta 1 2, mkMeta 0 1, "x"⟩)
      ⟨[(mkMeta 3 4, Token.curlyBClose), (mkMeta 4 5, Token.atTk)], []⟩
      (some (mkMeta 4 5).span)
      (claim_C8.1 50 (mkMeta 2 3) ⟨true, ⟨0, some 2⟩, mkMeta 1 2, mkMeta 0 1,
        "x"⟩
        ⟨[(mkMeta 3 4, Token.curlyBClose), (mkMeta 4 5, Token.atTk)], []⟩ []
        none ⟨[(mkMeta 3 4, Token.curlyBClose), (mkMeta 4 5, Token.atTk)], []⟩
        (mkMeta 3 4) (mkMeta 4 5) [] rfl rfl)⟩

end Rnix
